import Mathlib

/-!
# focks/sanity: struct validation driven by field tags

A shallow embedding of `sanity.go` (package `sanity`) and the properties of its
traversal engine.

Modelling conventions.

* A Go value reached through package `reflect` is a term of `Value`.  Scalars
  carry a flag telling whether their static type is a defined type (such as
  `type ID string`), because the type assertions in `handleField` only succeed
  on the predeclared types.  Cyclic object graphs have no representation.
* `map[string]error` and `map[string]string` are association lists in which
  every key occurs at most once (`mset` overwrites in place), so `len` is the
  list length.
* A runtime panic is the `error` side of `Except Panic`.
* Machine integers are mathematical integers; conversions to a narrower width
  wrap explicitly (`wrapInt`).  `int` is 64 bits wide.
* Package `regexp` is not part of the repository: the functions take
  `re : String → Option (String → Bool)`, where `re p = none` means that the
  pattern `p` does not compile (`regexp.MustCompile` panics) and
  `re p = some m` gives the match predicate of the compiled pattern.
* `strconv.ParseInt`, `strconv.Atoi`, `strconv.Itoa`, `strings.Split`,
  `strings.Join` and `reflect.StructTag.Get` (on a tag in the conventional
  format, kept as its list of key/value pairs) are transcribed from the Go
  standard library.
-/

namespace Sanity

/-! ## Failure kinds and rule names (sanity.go, lines 18-36) -/

/-- The six error values declared in the first `var` block. -/
inductive SanityError where
  | NotNullValidationFailedError
  | GTConditionValidationFailedError
  | LTConditionValidationFailedError
  | RegexValidationFailedError
  | MaxLenConditionValidationFailedError
  | MinLenConditionValidationFailedError
  deriving DecidableEq, Repr

open SanityError

def Label : String := "sanity"
def GreaterThan : String := "gt"
def LessThan : String := "lt"
def Regex : String := "regex"
def Optional : String := "optional"
def NotNull : String := "notnull"
def MaxLen : String := "maxlen"
def MinLen : String := "minlen"

/-! ## Go maps with string keys -/

/-- Lookup `m[key]`: the comma-ok form, `none` when the key is absent. -/
def mget {V : Type} : List (String × V) → String → Option V
  | [], _ => none
  | (k, v) :: rest, key => if k = key then some v else mget rest key

/-- Assignment `m[key] = val`: overwrites the entry of an existing key. -/
def mset {V : Type} : List (String × V) → String → V → List (String × V)
  | [], key, val => [(key, val)]
  | (k, v) :: rest, key, val =>
    if k = key then (k, val) :: rest else (k, v) :: mset rest key val

/-- The failure map `map[string]error`. -/
abbrev ErrorMap := List (String × SanityError)

/-- The instruction map `map[string]string` built for one field. -/
abbrev Instructions := List (String × String)

/-- Result type `SanityInfo` (sanity.go, lines 38-40). -/
structure SanityInfo where
  Errors : ErrorMap
  deriving DecidableEq, Repr

/-- The ways in which the code can panic. -/
inductive Panic where
  /-- A failed type assertion `x.(T)`. -/
  | interfaceConversion
  /-- The call `reflect.Value.Interface` on an unexported struct field. -/
  | unexportedField
  /-- The call `regexp.MustCompile` on a pattern that does not compile. -/
  | regexpCompile
  deriving DecidableEq, Repr

deriving instance DecidableEq for Except

/-! ## Standard library: strings, strconv, struct tags -/

/-- Pieces of a character list between occurrences of `sep`. -/
def splitChars (sep : Char) : List Char → List (List Char)
  | [] => [[]]
  | c :: cs =>
    if c = sep then [] :: splitChars sep cs
    else
      match splitChars sep cs with
      | [] => [[c]]
      | p :: ps => (c :: p) :: ps

/-- The call `strings.Split(s, ",")`. -/
def Split (s : String) : List String :=
  (splitChars ',' s.data).map String.mk

/-- The call `strings.Join(elems, ".")`. -/
def Join (elems : List String) : String :=
  ".".intercalate elems

/-- The call `tag.Get(key)`: the value of the first pair with that key, or `""`. -/
def Get (tag : List (String × String)) (key : String) : String :=
  match mget tag key with
  | some v => v
  | none => ""

/-- The call `strconv.Itoa(i)` for a slice index. -/
def Itoa (i : Nat) : String := Nat.repr i

/-- Outcome of `strconv.ParseUint`: the returned number and the kind of error. -/
inductive NumResult where
  | ok (n : Nat)
  | errSyntax
  | errRange (n : Nat)
  deriving DecidableEq, Repr

/-- The loop of `strconv.ParseUint(s, 10, bitSize)` over the bytes of `s`, with
`n` the `uint64` accumulated so far and `maxVal = 1<<bitSize - 1`. -/
def parseUintLoop (maxVal : Nat) : List Char → Nat → NumResult
  | [], n => .ok n
  | c :: cs, n =>
    if '0' ≤ c ∧ c ≤ '9' then
      let d := c.toNat - '0'.toNat
      if n ≥ (2 ^ 64 - 1) / 10 + 1 then .errRange maxVal
      else
        let n0 := (n * 10) % 2 ^ 64
        let n1 := (n0 + d) % 2 ^ 64
        if n1 < n0 ∨ n1 > maxVal then .errRange maxVal
        else parseUintLoop maxVal cs n1
    else .errSyntax

/-- The call `strconv.ParseUint(s, 10, bitSize)`. -/
def ParseUint (s : List Char) (bitSize : Nat) : NumResult :=
  match s with
  | [] => .errSyntax
  | _ => parseUintLoop (2 ^ bitSize - 1) s 0

/-- The number returned by `strconv.ParseInt(s, 10, bitSize)`, the error being
discarded as every caller in `sanity.go` does (`x, _ := strconv.ParseInt(...)`). -/
def ParseInt (s : String) (bitSize : Nat) : Int :=
  match s.data with
  | [] => 0
  | c :: cs =>
    let neg := decide (c = '-')
    let body := if c = '+' ∨ c = '-' then cs else c :: cs
    let cutoff : Nat := 2 ^ (bitSize - 1)
    let finish (un : Nat) : Int :=
      if ¬ neg ∧ un ≥ cutoff then (cutoff : Int) - 1
      else if neg ∧ un > cutoff then - (cutoff : Int)
      else if neg then - (un : Int) else (un : Int)
    match ParseUint body bitSize with
    | .errSyntax => 0
    | .errRange un => finish un
    | .ok un => finish un

/-- The number returned by `strconv.Atoi(s)` on a 64-bit platform. -/
def Atoi (s : String) : Int := ParseInt s 64

/-- Conversion of an integer to the signed type of `bits` bits (`int8(x)`,
`int16(x)`, `int32(x)`): two's complement wrap-around. -/
def wrapInt (bits : Nat) (x : Int) : Int :=
  (x + 2 ^ (bits - 1)) % 2 ^ bits - 2 ^ (bits - 1)

/-- The byte length `len(str)` of a Go string. -/
def strLen (s : String) : Nat := s.utf8ByteSize

/-! ## Values as seen through package reflect -/

/-- The signed integer kinds. -/
inductive IntKind where
  | Int | Int8 | Int16 | Int32 | Int64
  deriving DecidableEq, Repr

/-- The unsigned integer kinds that `handleField` lists. -/
inductive UintKind where
  | Uint | Uint8 | Uint16 | Uint32 | Uint64
  deriving DecidableEq, Repr

/-- One field of a struct: `reflect.StructField` together with the field's value.
`PkgPath` is empty exactly for exported fields; `Tag` holds the key/value pairs
of the struct tag. -/
structure StructField (α : Type) where
  Name : String
  PkgPath : String
  Tag : List (String × String)
  Value : α

/-- Go values.  For scalars, `defined = true` says that the static type is a
defined type whose underlying type is the scalar type.  For slices,
`ifaces = true` says that the static type is exactly `[]interface{}`, in which
case the elements are the dynamic values held by the interface elements. -/
inductive Value where
  /-- The nil interface value; under `rvalue` the zero `reflect.Value`. -/
  | nil
  | str (defined : Bool) (s : String)
  | bool (defined : Bool) (b : Bool)
  | int (k : IntKind) (defined : Bool) (n : Int)
  | uint (k : UintKind) (n : Nat)
  | chan
  | array (elems : List Value)
  | map (keys : List Value) (elems : List Value)
  /-- Kinds without a case in `handleField`: floats, complex numbers, funcs,
  interface-typed fields, uintptr, unsafe pointers. -/
  | other
  | slice (ifaces : Bool) (elems : List Value)
  | nilPtr
  | ptr (elem : Value)
  | struct (fields : List (StructField Value))
  /-- A `reflect.Value` wrapping `v`, held as an ordinary Go value.  Its kind is
  Struct and all of its fields are unexported. -/
  | rvalue (v : Value)

/-! ## The evaluators (sanity.go, lines 148-292) -/

/-- The condition `v, ok := instructions[NotNull]; ok && v == "true"`. -/
def notNullSet (instructions : Instructions) : Bool :=
  match mget instructions NotNull with
  | some v => decide (v = "true")
  | none => false

def handleBool (b : Bool) (instructions : Instructions) (fb : ErrorMap)
    (path : List String) : ErrorMap :=
  let completePath := Join path
  if notNullSet instructions ∧ b = false then
    mset fb completePath NotNullValidationFailedError
  else fb

def handleString (re : String → Option (String → Bool)) (str : String)
    (instructions : Instructions) (fb : ErrorMap) (path : List String) :
    Except Panic ErrorMap :=
  let completePath := Join path
  let fb1 :=
    if notNullSet instructions ∧ str = "" then
      mset fb completePath NotNullValidationFailedError
    else fb
  let afterRegex : Except Panic ErrorMap :=
    match mget instructions Regex with
    | some v =>
      match re v with
      | none => .error Panic.regexpCompile
      | some pattern =>
        if ¬ pattern str then .ok (mset fb1 completePath RegexValidationFailedError)
        else .ok fb1
    | none => .ok fb1
  match afterRegex with
  | .error e => .error e
  | .ok fb2 =>
    let fb3 :=
      match mget instructions MaxLen with
      | some v =>
        let n := Atoi v
        if (strLen str : Int) > n then
          mset fb2 completePath MaxLenConditionValidationFailedError
        else fb2
      | none => fb2
    let fb4 :=
      match mget instructions MinLen with
      | some v =>
        let n := Atoi v
        if (strLen str : Int) < n then
          mset fb3 completePath MinLenConditionValidationFailedError
        else fb3
      | none => fb3
    .ok fb4

/-- The common shape of `handleInt64`, `handleInt32`, `handleInt16`, `handleInt8`
and `handleInt`: the functions differ only in how the two thresholds are
obtained from the parameter strings (`gtOf`, `ltOf`). -/
def handleIntWith (gtOf ltOf : String → Int) (n : Int) (instructions : Instructions)
    (fb : ErrorMap) (path : List String) : ErrorMap :=
  let fb1 :=
    if notNullSet instructions ∧ n = 0 then
      mset fb (Join path) NotNullValidationFailedError
    else fb
  let fb2 :=
    match mget instructions GreaterThan with
    | some v =>
      let gt := gtOf v
      if n < gt then mset fb1 (Join path) GTConditionValidationFailedError else fb1
    | none => fb1
  match mget instructions LessThan with
  | some v =>
    let lt := ltOf v
    if n > lt then mset fb2 (Join path) LTConditionValidationFailedError else fb2
  | none => fb2

/-- Lines 194-212: both thresholds are `strconv.ParseInt(v, 10, 64)`. -/
def handleInt64 (n : Int) (instructions : Instructions) (fb : ErrorMap)
    (path : List String) : ErrorMap :=
  handleIntWith (fun v => ParseInt v 64) (fun v => ParseInt v 64) n instructions fb path

/-- Lines 214-232: both thresholds are `int32(strconv.ParseInt(v, 10, 32))`. -/
def handleInt32 (n : Int) (instructions : Instructions) (fb : ErrorMap)
    (path : List String) : ErrorMap :=
  handleIntWith (fun v => wrapInt 32 (ParseInt v 32)) (fun v => wrapInt 32 (ParseInt v 32))
    n instructions fb path

/-- Lines 234-252: `gt` is `int16(strconv.ParseInt(v, 10, 16))`, `lt` is
`int16(strconv.ParseInt(v, 10, 32))`. -/
def handleInt16 (n : Int) (instructions : Instructions) (fb : ErrorMap)
    (path : List String) : ErrorMap :=
  handleIntWith (fun v => wrapInt 16 (ParseInt v 16)) (fun v => wrapInt 16 (ParseInt v 32))
    n instructions fb path

/-- Lines 254-272: `gt` is `int8(strconv.ParseInt(v, 10, 16))`, `lt` is
`int8(strconv.ParseInt(v, 10, 32))`. -/
def handleInt8 (n : Int) (instructions : Instructions) (fb : ErrorMap)
    (path : List String) : ErrorMap :=
  handleIntWith (fun v => wrapInt 8 (ParseInt v 16)) (fun v => wrapInt 8 (ParseInt v 32))
    n instructions fb path

/-- Lines 274-292: both thresholds are `strconv.Atoi(v)`. -/
def handleInt (n : Int) (instructions : Instructions) (fb : ErrorMap)
    (path : List String) : ErrorMap :=
  handleIntWith Atoi Atoi n instructions fb path

/-! ## The traversal (sanity.go, lines 42-146 and 184-192) -/

/-- Lines 78-83: the instruction map of a field, filled term by term. -/
def buildInstructions (tag : List (String × String)) :
    List String → Instructions → Instructions
  | [], instructions => instructions
  | term :: rest, instructions =>
    if Get tag term ≠ "" then
      buildInstructions tag rest (mset instructions term (Get tag term))
    else buildInstructions tag rest instructions

/-- Lines 68-71: the json key of a field, falling back to the declared name. -/
def jsonKeyOf (tag : List (String × String)) (name : String) : String :=
  if Get tag "json" = "" then name else Get tag "json"

/-- Whether `Kind()` is `reflect.Struct`: struct values, and `reflect.Value`
itself, which is a struct type. -/
def kindIsStruct : Value → Bool
  | .struct _ => true
  | .rvalue _ => true
  | _ => false

/-- Whether `Kind()` is `reflect.Ptr`. -/
def kindIsPtr : Value → Bool
  | .nilPtr => true
  | .ptr _ => true
  | _ => false

mutual

/-- The function `sanitize`: the type assertion `obj.(reflect.Value)` of line 58
followed by the body. -/
def sanitize (re : String → Option (String → Bool)) (obj : Value) (fb : ErrorMap)
    (paths : List String) : Except Panic ErrorMap :=
  match obj with
  | .rvalue val => sanitizeVal re val fb paths
  | _ => .error Panic.interfaceConversion

/-- Lines 60-115: the switch on `val.Kind()`. -/
def sanitizeVal (re : String → Option (String → Bool)) (val : Value) (fb : ErrorMap)
    (paths : List String) : Except Panic ErrorMap :=
  match val with
  | .ptr elem => sanitizeVal re elem fb paths
  -- the zero Value returned by `Elem` on a nil pointer has kind Invalid
  | .nilPtr => .ok fb
  | .struct fields => sanitizeFields re fields fb paths
  -- a `reflect.Value` is a struct whose first field is unexported: line 67 panics
  | .rvalue _ => .error Panic.unexportedField
  | _ => .ok fb

/-- Lines 64-109: the loop over the fields, from the current field on. -/
def sanitizeFields (re : String → Option (String → Bool))
    (fields : List (StructField Value)) (fb : ErrorMap) (paths : List String) :
    Except Panic ErrorMap :=
  match fields with
  | [] => .ok fb
  | ⟨name, pkgPath, tag, field⟩ :: rest =>
    -- line 67: `field.Interface()`
    if pkgPath ≠ "" then .error Panic.unexportedField
    else
      let jsonKey := jsonKeyOf tag name
      let currentPath := Join (paths ++ [jsonKey])
      let sanitizeTermString := Get tag Label
      if sanitizeTermString = "" then .ok fb
      else
        let sanitizeTerms := Split sanitizeTermString
        let instructions := buildInstructions tag sanitizeTerms []
        -- line 86: `switch field.Kind()`
        if kindIsStruct field then
          -- line 88: `sanitize(fieldValue, ...)` with `fieldValue = field.Interface()`
          match sanitize re field fb (paths ++ [jsonKey]) with
          | .error e => .error e
          | .ok fb1 => sanitizeFields re rest fb1 paths
        else if kindIsPtr field then
          match field with
          | .ptr elem =>
            -- lines 99-102: `sanitize(field.Elem(), ...)` and then `return`
            if kindIsStruct elem then sanitizeVal re elem fb (paths ++ [jsonKey])
            else
              match handleField re elem instructions fb (paths ++ [jsonKey]) with
              | .error e => .error e
              | .ok fb1 => sanitizeFields re rest fb1 paths
          | _ =>
            -- the nil pointer, lines 91-97: both branches return from `sanitize`
            if notNullSet instructions then
              .ok (mset fb currentPath NotNullValidationFailedError)
            else .ok fb
        else
          match handleField re field instructions fb (paths ++ [jsonKey]) with
          | .error e => .error e
          | .ok fb1 => sanitizeFields re rest fb1 paths

/-- Lines 118-146: dispatch on `field.Kind()`. -/
def handleField (re : String → Option (String → Bool)) (field : Value)
    (instructions : Instructions) (fb : ErrorMap) (path : List String) :
    Except Panic ErrorMap :=
  match field with
  | .str defined s =>
    if defined then .error Panic.interfaceConversion
    else handleString re s instructions fb path
  | .int k defined n =>
    if defined then .error Panic.interfaceConversion
    else
      match k with
      | .Int64 => .ok (handleInt64 n instructions fb path)
      | .Int32 => .ok (handleInt32 n instructions fb path)
      | .Int16 => .ok (handleInt16 n instructions fb path)
      | .Int8 => .ok (handleInt8 n instructions fb path)
      | .Int => .ok (handleInt n instructions fb path)
  | .bool defined b =>
    if defined then .error Panic.interfaceConversion
    else .ok (handleBool b instructions fb path)
  | .slice ifaces elems =>
    if ifaces then handleSlice re elems instructions fb path
    else .error Panic.interfaceConversion
  | _ => .ok fb

/-- Lines 184-192. -/
def handleSlice (re : String → Option (String → Bool)) (slice : List Value)
    (instructions : Instructions) (fb : ErrorMap) (path : List String) :
    Except Panic ErrorMap :=
  let completePath := Join path
  let fb1 :=
    if notNullSet instructions ∧ slice.length = 0 then
      mset fb completePath NotNullValidationFailedError
    else fb
  -- the `range` loop, its first iteration written out
  match slice with
  | [] => .ok fb1
  | v :: rest =>
    match sanitize re v fb1 (path ++ [Itoa 0]) with
    | .error e => .error e
    | .ok fb2 => handleSliceLoop re rest 1 fb2 path

/-- Lines 189-191: the `range` loop from index `i` on, `slice` being the elements
that remain. -/
def handleSliceLoop (re : String → Option (String → Bool)) (slice : List Value)
    (i : Nat) (fb : ErrorMap) (path : List String) : Except Panic ErrorMap :=
  match slice with
  | [] => .ok fb
  | v :: rest =>
    match sanitize re v fb (path ++ [Itoa i]) with
    | .error e => .error e
    | .ok fb1 => handleSliceLoop re rest (i + 1) fb1 path

end

/-- Lines 42-55. -/
def Check (re : String → Option (String → Bool)) (o : Value) :
    Except Panic (SanityInfo × Bool) :=
  let feedback : ErrorMap := []
  match sanitize re (.rvalue o) feedback [] with
  | .error e => .error e
  | .ok feedback => .ok ({ Errors := feedback }, decide (feedback.length = 0))

/-! ## Notions used to state the properties -/

/-! ### Instruction sets and decimal parameters -/

/-- The instruction map that lines 73-83 resolve from the tag of a field. -/
def instructionsOf (tag : List (String × String)) : Instructions :=
  buildInstructions tag (Split (Get tag Label)) []

/-- The test `'0' <= c && c <= '9'` of `strconv.ParseUint`. -/
def isDigit (c : Char) : Prop := '0' ≤ c ∧ c ≤ '9'

instance (c : Char) : Decidable (isDigit c) := by
  unfold isDigit
  infer_instance

/-- Value of a digit string read after the number `n`. -/
def decVal : List Char → Nat → Nat
  | [], n => n
  | c :: cs, n => decVal cs (n * 10 + (c.toNat - '0'.toNat))

/-- The part of a parameter that follows an optional leading sign. -/
def unsignedPart : List Char → List Char
  | [] => []
  | c :: cs => if c = '+' ∨ c = '-' then cs else c :: cs

/-- A parameter is a decimal integer: an optional sign followed by one or more
decimal digits and nothing else. -/
def isDecimalInteger (p : String) : Prop :=
  unsignedPart p.data ≠ [] ∧ ∀ c ∈ unsignedPart p.data, isDigit c

instance (p : String) : Decidable (isDecimalInteger p) := by
  unfold isDecimalInteger
  infer_instance

/-- The run of decimal digits at the start of a character list. -/
def leadingDigits : List Char → List Char
  | [] => []
  | c :: cs => if isDigit c then c :: leadingDigits cs else []

/-- The integer that a parameter denotes when it is a decimal integer. -/
def decimalValue (p : String) : Option Int :=
  if isDecimalInteger p then
    some (if p.data.head? = some '-' then - (decVal (unsignedPart p.data) 0 : Int)
      else (decVal (unsignedPart p.data) 0 : Int))
  else none

/-- The decimal form of an integer, as `strconv.FormatInt(t, 10)` prints it. -/
def FormatInt (t : Int) : String :=
  match t with
  | .ofNat m => Nat.repr m
  | .negSucc m => "-" ++ Nat.repr (m + 1)

/-- The four rules whose parameter is a number. -/
def numericRule (rule : String) : Prop :=
  rule = MaxLen ∨ rule = MinLen ∨ rule = GreaterThan ∨ rule = LessThan

instance (rule : String) : Decidable (numericRule rule) := by
  unfold numericRule
  infer_instance

/-! ### The writes of `handleString` -/

/-- The failure kinds that the four tests of `handleString` (lines 158-181) find,
in the order in which they are made: not-null, regex, max-length, min-length.
The thresholds are the numbers that `strconv.Atoi` returns for the parameters,
and the length is `len(str)`. -/
def writtenFailures (re : String → Option (String → Bool)) (str : String)
    (instructions : Instructions) : List SanityError :=
  (if mget instructions NotNull = some "true" ∧ str = "" then
    [NotNullValidationFailedError] else []) ++
  (match mget instructions Regex with
    | some v =>
      match re v with
      | some pattern => if pattern str then [] else [RegexValidationFailedError]
      | none => []
    | none => []) ++
  (match mget instructions MaxLen with
    | some v =>
      if (strLen str : Int) > Atoi v then [MaxLenConditionValidationFailedError] else []
    | none => []) ++
  (match mget instructions MinLen with
    | some v =>
      if (strLen str : Int) < Atoi v then [MinLenConditionValidationFailedError] else []
    | none => [])

/-- Last-write-wins: of the failures found at one path only the last is kept, and
nothing is written when there is none. -/
def recordLast (fb : ErrorMap) (path : String) (failures : List SanityError) : ErrorMap :=
  match failures.getLast? with
  | some e => mset fb path e
  | none => fb

/-! ### The rule table of the specification -/

/-- Number of bytes of a character in UTF-8, by its code point. -/
def utf8Width (c : Char) : Nat :=
  if c.toNat < 0x80 then 1
  else if c.toNat < 0x800 then 2
  else if c.toNat < 0x10000 then 3
  else 4

/-- The length of a text value: the number of bytes of its UTF-8 form. -/
def valueLength (s : String) : Nat := (s.data.map utf8Width).sum

/-- A rule with a numeric parameter fires: the rule is present, its parameter is a
decimal integer `t`, and the violation condition of the rule table holds of `t`.
A rule whose parameter is not a number does not fire. -/
def ruleFires (param : Option String) (violated : Int → Bool) : Bool :=
  match param with
  | none => false
  | some v =>
    match decimalValue v with
    | some t => violated t
    | none => false

/-- The rule table of the specification for a text field: the failure kinds of
the violated rules, listed in the order not-null, regex, max-length, min-length.
Not-null is violated by the empty string, regex by a value that the pattern
does not match, max-length by a length above the parameter and min-length by a
length below it. -/
def violatedRules (re : String → Option (String → Bool)) (str : String)
    (instructions : Instructions) : List SanityError :=
  (if mget instructions NotNull = some "true" ∧ str = "" then
    [NotNullValidationFailedError] else []) ++
  (match mget instructions Regex with
    | some v =>
      match re v with
      | some pattern => if pattern str then [] else [RegexValidationFailedError]
      | none => []
    | none => []) ++
  (if ruleFires (mget instructions MaxLen) (fun t => decide ((valueLength str : Int) > t))
    then [MaxLenConditionValidationFailedError] else []) ++
  (if ruleFires (mget instructions MinLen) (fun t => decide ((valueLength str : Int) < t))
    then [MinLenConditionValidationFailedError] else [])

/-- Width in bits of the signed integer kinds. -/
def IntKind.bits : IntKind → Nat
  | .Int => 64
  | .Int8 => 8
  | .Int16 => 16
  | .Int32 => 32
  | .Int64 => 64

/-- Whether `t` is a value of the signed integer type of `bits` bits. -/
def inRange (bits : Nat) (t : Int) : Bool :=
  decide (-(2 ^ (bits - 1) : Int) ≤ t ∧ t < (2 ^ (bits - 1) : Int))

/-- A rule with a numeric threshold is respected: the rule is absent, or its
parameter is a decimal integer of `bits` bits for which the violation condition
`violated` of the rule table is false. -/
def thresholdOk (bits : Nat) (param : Option String) (violated : Int → Bool) : Bool :=
  match param with
  | none => true
  | some v =>
    match decimalValue v with
    | some t => inRange bits t && !violated t
    | none => false

/-- The not-null rule is violated: the field carries `notnull` with parameter
`"true"` and its value is the zero value of its type. -/
def notNullViolated (instructions : Instructions) (isZero : Bool) : Bool :=
  decide (mget instructions NotNull = some "true") && isZero

/-- A string value violates none of its rules: not-null, regex (the pattern has to
compile), max-length and min-length. -/
def stringOk (re : String → Option (String → Bool)) (instructions : Instructions)
    (s : String) : Bool :=
  !notNullViolated instructions (decide (s = "")) &&
  (match mget instructions Regex with
    | none => true
    | some v =>
      match re v with
      | some pattern => pattern s
      | none => false) &&
  thresholdOk 64 (mget instructions MaxLen) (fun t => decide ((strLen s : Int) > t)) &&
  thresholdOk 64 (mget instructions MinLen) (fun t => decide ((strLen s : Int) < t))

/-- A signed integer value violates none of its rules: not-null, greater-than and
less-than, the thresholds being values of the field's own type. -/
def intOk (k : IntKind) (instructions : Instructions) (n : Int) : Bool :=
  !notNullViolated instructions (decide (n = 0)) &&
  thresholdOk k.bits (mget instructions GreaterThan) (fun t => decide (n < t)) &&
  thresholdOk k.bits (mget instructions LessThan) (fun t => decide (n > t))

mutual

/-- An object that the walk can be started on: every record reached has only
conforming fields. -/
def cleanVal (re : String → Option (String → Bool)) : Value → Bool
  | .ptr elem => cleanVal re elem
  | .struct fields => cleanFields re fields
  | .rvalue _ => false
  | _ => true

/-- Every field is exported, carries a rule vocabulary and conforms: it is not a
record held by value; a field of type `reflect.Value` wraps a conforming object;
a nil reference does not carry not-null; a reference to a record leads to a
conforming record; any other value, or the target of any other reference,
violates none of its rules. -/
def cleanFields (re : String → Option (String → Bool)) : List (StructField Value) → Bool
  | [] => true
  | ⟨_, pkgPath, tag, field⟩ :: rest =>
    decide (pkgPath = "") && decide (Get tag Label ≠ "") &&
      (if kindIsStruct field then
        match field with
        | .rvalue v => cleanVal re v
        | _ => false
      else if kindIsPtr field then
        match field with
        | .ptr elem =>
          if kindIsStruct elem then cleanVal re elem
          else cleanLeaf re (instructionsOf tag) elem
        | _ => !notNullViolated (instructionsOf tag) true
      else cleanLeaf re (instructionsOf tag) field) &&
      cleanFields re rest

/-- A leaf value violates none of its rules.  Scalars are of the predeclared
types; a sequence is of type `[]interface{}`, is not empty when it carries
not-null, and holds only `reflect.Value`s of conforming objects; values of the
remaining kinds have no rules. -/
def cleanLeaf (re : String → Option (String → Bool)) (instructions : Instructions) :
    Value → Bool
  | .str defined s => !defined && stringOk re instructions s
  | .int k defined n => !defined && intOk k instructions n
  | .bool defined b => !defined && !notNullViolated instructions (!b)
  | .slice ifaces elems =>
    ifaces && !notNullViolated instructions elems.isEmpty && cleanElems re elems
  | _ => true

/-- Every element is a `reflect.Value` of a conforming object. -/
def cleanElems (re : String → Option (String → Bool)) : List Value → Bool
  | [] => true
  | v :: rest =>
    (match v with
      | .rvalue w => cleanVal re w
      | _ => false) && cleanElems re rest

end

/-! ### Objects used as concrete inputs -/

/-- A regexp library in which every pattern compiles and matches every string;
used only to instantiate the parameter `re` at concrete inputs. -/
def reAll : String → Option (String → Bool) := fun _ => some (fun _ => true)

/-- The struct type `FlatStruct` of `tests/flat_struct_test.go`, with its tags. -/
def FlatStruct (id : String) (description : Value) (usedCount : Int) : Value :=
  .struct [
    ⟨"Id", "",
      [("json", "id"), ("sanity", "notnull,maxlen"), ("notnull", "true"), ("maxlen", "5")],
      .str false id⟩,
    ⟨"Description", "",
      [("json", "description"), ("sanity", "notnull"), ("notnull", "true")],
      description⟩,
    ⟨"UsedCount", "",
      [("json", "used_count"), ("sanity", "notnull,gt"), ("gt", "23"), ("notnull", "true")],
      .int .Int64 false usedCount⟩]

/-- The object that `TestFlatStruct` builds. -/
def flatStructOfTest : Value :=
  FlatStruct "" (.ptr (.str false "this is just a sample description")) 24

/-- The record `struct { Name string }` with `Name` tagged
`json:"name" sanity:"notnull,minlen" notnull:"true" minlen:"1"`. -/
def customerRecord (name : String) : Value :=
  .struct [
    ⟨"Name", "",
      [("json", "name"), ("sanity", "notnull,minlen"), ("notnull", "true"), ("minlen", "1")],
      .str false name⟩]

/-- The record `struct { Id string; Customer T }`, both fields tagged
`sanity:"notnull" notnull:"true"`, where `customer` is either a `customerRecord`
held by value or a pointer to one. -/
def orderRecord (id : String) (customer : Value) : Value :=
  .struct [
    ⟨"Id", "", [("json", "id"), ("sanity", "notnull"), ("notnull", "true")], .str false id⟩,
    ⟨"Customer", "", [("json", "customer"), ("sanity", "notnull"), ("notnull", "true")],
      customer⟩]

/-- A record with one field that holds a nested record by value:
`struct { Inner struct { Name string } }`, both fields tagged
`sanity:"notnull" notnull:"true"`, with `Name = "x"`. -/
def nestedByValue : Value :=
  .struct [
    ⟨"Inner", "", [("sanity", "notnull"), ("notnull", "true")],
      .struct [⟨"Name", "", [("sanity", "notnull"), ("notnull", "true")], .str false "x"⟩]⟩]

/-- A record with the single string field
`Id string` tagged `json:"id" sanity:"notnull,minlen" notnull:"true" minlen:"1"`. -/
def notNullMinLen (id : String) : Value :=
  .struct [
    ⟨"Id", "",
      [("json", "id"), ("sanity", "notnull,minlen"), ("notnull", "true"), ("minlen", "1")],
      .str false id⟩]

/-- A record with the single field
`Count int64` tagged `json:"count" sanity:"gt" gt:"ten"`. -/
def gtTen (count : Int) : Value :=
  .struct [
    ⟨"Count", "", [("json", "count"), ("sanity", "gt"), ("gt", "ten")],
      .int .Int64 false count⟩]

/-- A record with the single string field
`Id string` tagged `json:"id" sanity:"maxlen" maxlen:"abc"`. -/
def maxLenAbc (id : String) : Value :=
  .struct [
    ⟨"Id", "", [("json", "id"), ("sanity", "maxlen"), ("maxlen", "abc")], .str false id⟩]

/-- The record `struct { Ref T; Name string }`: `Ref` carries the tag `refTag` and
holds `ref`, `Name` is tagged `json:"name" sanity:"notnull" notnull:"true"`. -/
def refThenName (refTag : List (String × String)) (ref : Value) (name : String) : Value :=
  .struct [
    ⟨"Ref", "", refTag, ref⟩,
    ⟨"Name", "", [("json", "name"), ("sanity", "notnull"), ("notnull", "true")],
      .str false name⟩]

/-- The fields of `struct { Id string; Note string; Name string }` with `Id` and
`Name` empty and tagged `sanity:"notnull" notnull:"true"`, and `Note` carrying
only `json:"note"`. -/
def idNoteName : List (StructField Value) :=
  [⟨"Id", "", [("json", "id"), ("sanity", "notnull"), ("notnull", "true")], .str false ""⟩,
   ⟨"Note", "", [("json", "note")], .str false ""⟩,
   ⟨"Name", "", [("json", "name"), ("sanity", "notnull"), ("notnull", "true")], .str false ""⟩]

/-- The fields of `struct { Id string; note string }` of a package `main`, with
`Id` empty and tagged `json:"id" sanity:"notnull" notnull:"true"`, and the
unexported `note` without a tag. -/
def idUnexportedNote : List (StructField Value) :=
  [⟨"Id", "", [("json", "id"), ("sanity", "notnull"), ("notnull", "true")], .str false ""⟩,
   ⟨"note", "main", [], .str false ""⟩]

/-- The record `struct { B string }` with `B` tagged
`json:"b" sanity:"notnull" notnull:"true"`. -/
def innerB (b : String) : Value :=
  .struct [⟨"B", "", [("json", "b"), ("sanity", "notnull"), ("notnull", "true")], .str false b⟩]

/-- The record `struct { A T }` whose field `A` carries the tag `aTag` and holds
`inner`, a nested record or a pointer to one. -/
def outerA (aTag : List (String × String)) (inner : Value) : Value :=
  .struct [⟨"A", "", aTag, inner⟩]

/-- The record `struct { Name string }` of a sequence element, with `Name` tagged
`json:"name" sanity:"notnull" notnull:"true"`. -/
def itemRecord (name : String) : Value :=
  .struct [
    ⟨"Name", "", [("json", "name"), ("sanity", "notnull"), ("notnull", "true")],
      .str false name⟩]

/-- The record `struct { Order *struct { Items T } }` with the fields tagged
`json:"order"` and `json:"items"`, both with `sanity:"notnull" notnull:"true"`;
`items` is the sequence held by `Items`. -/
def orderItems (items : Value) : Value :=
  .struct [
    ⟨"Order", "", [("json", "order"), ("sanity", "notnull"), ("notnull", "true")],
      .ptr (.struct [
        ⟨"Items", "", [("json", "items"), ("sanity", "notnull"), ("notnull", "true")],
          items⟩])⟩]

/-- The record `struct { Tags T; Name string }` with `Tags` tagged
`json:"tags" sanity:"notnull" notnull:"true"` holding `tags`, and `Name` tagged
`json:"name" sanity:"notnull" notnull:"true"`. -/
def tagsThenName (tags : Value) (name : String) : Value :=
  .struct [
    ⟨"Tags", "", [("json", "tags"), ("sanity", "notnull"), ("notnull", "true")], tags⟩,
    ⟨"Name", "", [("json", "name"), ("sanity", "notnull"), ("notnull", "true")],
      .str false name⟩]

/-- The record `struct { N T }` whose only field is a signed integer of kind `k`
holding `n`, tagged `json:"n"` with the single rule `rule` and parameter `param`. -/
def oneInt (k : IntKind) (n : Int) (rule param : String) : Value :=
  .struct [⟨"N", "", [("json", "n"), ("sanity", rule), (rule, param)], .int k false n⟩]

/-- The leaf scalars: strings, booleans and signed integers. -/
def isScalar : Value → Bool
  | .str _ _ => true
  | .bool _ _ => true
  | .int _ _ _ => true
  | _ => false

/-! ### Field occurrences and their paths -/

/-- The keys of a failure map. -/
def keys (fb : ErrorMap) : List String := fb.map Prod.fst

mutual

/-- The field occurrences of the object `val`, whether a walk comes to them or
not: every field of every record that is `val` itself or lies below it behind
references, `reflect.Value` fields and sequence elements.  Each is given by its
path segments relative to `val`: the resolved names and decimal indices that
lines 72, 88, 100, 104, 106 and 190 append to the enclosing path. -/
def occVal : Value → List (List String)
  | .ptr elem => occVal elem
  | .struct fields => occFields fields
  | _ => []

/-- The occurrences in a list of fields: each field itself, under its resolved
name, followed by the occurrences below it. -/
def occFields : List (StructField Value) → List (List String)
  | [] => []
  | ⟨name, _, tag, field⟩ :: rest =>
    ([jsonKeyOf tag name] ::
      (if kindIsStruct field then
        match field with
        | .rvalue v => occVal v
        | _ => []
      else if kindIsPtr field then
        match field with
        | .ptr elem => if kindIsStruct elem then occVal elem else occLeaf elem
        | _ => []
      else occLeaf field).map (fun r => jsonKeyOf tag name :: r)) ++ occFields rest

/-- The occurrences below a leaf value: those of the elements of a sequence. -/
def occLeaf : Value → List (List String)
  | .slice _ elems => occElems elems 0
  | _ => []

/-- The occurrences in the elements of a sequence from index `i` on, under the
decimal index of their element. -/
def occElems : List Value → Nat → List (List String)
  | [], _ => []
  | v :: rest, i =>
    (match v with
      | .rvalue w => occVal w
      | _ => []).map (fun r => Itoa i :: r) ++ occElems rest (i + 1)

end

/-- The resolved names of the fields of a record. -/
def fieldKeys (fields : List (StructField Value)) : List String :=
  fields.map (fun f => jsonKeyOf f.Tag f.Name)

/-- A path segment without a dot. -/
def dotFree (s : String) : Bool := decide ('.' ∉ s.data)

mutual

/-- In every record of the object `val`, whether a walk comes to it or not, the
resolved field names are pairwise different and free of dots. -/
def namesVal : Value → Bool
  | .ptr elem => namesVal elem
  | .struct fields => namesFields fields
  | _ => true

def namesFields : List (StructField Value) → Bool
  | [] => true
  | ⟨name, _, tag, field⟩ :: rest =>
    dotFree (jsonKeyOf tag name) && decide (jsonKeyOf tag name ∉ fieldKeys rest) &&
      (if kindIsStruct field then
        match field with
        | .rvalue v => namesVal v
        | _ => true
      else if kindIsPtr field then
        match field with
        | .ptr elem => if kindIsStruct elem then namesVal elem else namesLeaf elem
        | _ => true
      else namesLeaf field) &&
      namesFields rest

def namesLeaf : Value → Bool
  | .slice _ elems => namesElems elems
  | _ => true

def namesElems : List Value → Bool
  | [] => true
  | v :: rest =>
    (match v with
      | .rvalue w => namesVal w
      | _ => true) && namesElems rest

end

/-- The record `struct { A string; B string }` in which both fields have the json
name `x`: `A` is tagged `json:"x" sanity:"notnull" notnull:"true"` and `B` is
tagged `json:"x" sanity:"minlen" minlen:"3"`. -/
def sameJsonName (a b : String) : Value :=
  .struct [
    ⟨"A", "", [("json", "x"), ("sanity", "notnull"), ("notnull", "true")], .str false a⟩,
    ⟨"B", "", [("json", "x"), ("sanity", "minlen"), ("minlen", "3")], .str false b⟩]

/-- Every key of `fb2` is a key of `fb1` or one of the paths in `written`. -/
def writesWithin (fb1 fb2 : ErrorMap) (written : List String) : Prop :=
  ∀ k ∈ keys fb2, k ∈ keys fb1 ∨ k ∈ written

/-- The characters that follow the first piece of a joined string: every further
piece preceded by the separator. -/
def sepTail (sep : Char) : List (List Char) → List Char
  | [] => []
  | p :: ps => sep :: p ++ sepTail sep ps

mutual

/-- The field occurrences that the walk `sanitizeVal re val fb paths` visits, in
the order of the visits, each given by its path segments relative to `val`.  A
field is visited when the loop of line 64 comes to it; the walk comes to no
further field of a record after a return (lines 75, 93, 96, 101) or a panic. -/
def visVal (re : String → Option (String → Bool)) :
    Value → ErrorMap → List String → List (List String)
  | .ptr elem, fb, paths => visVal re elem fb paths
  | .struct fields, fb, paths => visFields re fields fb paths
  | _, _, _ => []

/-- The occurrences visited by the loop over the fields, from the current field
on: the field itself, under its resolved name, then what the walk visits below
it, then, when the loop goes on, what it visits in the remaining fields. -/
def visFields (re : String → Option (String → Bool)) :
    List (StructField Value) → ErrorMap → List String → List (List String)
  | [], _, _ => []
  | ⟨name, pkgPath, tag, field⟩ :: rest, fb, paths =>
    [jsonKeyOf tag name] ::
      -- line 67 panics
      (if pkgPath ≠ "" then []
      -- line 75 returns
      else if Get tag Label = "" then []
      else if kindIsStruct field then
        match field with
        | .rvalue v =>
          -- line 88, then the next field
          (visVal re v fb (paths ++ [jsonKeyOf tag name])).map (fun r => jsonKeyOf tag name :: r) ++
            (match sanitizeVal re v fb (paths ++ [jsonKeyOf tag name]) with
              | .ok fb1 => visFields re rest fb1 paths
              | .error _ => [])
        -- line 88 with a struct held by value: the assertion of line 58 panics
        | _ => []
      else if kindIsPtr field then
        match field with
        | .ptr elem =>
          if kindIsStruct elem then
            -- line 100, then the return of line 101
            (visVal re elem fb (paths ++ [jsonKeyOf tag name])).map
              (fun r => jsonKeyOf tag name :: r)
          else
            -- line 104, then the next field
            (visLeaf re elem (buildInstructions tag (Split (Get tag Label)) []) fb
                (paths ++ [jsonKeyOf tag name])).map (fun r => jsonKeyOf tag name :: r) ++
              (match handleField re elem (buildInstructions tag (Split (Get tag Label)) []) fb
                  (paths ++ [jsonKeyOf tag name]) with
                | .ok fb1 => visFields re rest fb1 paths
                | .error _ => [])
        -- the nil pointer: lines 93 and 96 return
        | _ => []
      else
        -- line 106, then the next field
        (visLeaf re field (buildInstructions tag (Split (Get tag Label)) []) fb
            (paths ++ [jsonKeyOf tag name])).map (fun r => jsonKeyOf tag name :: r) ++
          (match handleField re field (buildInstructions tag (Split (Get tag Label)) []) fb
              (paths ++ [jsonKeyOf tag name]) with
            | .ok fb1 => visFields re rest fb1 paths
            | .error _ => []))

/-- The occurrences visited below a leaf value by `handleField`: those in the
elements of a `[]interface{}`, which `handleSlice` walks after its not-null
test. -/
def visLeaf (re : String → Option (String → Bool)) :
    Value → Instructions → ErrorMap → List String → List (List String)
  | .slice ifaces elems, instructions, fb, path =>
    if ifaces then
      visElems re elems 0
        (if notNullSet instructions ∧ elems.length = 0 then
          mset fb (Join path) NotNullValidationFailedError
        else fb) path
    else []
  | _, _, _, _ => []

/-- The occurrences visited by the `range` loop of `handleSlice` from index `i`
on, under the decimal index of their element. -/
def visElems (re : String → Option (String → Bool)) :
    List Value → Nat → ErrorMap → List String → List (List String)
  | [], _, _, _ => []
  | v :: rest, i, fb, path =>
    match v with
    | .rvalue w =>
      (visVal re w fb (path ++ [Itoa i])).map (fun r => Itoa i :: r) ++
        (match sanitizeVal re w fb (path ++ [Itoa i]) with
          | .ok fb1 => visElems re rest (i + 1) fb1 path
          | .error _ => [])
    -- the assertion of line 58 panics
    | _ => []

end

/-- The field occurrences that `Check re o` visits. -/
def visited (re : String → Option (String → Bool)) (o : Value) : List (List String) :=
  visVal re o [] []

/-! # Properties -/

/-! ## Unfolding equations of the traversal -/

theorem sanitizeFields_cons (re : String → Option (String → Bool)) (name pkgPath : String)
    (tag : List (String × String)) (field : Value) (rest : List (StructField Value))
    (fb : ErrorMap) (paths : List String) :
    sanitizeFields re (⟨name, pkgPath, tag, field⟩ :: rest) fb paths =
      if pkgPath ≠ "" then .error Panic.unexportedField
      else if Get tag Label = "" then .ok fb
      else if kindIsStruct field then
        match sanitize re field fb (paths ++ [jsonKeyOf tag name]) with
        | .error e => .error e
        | .ok fb1 => sanitizeFields re rest fb1 paths
      else if kindIsPtr field then
        match field with
        | .ptr elem =>
          if kindIsStruct elem then sanitizeVal re elem fb (paths ++ [jsonKeyOf tag name])
          else
            match handleField re elem (instructionsOf tag) fb (paths ++ [jsonKeyOf tag name]) with
            | .error e => .error e
            | .ok fb1 => sanitizeFields re rest fb1 paths
        | _ =>
          if notNullSet (instructionsOf tag) then
            .ok (mset fb (Join (paths ++ [jsonKeyOf tag name])) NotNullValidationFailedError)
          else .ok fb
      else
        match handleField re field (instructionsOf tag) fb (paths ++ [jsonKeyOf tag name]) with
        | .error e => .error e
        | .ok fb1 => sanitizeFields re rest fb1 paths := by
  cases field <;> rfl

theorem sanitizeFields_nil (re : String → Option (String → Bool)) (fb : ErrorMap)
    (paths : List String) : sanitizeFields re [] fb paths = .ok fb := rfl

theorem sanitizeVal_struct (re : String → Option (String → Bool))
    (fs : List (StructField Value)) (fb : ErrorMap) (paths : List String) :
    sanitizeVal re (.struct fs) fb paths = sanitizeFields re fs fb paths := rfl

theorem sanitizeVal_ptr (re : String → Option (String → Bool)) (elem : Value)
    (fb : ErrorMap) (paths : List String) :
    sanitizeVal re (.ptr elem) fb paths = sanitizeVal re elem fb paths := rfl

theorem sanitize_rvalue (re : String → Option (String → Bool)) (val : Value)
    (fb : ErrorMap) (paths : List String) :
    sanitize re (.rvalue val) fb paths = sanitizeVal re val fb paths := rfl

theorem handleSlice_eq (re : String → Option (String → Bool)) (slice : List Value)
    (instructions : Instructions) (fb : ErrorMap) (path : List String) :
    handleSlice re slice instructions fb path =
      handleSliceLoop re slice 0
        (if notNullSet instructions ∧ slice.length = 0 then
          mset fb (Join path) NotNullValidationFailedError
        else fb) path := by
  cases slice <;> rfl

theorem handleSliceLoop_cons (re : String → Option (String → Bool)) (v : Value)
    (rest : List Value) (i : Nat) (fb : ErrorMap) (path : List String) :
    handleSliceLoop re (v :: rest) i fb path =
      match sanitize re v fb (path ++ [Itoa i]) with
      | .error e => .error e
      | .ok fb1 => handleSliceLoop re rest (i + 1) fb1 path := rfl

/-! ## Go maps -/

theorem mget_mset_same {V : Type} (m : List (String × V)) (k : String) (v : V) :
    mget (mset m k v) k = some v := by
  induction m with
  | nil => simp [mset, mget]
  | cons p m ih =>
    obtain ⟨k0, v0⟩ := p
    by_cases h : k0 = k <;> simp [mset, mget, h, ih]

theorem mget_mset_other {V : Type} (m : List (String × V)) (k k2 : String) (v : V)
    (h : k ≠ k2) : mget (mset m k v) k2 = mget m k2 := by
  induction m with
  | nil => simp [mset, mget, h]
  | cons p m ih =>
    obtain ⟨k0, v0⟩ := p
    by_cases h0 : k0 = k
    · subst h0
      simp [mset, mget, h]
    · simp [mset, mget, h0, ih]

theorem mset_mset {V : Type} (m : List (String × V)) (k : String) (a b : V) :
    mset (mset m k a) k b = mset m k b := by
  induction m with
  | nil => simp [mset]
  | cons p m ih =>
    obtain ⟨k0, v0⟩ := p
    by_cases h : k0 = k <;> simp [mset, h, ih]

/-! ## strconv: parsing the decimal form of a number gives the number back -/

theorem isDigit_toNat {c : Char} (h : isDigit c) : 48 ≤ c.toNat ∧ c.toNat ≤ 57 := by
  obtain ⟨h1, h2⟩ := h
  constructor
  · exact h1
  · exact h2

theorem le_decVal (cs : List Char) (n : Nat) : n ≤ decVal cs n := by
  induction cs generalizing n with
  | nil => exact Nat.le_refl n
  | cons c cs ih =>
    have := ih (n * 10 + (c.toNat - '0'.toNat))
    simp only [decVal]
    omega

theorem parseUintLoop_digits (maxVal : Nat) (hM : maxVal < 2 ^ 64) (cs : List Char) (n : Nat)
    (hd : ∀ c ∈ cs, isDigit c) (hv : decVal cs n ≤ maxVal) :
    parseUintLoop maxVal cs n = .ok (decVal cs n) := by
  induction cs generalizing n with
  | nil => rfl
  | cons c cs ih =>
    have hc : isDigit c := hd c (List.mem_cons_self _ _)
    have hc2 := isDigit_toNat hc
    have hle := le_decVal cs (n * 10 + (c.toNat - '0'.toNat))
    simp only [decVal] at hv ⊢
    have h0 : '0'.toNat = 48 := rfl
    rw [h0] at hv hle ⊢
    have hn : n * 10 + (c.toNat - 48) < 2 ^ 64 := by omega
    have hcut : ¬ (n ≥ (2 ^ 64 - 1) / 10 + 1) := by
      norm_num at hn ⊢
      omega
    have hm0 : (n * 10) % 2 ^ 64 = n * 10 := Nat.mod_eq_of_lt (by omega)
    have hm1 : (n * 10 + (c.toNat - 48)) % 2 ^ 64 = n * 10 + (c.toNat - 48) :=
      Nat.mod_eq_of_lt hn
    have hstep : parseUintLoop maxVal (c :: cs) n
        = parseUintLoop maxVal cs (n * 10 + (c.toNat - 48)) := by
      have hc' : '0' ≤ c ∧ c ≤ '9' := hc
      simp only [parseUintLoop, hc', and_self, if_true, hcut, if_false, hm0, hm1, h0]
      rw [if_neg]
      omega
    rw [hstep]
    exact ih _ (fun c hc => hd c (List.mem_cons_of_mem _ hc)) hv

theorem digitChar_isDigit (m : Nat) (h : m < 10) :
    isDigit (Nat.digitChar m) ∧ (Nat.digitChar m).toNat - '0'.toNat = m := by
  interval_cases m <;> exact ⟨⟨by decide, by decide⟩, rfl⟩

theorem toDigitsCore_digits (fuel n : Nat) (ds : List Char) (hd : ∀ c ∈ ds, isDigit c) :
    ∀ c ∈ Nat.toDigitsCore 10 fuel n ds, isDigit c := by
  induction fuel generalizing n ds with
  | zero => simpa [Nat.toDigitsCore] using hd
  | succ fuel ih =>
    have hdc := (digitChar_isDigit (n % 10) (Nat.mod_lt _ (by decide))).1
    have hd2 : ∀ c ∈ Nat.digitChar (n % 10) :: ds, isDigit c := by
      intro c hc
      rcases List.mem_cons.mp hc with h | h
      · exact h ▸ hdc
      · exact hd c h
    simp only [Nat.toDigitsCore]
    split
    · exact hd2
    · exact ih _ _ hd2

theorem toDigitsCore_decVal (fuel n : Nat) (ds : List Char) (hf : n < fuel) :
    decVal (Nat.toDigitsCore 10 fuel n ds) 0 = decVal ds n := by
  induction fuel generalizing n ds with
  | zero => omega
  | succ fuel ih =>
    have hv := (digitChar_isDigit (n % 10) (Nat.mod_lt _ (by decide))).2
    simp only [Nat.toDigitsCore]
    split
    · rename_i h0
      simp only [decVal, hv]
      congr 1
      omega
    · rename_i h0
      rw [ih (n / 10) _ (by omega)]
      simp only [decVal, hv]
      congr 1
      omega

theorem toDigitsCore_ne_nil (fuel n : Nat) (ds : List Char) (hf : 0 < fuel) :
    Nat.toDigitsCore 10 fuel n ds ≠ [] := by
  induction fuel generalizing n ds with
  | zero => omega
  | succ fuel ih =>
    simp only [Nat.toDigitsCore]
    split
    · simp
    · rename_i h0
      cases fuel with
      | zero => simp [Nat.toDigitsCore]
      | succ f => exact ih _ _ (by omega)

theorem ParseUint_toDigits (bitSize n : Nat) (hb : bitSize ≤ 64) (hn : n ≤ 2 ^ bitSize - 1) :
    ParseUint (Nat.toDigits 10 n) bitSize = .ok n := by
  have hne := toDigitsCore_ne_nil (n + 1) n [] (by omega)
  have hM : 2 ^ bitSize - 1 < 2 ^ 64 := by
    have : 2 ^ bitSize ≤ 2 ^ 64 := Nat.pow_le_pow_right (by decide) hb
    have : 0 < 2 ^ bitSize := Nat.pow_pos (by decide)
    omega
  have hval := toDigitsCore_decVal (n + 1) n [] (by omega)
  simp only [decVal] at hval
  unfold ParseUint Nat.toDigits
  cases hcs : Nat.toDigitsCore 10 (n + 1) n [] with
  | nil => exact absurd hcs hne
  | cons c cs =>
    simp only
    rw [← hcs, parseUintLoop_digits _ hM _ 0 (toDigitsCore_digits _ _ _ (by simp)) (by rw [hval]; exact hn), hval]

theorem ParseInt_FormatInt (bitSize : Nat) (t : Int) (hb1 : 1 ≤ bitSize) (hb : bitSize ≤ 64)
    (hlo : -(2 ^ (bitSize - 1) : Int) ≤ t) (hhi : t < (2 ^ (bitSize - 1) : Int)) :
    ParseInt (FormatInt t) bitSize = t := by
  have hpow : 2 ^ bitSize = 2 * 2 ^ (bitSize - 1) := by
    rw [← pow_succ']
    congr 1
    omega
  cases t with
  | ofNat m =>
    have hm : m < 2 ^ (bitSize - 1) := by
      have h := hhi
      simp only [Int.ofNat_eq_coe] at h
      exact_mod_cast h
    have hne := toDigitsCore_ne_nil (m + 1) m [] (by omega)
    have hdig := toDigitsCore_digits (m + 1) m [] (by simp)
    have hP := ParseUint_toDigits bitSize m hb (by omega)
    unfold ParseInt FormatInt
    simp only [Nat.repr, List.asString]
    unfold Nat.toDigits at hP ⊢
    cases hcs : Nat.toDigitsCore 10 (m + 1) m [] with
    | nil => exact absurd hcs hne
    | cons c cs =>
      have hc : isDigit c := hdig c (by rw [hcs]; exact List.mem_cons_self _ _)
      have hc2 := isDigit_toNat hc
      have h1 : c ≠ '+' := by
        intro h; rw [h] at hc2; revert hc2; decide
      have h2 : c ≠ '-' := by
        intro h; rw [h] at hc2; revert hc2; decide
      rw [hcs] at hP
      simp [h1, h2, hP]
      omega
  | negSucc m =>
    have hm : m + 1 ≤ 2 ^ (bitSize - 1) := by
      have h := hlo
      rw [Int.negSucc_eq] at h
      have h2 : ((m : Int) + 1) ≤ (2 ^ (bitSize - 1) : Int) := by omega
      exact_mod_cast h2
    have hP := ParseUint_toDigits bitSize (m + 1) hb (by omega)
    have hdata : (FormatInt (Int.negSucc m)).data = '-' :: Nat.toDigits 10 (m + 1) := by
      simp [FormatInt, Nat.repr, List.asString]
    unfold ParseInt
    rw [hdata]
    simp [hP]
    rw [Int.negSucc_eq, if_neg (by omega)]
    omega

theorem Check_struct (re : String → Option (String → Bool)) (fs : List (StructField Value)) :
    Check re (.struct fs) =
      match sanitizeFields re fs [] [] with
      | .error e => .error e
      | .ok fb => .ok ({ Errors := fb }, decide (fb.length = 0)) := rfl

theorem Join_singleton (k : String) : Join [k] = k := rfl

theorem Split_empty : Split "" = [""] := by decide

theorem label_ne_of_mget (tag : List (String × String)) (k v : String)
    (h : mget (instructionsOf tag) k = some v) (hk : k ≠ "") : Get tag Label ≠ "" := by
  intro hl
  unfold instructionsOf at h
  rw [hl, Split_empty] at h
  simp only [buildInstructions] at h
  split at h
  · simp [mset, mget] at h
    exact hk h.1.symm
  · simp [mget] at h

theorem leaf_step (re : String → Option (String → Bool)) (name : String)
    (tag : List (String × String)) (field : Value) (rest : List (StructField Value))
    (fb : ErrorMap) (paths : List String)
    (hs : kindIsStruct field = false) (hp : kindIsPtr field = false)
    (hl : Get tag Label ≠ "") :
    sanitizeFields re (⟨name, "", tag, field⟩ :: rest) fb paths =
      match handleField re field (instructionsOf tag) fb (paths ++ [jsonKeyOf tag name]) with
      | .error e => .error e
      | .ok fb1 => sanitizeFields re rest fb1 paths := by
  rw [sanitizeFields_cons]
  simp [hs, hp, hl]

theorem notNullSet_eq (instructions : Instructions) :
    (notNullSet instructions = true) ↔ mget instructions NotNull = some "true" := by
  unfold notNullSet
  cases h : mget instructions NotNull with
  | none => simp
  | some v => simp

theorem recordLast_nil (fb : ErrorMap) (p : String) : recordLast fb p [] = fb := rfl

theorem recordLast_step (fb : ErrorMap) (p : String) (l : List SanityError) (c : Prop)
    [Decidable c] (e : SanityError) :
    (if c then mset (recordLast fb p l) p e else recordLast fb p l) =
      recordLast fb p (l ++ if c then [e] else []) := by
  by_cases hc : c
  · simp only [hc, if_true, recordLast, List.getLast?_append, List.getLast?_singleton]
    cases l.getLast? <;> simp [mset_mset]
  · simp [hc]

theorem handleString_recordLast (re : String → Option (String → Bool)) (str : String)
    (instructions : Instructions) (fb : ErrorMap) (path : List String)
    (hre : ∀ v, mget instructions Regex = some v → re v ≠ none) :
    handleString re str instructions fb path =
      .ok (recordLast fb (Join path) (writtenFailures re str instructions)) := by
  unfold handleString writtenFailures
  have hnn := notNullSet_eq instructions
  have e1 : (if notNullSet instructions = true ∧ str = "" then
        mset fb (Join path) NotNullValidationFailedError else fb) =
      recordLast fb (Join path) (if mget instructions NotNull = some "true" ∧ str = "" then
        [NotNullValidationFailedError] else []) := by
    have := recordLast_step fb (Join path) [] (mget instructions NotNull = some "true" ∧ str = "")
      NotNullValidationFailedError
    simp only [recordLast_nil, List.nil_append] at this
    rw [← this]
    simp only [hnn]
  simp only [e1]
  cases h2 : mget instructions Regex with
  | none =>
    simp only [List.append_nil]
    cases h3 : mget instructions MaxLen <;> cases h4 : mget instructions MinLen <;>
      simp only [List.append_nil, recordLast_step, List.append_assoc]
  | some v =>
    cases h2r : re v with
    | none => exact absurd h2r (hre v h2)
    | some pattern =>
      simp only [h2r]
      by_cases hp : pattern str = true
      · simp only [hp, not_true_eq_false, if_false, if_true, List.append_nil]
        cases h3 : mget instructions MaxLen <;> cases h4 : mget instructions MinLen <;>
          simp only [List.append_nil, recordLast_step, List.append_assoc]
      · have hpf : pattern str = false := by simpa using hp
        simp only [hpf, Bool.false_eq_true, not_false_eq_true, if_true, if_false]
        have e3 := recordLast_step fb (Join path) (if mget instructions NotNull = some "true" ∧ str = "" then
            [NotNullValidationFailedError] else []) True RegexValidationFailedError
        simp only [if_true] at e3
        rw [e3]
        cases h3 : mget instructions MaxLen <;> cases h4 : mget instructions MinLen <;>
          simp only [List.append_nil, recordLast_step, List.append_assoc]

theorem handleInt64_only_gt (n t : Int) (fb : ErrorMap) (path : List String)
    (hlo : -(2 ^ 63 : Int) ≤ t) (hhi : t < (2 ^ 63 : Int)) :
    handleInt64 n [(GreaterThan, FormatInt t)] fb path =
      if n < t then mset fb (Join path) GTConditionValidationFailedError else fb := by
  have hparse : ParseInt (FormatInt t) 64 = t :=
    ParseInt_FormatInt 64 t (by decide) (by decide) hlo hhi
  have h1 : mget [(GreaterThan, FormatInt t)] NotNull = none := by
    simp [mget, GreaterThan, NotNull]
  have h2 : mget [(GreaterThan, FormatInt t)] LessThan = none := by
    simp [mget, GreaterThan, LessThan]
  have h3 : mget [(GreaterThan, FormatInt t)] GreaterThan = some (FormatInt t) := by
    simp [mget]
  simp only [handleInt64, handleIntWith, notNullSet, h1, h2, h3, hparse]
  simp

theorem handleInt64_only_lt (n t : Int) (fb : ErrorMap) (path : List String)
    (hlo : -(2 ^ 63 : Int) ≤ t) (hhi : t < (2 ^ 63 : Int)) :
    handleInt64 n [(LessThan, FormatInt t)] fb path =
      if n > t then mset fb (Join path) LTConditionValidationFailedError else fb := by
  have hparse : ParseInt (FormatInt t) 64 = t :=
    ParseInt_FormatInt 64 t (by decide) (by decide) hlo hhi
  have h1 : mget [(LessThan, FormatInt t)] NotNull = none := by
    simp [mget, LessThan, NotNull]
  have h2 : mget [(LessThan, FormatInt t)] GreaterThan = none := by
    simp [mget, GreaterThan, LessThan]
  have h3 : mget [(LessThan, FormatInt t)] LessThan = some (FormatInt t) := by
    simp [mget]
  simp only [handleInt64, handleIntWith, notNullSet, h1, h2, h3, hparse]
  simp

/-! ## strconv: parameters that are not decimal integers -/

theorem parseUintLoop_step (maxVal : Nat) (hM : maxVal < 2 ^ 64) (c : Char) (cs : List Char)
    (n : Nat) (hc : isDigit c) (hv : n * 10 + (c.toNat - 48) ≤ maxVal) :
    parseUintLoop maxVal (c :: cs) n = parseUintLoop maxVal cs (n * 10 + (c.toNat - 48)) := by
  have hc2 := isDigit_toNat hc
  have h0 : '0'.toNat = 48 := rfl
  have hn : n * 10 + (c.toNat - 48) < 2 ^ 64 := by omega
  have hcut : ¬ (n ≥ (2 ^ 64 - 1) / 10 + 1) := by
    norm_num at hn ⊢
    omega
  have hm0 : (n * 10) % 2 ^ 64 = n * 10 := Nat.mod_eq_of_lt (by omega)
  have hm1 : (n * 10 + (c.toNat - 48)) % 2 ^ 64 = n * 10 + (c.toNat - 48) :=
    Nat.mod_eq_of_lt hn
  have hc3 : '0' ≤ c ∧ c ≤ '9' := hc
  simp only [parseUintLoop, hc3, and_self, if_true, hcut, if_false, hm0, hm1, h0]
  rw [if_neg]
  omega

theorem parseUintLoop_nondigit (maxVal : Nat) (hM : maxVal < 2 ^ 64) (ds : List Char)
    (c0 : Char) (rest : List Char) (n : Nat) (hd : ∀ c ∈ ds, isDigit c) (h0 : ¬ isDigit c0)
    (hv : decVal ds n ≤ maxVal) :
    parseUintLoop maxVal (ds ++ c0 :: rest) n = .errSyntax := by
  induction ds generalizing n with
  | nil =>
    have h1 : ¬ ('0' ≤ c0 ∧ c0 ≤ '9') := h0
    simp only [List.nil_append, parseUintLoop, h1, if_false]
  | cons c cs ih =>
    have hc : isDigit c := hd c (List.mem_cons_self _ _)
    have hle := le_decVal cs (n * 10 + (c.toNat - '0'.toNat))
    have h48 : '0'.toNat = 48 := rfl
    simp only [decVal] at hv
    rw [h48] at hv hle
    rw [List.cons_append, parseUintLoop_step maxVal hM c _ n hc (by omega)]
    exact ih _ (fun c hc => hd c (List.mem_cons_of_mem _ hc)) hv

theorem decVal_lt (ds : List Char) (n : Nat) (hd : ∀ c ∈ ds, isDigit c) :
    decVal ds n < (n + 1) * 10 ^ ds.length := by
  induction ds generalizing n with
  | nil => simp [decVal]
  | cons c cs ih =>
    have hc := isDigit_toNat (hd c (List.mem_cons_self _ _))
    have h48 : '0'.toNat = 48 := rfl
    have h := ih (n * 10 + (c.toNat - 48)) (fun c hc => hd c (List.mem_cons_of_mem _ hc))
    simp only [decVal, h48, List.length_cons]
    calc decVal cs (n * 10 + (c.toNat - 48))
        < (n * 10 + (c.toNat - 48) + 1) * 10 ^ cs.length := h
      _ ≤ ((n + 1) * 10) * 10 ^ cs.length := Nat.mul_le_mul_right _ (by omega)
      _ = (n + 1) * 10 ^ (cs.length + 1) := by rw [pow_succ]; ring

theorem split_at_nondigit (body : List Char) (h : ¬ ∀ c ∈ body, isDigit c) :
    ∃ c0 rest, body = leadingDigits body ++ c0 :: rest ∧ ¬ isDigit c0 ∧
      ∀ c ∈ leadingDigits body, isDigit c := by
  induction body with
  | nil => exact absurd (fun c hc => by simp at hc) h
  | cons c cs ih =>
    by_cases hc : isDigit c
    · have h2 : ¬ ∀ c ∈ cs, isDigit c := by
        intro hall
        apply h
        intro x hx
        rcases List.mem_cons.mp hx with hx | hx
        · exact hx ▸ hc
        · exact hall x hx
      obtain ⟨c0, rest, e, hc0, hall⟩ := ih h2
      refine ⟨c0, rest, ?_, hc0, ?_⟩
      · simp only [leadingDigits, hc, if_true, List.cons_append]
        rw [← e]
      · intro x hx
        simp only [leadingDigits, hc, if_true] at hx
        rcases List.mem_cons.mp hx with hx | hx
        · exact hx ▸ hc
        · exact hall x hx
    · refine ⟨c, cs, ?_, hc, ?_⟩
      · simp [leadingDigits, hc]
      · simp [leadingDigits, hc]

theorem ParseInt_not_decimal (p : String) (bitSize : Nat) (hb16 : 16 ≤ bitSize)
    (hb : bitSize ≤ 64) (hp : ¬ isDecimalInteger p)
    (hlen : (leadingDigits (unsignedPart p.data)).length ≤ 4) :
    ParseInt p bitSize = 0 := by
  unfold ParseInt
  cases hdata : p.data with
  | nil => rfl
  | cons c cs =>
    have hbody : (if c = '+' ∨ c = '-' then cs else c :: cs) = unsignedPart p.data := by
      rw [hdata]; rfl
    simp only [hbody]
    have hsyn : ParseUint (unsignedPart p.data) bitSize = .errSyntax := by
      cases hu : unsignedPart p.data with
      | nil => rfl
      | cons u us =>
        have hnd : ¬ ∀ c ∈ unsignedPart p.data, isDigit c := by
          intro hall
          exact hp ⟨by rw [hu]; simp, hall⟩
        obtain ⟨c0, rest, e, hc0, hall⟩ := split_at_nondigit _ hnd
        have hM : 2 ^ bitSize - 1 < 2 ^ 64 := by
          have : 2 ^ bitSize ≤ 2 ^ 64 := Nat.pow_le_pow_right (by decide) hb
          have : 0 < 2 ^ bitSize := Nat.pow_pos (by decide)
          omega
        have hval : decVal (leadingDigits (unsignedPart p.data)) 0 ≤ 2 ^ bitSize - 1 := by
          have h1 := decVal_lt _ 0 hall
          have h2 : 10 ^ (leadingDigits (unsignedPart p.data)).length ≤ 10 ^ 4 :=
            Nat.pow_le_pow_right (by decide) hlen
          have h3 : 2 ^ 16 ≤ 2 ^ bitSize := Nat.pow_le_pow_right (by decide) hb16
          norm_num at h1 h2 h3
          omega
        have hloop := parseUintLoop_nondigit (2 ^ bitSize - 1) hM _ c0 rest 0 hall hc0 hval
        rw [← e, hu] at hloop
        exact hloop
    rw [hsyn]

/-! ## The evaluators read the instruction map only through a few lookups -/

theorem handleString_congr (re : String → Option (String → Bool)) (str : String)
    (ins ins2 : Instructions) (fb : ErrorMap) (path : List String)
    (h1 : notNullSet ins = notNullSet ins2) (h2 : mget ins Regex = mget ins2 Regex)
    (h3 : (mget ins MaxLen).map Atoi = (mget ins2 MaxLen).map Atoi)
    (h4 : (mget ins MinLen).map Atoi = (mget ins2 MinLen).map Atoi) :
    handleString re str ins fb path = handleString re str ins2 fb path := by
  unfold handleString
  rw [h1, h2]
  cases a3 : mget ins MaxLen <;> cases b3 : mget ins2 MaxLen <;>
    cases a4 : mget ins MinLen <;> cases b4 : mget ins2 MinLen <;>
    simp_all

theorem handleIntWith_congr (gtOf ltOf : String → Int) (n : Int)
    (ins ins2 : Instructions) (fb : ErrorMap) (path : List String)
    (h1 : notNullSet ins = notNullSet ins2)
    (h2 : (mget ins GreaterThan).map gtOf = (mget ins2 GreaterThan).map gtOf)
    (h3 : (mget ins LessThan).map ltOf = (mget ins2 LessThan).map ltOf) :
    handleIntWith gtOf ltOf n ins fb path = handleIntWith gtOf ltOf n ins2 fb path := by
  unfold handleIntWith
  rw [h1]
  cases a2 : mget ins GreaterThan <;> cases b2 : mget ins2 GreaterThan <;>
    cases a3 : mget ins LessThan <;> cases b3 : mget ins2 LessThan <;>
    simp_all

theorem handleField_zero_parameter (re : String → Option (String → Bool)) (field : Value)
    (ins : Instructions) (fb : ErrorMap) (path : List String) (rule p : String)
    (hrule : numericRule rule) (hget : mget ins rule = some p)
    (hp : ¬ isDecimalInteger p)
    (hlen : (leadingDigits (unsignedPart p.data)).length ≤ 4) :
    handleField re field ins fb path = handleField re field (mset ins rule "0") fb path := by
  have hne : ∀ k, k ≠ rule → mget (mset ins rule "0") k = mget ins k :=
    fun k hk => mget_mset_other ins rule k "0" (Ne.symm hk)
  have hsame : mget (mset ins rule "0") rule = some "0" := mget_mset_same _ _ _
  have hz64 : ParseInt p 64 = 0 := ParseInt_not_decimal p 64 (by decide) (by decide) hp hlen
  have hz32 : ParseInt p 32 = 0 := ParseInt_not_decimal p 32 (by decide) (by decide) hp hlen
  have hz16 : ParseInt p 16 = 0 := ParseInt_not_decimal p 16 (by decide) (by decide) hp hlen
  have hnn : notNullSet ins = notNullSet (mset ins rule "0") := by
    unfold notNullSet
    rw [hne NotNull (by rcases hrule with h | h | h | h <;> rw [h] <;> decide)]
  have hregex : mget ins Regex = mget (mset ins rule "0") Regex := by
    rw [hne Regex (by rcases hrule with h | h | h | h <;> rw [h] <;> decide)]
  have hmap : ∀ (k : String) (f : String → Int), f p = f "0" →
      (mget ins k).map f = (mget (mset ins rule "0") k).map f := by
    intro k f hf
    by_cases hk : k = rule
    · subst hk
      rw [hsame, hget]
      simp [hf]
    · rw [hne k hk]
  have hAtoi : Atoi p = Atoi "0" := by
    unfold Atoi
    rw [hz64]
    decide
  cases field with
  | str d s =>
    show (if d then _ else handleString re s ins fb path) =
      (if d then _ else handleString re s (mset ins rule "0") fb path)
    rw [handleString_congr re s ins _ fb path hnn hregex (hmap _ _ hAtoi) (hmap _ _ hAtoi)]
  | int k d n =>
    cases d with
    | true => rfl
    | false =>
      cases k with
      | Int64 =>
        show Except.ok (handleInt64 n ins fb path) = Except.ok (handleInt64 n _ fb path)
        unfold handleInt64
        rw [handleIntWith_congr _ _ n ins _ fb path hnn
          (hmap _ _ (by simp only [hz64]; decide)) (hmap _ _ (by simp only [hz64]; decide))]
      | Int32 =>
        show Except.ok (handleInt32 n ins fb path) = Except.ok (handleInt32 n _ fb path)
        unfold handleInt32
        rw [handleIntWith_congr _ _ n ins _ fb path hnn
          (hmap _ _ (by simp only [hz32]; decide)) (hmap _ _ (by simp only [hz32]; decide))]
      | Int16 =>
        show Except.ok (handleInt16 n ins fb path) = Except.ok (handleInt16 n _ fb path)
        unfold handleInt16
        rw [handleIntWith_congr _ _ n ins _ fb path hnn
          (hmap _ _ (by simp only [hz16]; decide)) (hmap _ _ (by simp only [hz32]; decide))]
      | Int8 =>
        show Except.ok (handleInt8 n ins fb path) = Except.ok (handleInt8 n _ fb path)
        unfold handleInt8
        rw [handleIntWith_congr _ _ n ins _ fb path hnn
          (hmap _ _ (by simp only [hz16]; decide)) (hmap _ _ (by simp only [hz32]; decide))]
      | Int =>
        show Except.ok (handleInt n ins fb path) = Except.ok (handleInt n _ fb path)
        unfold handleInt
        rw [handleIntWith_congr _ _ n ins _ fb path hnn (hmap _ _ hAtoi) (hmap _ _ hAtoi)]
  | bool d b =>
    cases d with
    | true => rfl
    | false =>
      show Except.ok (handleBool b ins fb path) = Except.ok (handleBool b _ fb path)
      unfold handleBool
      rw [hnn]
  | slice ifaces elems =>
    cases ifaces with
    | false => rfl
    | true =>
      show handleSlice re elems ins fb path = handleSlice re elems _ fb path
      rw [handleSlice_eq, handleSlice_eq, hnn]
  | _ => rfl

/-! ## strconv on decimal integers -/

theorem ParseInt_decimalValue (p : String) (t : Int) (bitSize : Nat) (hb1 : 1 ≤ bitSize)
    (hb : bitSize ≤ 64) (hd : decimalValue p = some t) (hr : inRange bitSize t = true) :
    ParseInt p bitSize = t := by
  unfold decimalValue at hd
  by_cases hdec : isDecimalInteger p
  · rw [if_pos hdec] at hd
    obtain ⟨hne, hall⟩ := hdec
    simp only [inRange, decide_eq_true_eq] at hr
    obtain ⟨hlo, hhi⟩ := hr
    have hpow : 2 ^ bitSize = 2 * 2 ^ (bitSize - 1) := by
      rw [← pow_succ']
      congr 1
      omega
    have hM : 2 ^ bitSize - 1 < 2 ^ 64 := by
      have : 2 ^ bitSize ≤ 2 ^ 64 := Nat.pow_le_pow_right (by decide) hb
      have : 0 < 2 ^ bitSize := Nat.pow_pos (by decide)
      omega
    unfold ParseInt
    cases hdata : p.data with
    | nil => rw [hdata] at hne; exact absurd rfl hne
    | cons c cs =>
      have hbody : (if c = '+' ∨ c = '-' then cs else c :: cs) = unsignedPart p.data := by
        rw [hdata]; rfl
      simp only [hbody]
      rw [hdata] at hd
      simp only [List.head?_cons, Option.some.injEq] at hd
      rw [← hdata] at hd
      have hPU : decVal (unsignedPart p.data) 0 ≤ 2 ^ bitSize - 1 →
          ParseUint (unsignedPart p.data) bitSize
            = .ok (decVal (unsignedPart p.data) 0) := by
        intro hle
        unfold ParseUint
        cases hu : unsignedPart p.data with
        | nil => exact absurd hu hne
        | cons u us =>
          simp only
          rw [← hu]
          exact parseUintLoop_digits _ hM _ 0 hall hle
      by_cases hneg : c = '-'
      · rw [if_pos hneg] at hd
        have ht : t = - (decVal (unsignedPart p.data) 0 : Int) := by
          simpa using hd.symm
        have hle : decVal (unsignedPart p.data) 0 ≤ 2 ^ (bitSize - 1) := by
          have : ((decVal (unsignedPart p.data) 0 : Nat) : Int) ≤ (2 ^ (bitSize - 1) : Int) := by
            omega
          exact_mod_cast this
        rw [hPU (by omega)]
        simp only [hneg, decide_True]
        rw [if_neg (by simp), if_neg (by simp; omega)]
        simp [ht]
      · rw [if_neg hneg] at hd
        have ht : t = (decVal (unsignedPart p.data) 0 : Int) := by
          simpa using hd.symm
        have hlt : decVal (unsignedPart p.data) 0 < 2 ^ (bitSize - 1) := by
          have : ((decVal (unsignedPart p.data) 0 : Nat) : Int) < (2 ^ (bitSize - 1) : Int) := by
            omega
          exact_mod_cast this
        rw [hPU (by omega)]
        simp only [hneg, decide_False]
        rw [if_neg (by simp; omega), if_neg (by simp)]
        simp [ht]
  · rw [if_neg hdec] at hd
    exact absurd hd (by simp)

/-! ## Values that violate no rule leave the failure map unchanged -/

theorem notNullSet_false_of_not_violated (ins : Instructions) (isZero : Bool)
    (h : notNullViolated ins isZero = false) (hz : isZero = true) :
    notNullSet ins = false := by
  cases hb : notNullSet ins with
  | false => rfl
  | true =>
    have := (notNullSet_eq ins).mp hb
    simp [notNullViolated, this, hz] at h

theorem thresholdOk_some (bits : Nat) (v : String) (violated : Int → Bool)
    (h : thresholdOk bits (some v) violated = true) :
    ∃ t, decimalValue v = some t ∧ inRange bits t = true ∧ violated t = false := by
  unfold thresholdOk at h
  cases hd : decimalValue v with
  | none => simp [hd] at h
  | some t =>
    simp [hd] at h
    exact ⟨t, rfl, h.1, h.2⟩

theorem wrapInt_of_inRange (bits : Nat) (t : Int) (hb : 1 ≤ bits)
    (h : inRange bits t = true) : wrapInt bits t = t := by
  simp only [inRange, decide_eq_true_eq] at h
  obtain ⟨hlo, hhi⟩ := h
  have hpow : (2 : Int) ^ bits = 2 * 2 ^ (bits - 1) := by
    rw [← pow_succ']
    congr 1
    omega
  unfold wrapInt
  rw [hpow, Int.emod_eq_of_lt (by omega) (by omega)]
  omega

theorem inRange_mono (b1 b2 : Nat) (t : Int) (hb : b1 ≤ b2) (h : inRange b1 t = true) :
    inRange b2 t = true := by
  simp only [inRange, decide_eq_true_eq] at h ⊢
  have hp : (2 : Int) ^ (b1 - 1) ≤ 2 ^ (b2 - 1) :=
    pow_le_pow_right₀ (by decide) (by omega)
  omega

theorem handleString_clean (re : String → Option (String → Bool)) (s : String)
    (ins : Instructions) (fb : ErrorMap) (path : List String)
    (h : stringOk re ins s = true) : handleString re s ins fb path = .ok fb := by
  simp only [stringOk, Bool.and_eq_true, Bool.not_eq_true'] at h
  obtain ⟨⟨⟨hnn, hre⟩, hmax⟩, hmin⟩ := h
  have hre2 : ∀ v, mget ins Regex = some v → re v ≠ none := by
    intro v hv hnone
    simp [hv, hnone] at hre
  rw [handleString_recordLast re s ins fb path hre2]
  have hv : writtenFailures re s ins = [] := by
    unfold writtenFailures
    have h1 : (if mget ins NotNull = some "true" ∧ s = "" then
        [NotNullValidationFailedError] else []) = [] := by
      rw [if_neg]
      intro hc
      simp [notNullViolated, hc.1, hc.2] at hnn
    have h2 : (match mget ins Regex with
        | some v =>
          match re v with
          | some pattern => if pattern s then [] else [RegexValidationFailedError]
          | none => []
        | none => []) = [] := by
      cases hr : mget ins Regex with
      | none => rfl
      | some v =>
        cases hc : re v with
        | none => simp [hr, hc] at hre
        | some pattern =>
          simp [hr, hc] at hre
          simp [hc, hre]
    have h3 : (match mget ins MaxLen with
        | some v =>
          if (strLen s : Int) > Atoi v then [MaxLenConditionValidationFailedError] else []
        | none => []) = [] := by
      cases hr : mget ins MaxLen with
      | none => rfl
      | some v =>
        rw [hr] at hmax
        obtain ⟨t, hd, hrange, hviol⟩ := thresholdOk_some _ _ _ hmax
        have hA : Atoi v = t := ParseInt_decimalValue v t 64 (by decide) (by decide) hd hrange
        simp only [decide_eq_false_iff_not] at hviol
        simp only [hA]
        rw [if_neg hviol]
    have h4 : (match mget ins MinLen with
        | some v =>
          if (strLen s : Int) < Atoi v then [MinLenConditionValidationFailedError] else []
        | none => []) = [] := by
      cases hr : mget ins MinLen with
      | none => rfl
      | some v =>
        rw [hr] at hmin
        obtain ⟨t, hd, hrange, hviol⟩ := thresholdOk_some _ _ _ hmin
        have hA : Atoi v = t := ParseInt_decimalValue v t 64 (by decide) (by decide) hd hrange
        simp only [decide_eq_false_iff_not] at hviol
        simp only [hA]
        rw [if_neg hviol]
    rw [h1, h2, h3, h4]
    rfl
  rw [hv, recordLast_nil]

theorem handleIntWith_clean (gtOf ltOf : String → Int) (bits : Nat) (n : Int)
    (ins : Instructions) (fb : ErrorMap) (path : List String)
    (hgt : ∀ v t, decimalValue v = some t → inRange bits t = true → gtOf v = t)
    (hlt : ∀ v t, decimalValue v = some t → inRange bits t = true → ltOf v = t)
    (hnn : notNullViolated ins (decide (n = 0)) = false)
    (h1 : thresholdOk bits (mget ins GreaterThan) (fun t => decide (n < t)) = true)
    (h2 : thresholdOk bits (mget ins LessThan) (fun t => decide (n > t)) = true) :
    handleIntWith gtOf ltOf n ins fb path = fb := by
  unfold handleIntWith
  have e1 : (if notNullSet ins = true ∧ n = 0 then
      mset fb (Join path) NotNullValidationFailedError else fb) = fb := by
    rw [if_neg]
    intro hc
    have := (notNullSet_eq ins).mp hc.1
    simp [notNullViolated, this, hc.2] at hnn
  simp only [e1]
  have e2 : (match mget ins GreaterThan with
      | some v => if n < gtOf v then mset fb (Join path) GTConditionValidationFailedError else fb
      | none => fb) = fb := by
    cases hr : mget ins GreaterThan with
    | none => rfl
    | some v =>
      rw [hr] at h1
      obtain ⟨t, hd, hrange, hviol⟩ := thresholdOk_some _ _ _ h1
      simp only [decide_eq_false_iff_not] at hviol
      simp only [hgt v t hd hrange]
      rw [if_neg hviol]
  simp only [e2]
  cases hr : mget ins LessThan with
  | none => rfl
  | some v =>
    rw [hr] at h2
    obtain ⟨t, hd, hrange, hviol⟩ := thresholdOk_some _ _ _ h2
    simp only [decide_eq_false_iff_not] at hviol
    simp only [hlt v t hd hrange]
    rw [if_neg hviol]

theorem cleanFields_cons (re : String → Option (String → Bool)) (name pkgPath : String)
    (tag : List (String × String)) (field : Value) (rest : List (StructField Value)) :
    cleanFields re (⟨name, pkgPath, tag, field⟩ :: rest) =
      (decide (pkgPath = "") && decide (Get tag Label ≠ "") &&
        (if kindIsStruct field then
          match field with
          | .rvalue v => cleanVal re v
          | _ => false
        else if kindIsPtr field then
          match field with
          | .ptr elem =>
            if kindIsStruct elem then cleanVal re elem
            else cleanLeaf re (instructionsOf tag) elem
          | _ => !notNullViolated (instructionsOf tag) true
        else cleanLeaf re (instructionsOf tag) field) &&
        cleanFields re rest) := by
  cases field <;> rfl

theorem cleanElems_cons (re : String → Option (String → Bool)) (v : Value)
    (rest : List Value) :
    cleanElems re (v :: rest) =
      ((match v with
        | .rvalue w => cleanVal re w
        | _ => false) && cleanElems re rest) := by
  cases v <;> rfl

theorem handleField_scalar_clean (re : String → Option (String → Bool)) (field : Value)
    (ins : Instructions) (fb : ErrorMap) (path : List String)
    (hslice : ∀ ifaces elems, field ≠ .slice ifaces elems)
    (h : cleanLeaf re ins field = true) : handleField re field ins fb path = .ok fb := by
  cases field with
  | str d s =>
    have h2 : (!d && stringOk re ins s) = true := h
    simp only [Bool.and_eq_true, Bool.not_eq_true'] at h2
    obtain ⟨hd, hs⟩ := h2
    subst hd
    exact handleString_clean re s ins fb path hs
  | int k d n =>
    have h2 : (!d && intOk k ins n) = true := h
    simp only [Bool.and_eq_true, Bool.not_eq_true', intOk] at h2
    obtain ⟨hd, ⟨hnn, hgt⟩, hlt⟩ := h2
    subst hd
    have hP : ∀ (b1 b2 : Nat), 1 ≤ b1 → b1 ≤ b2 → b2 ≤ 64 → ∀ v t,
        decimalValue v = some t → inRange b1 t = true → wrapInt b1 (ParseInt v b2) = t := by
      intro b1 b2 h1 h12 h2 v t hd hr
      rw [ParseInt_decimalValue v t b2 (by omega) h2 hd (inRange_mono b1 b2 t h12 hr)]
      exact wrapInt_of_inRange b1 t h1 hr
    have hP64 : ∀ v t, decimalValue v = some t → inRange 64 t = true → ParseInt v 64 = t :=
      fun v t hd hr => ParseInt_decimalValue v t 64 (by decide) (by decide) hd hr
    cases k with
    | Int64 =>
      show Except.ok (handleInt64 n ins fb path) = _
      unfold handleInt64
      rw [handleIntWith_clean _ _ 64 n ins fb path hP64 hP64 hnn hgt hlt]
    | Int32 =>
      show Except.ok (handleInt32 n ins fb path) = _
      unfold handleInt32
      rw [handleIntWith_clean _ _ 32 n ins fb path
        (hP 32 32 (by decide) (by decide) (by decide))
        (hP 32 32 (by decide) (by decide) (by decide)) hnn hgt hlt]
    | Int16 =>
      show Except.ok (handleInt16 n ins fb path) = _
      unfold handleInt16
      rw [handleIntWith_clean _ _ 16 n ins fb path
        (hP 16 16 (by decide) (by decide) (by decide))
        (hP 16 32 (by decide) (by decide) (by decide)) hnn hgt hlt]
    | Int8 =>
      show Except.ok (handleInt8 n ins fb path) = _
      unfold handleInt8
      rw [handleIntWith_clean _ _ 8 n ins fb path
        (hP 8 16 (by decide) (by decide) (by decide))
        (hP 8 32 (by decide) (by decide) (by decide)) hnn hgt hlt]
    | Int =>
      show Except.ok (handleInt n ins fb path) = _
      unfold handleInt
      have hA : ∀ v t, decimalValue v = some t → inRange 64 t = true → Atoi v = t := hP64
      rw [handleIntWith_clean _ _ 64 n ins fb path hA hA hnn hgt hlt]
  | bool d b =>
    have h2 : (!d && !notNullViolated ins (!b)) = true := h
    simp only [Bool.and_eq_true, Bool.not_eq_true'] at h2
    obtain ⟨hd, hb⟩ := h2
    subst hd
    show Except.ok (handleBool b ins fb path) = _
    unfold handleBool
    rw [if_neg]
    intro hc
    have := (notNullSet_eq ins).mp hc.1
    simp [notNullViolated, this, hc.2] at hb
  | slice ifaces elems => exact absurd rfl (hslice ifaces elems)
  | _ => rfl

theorem cleanVal_ptr (re : String → Option (String → Bool)) (elem : Value) :
    cleanVal re (.ptr elem) = cleanVal re elem := rfl

theorem cleanVal_struct (re : String → Option (String → Bool))
    (fields : List (StructField Value)) :
    cleanVal re (.struct fields) = cleanFields re fields := rfl

theorem cleanVal_rvalue (re : String → Option (String → Bool)) (v : Value) :
    cleanVal re (.rvalue v) = false := rfl

theorem cleanLeaf_slice (re : String → Option (String → Bool)) (ins : Instructions)
    (ifaces : Bool) (elems : List Value) :
    cleanLeaf re ins (.slice ifaces elems) =
      (ifaces && !notNullViolated ins elems.isEmpty && cleanElems re elems) := rfl

mutual

theorem sanitizeVal_clean (re : String → Option (String → Bool)) (v : Value)
    (h : cleanVal re v = true) (fb : ErrorMap) (paths : List String) :
    sanitizeVal re v fb paths = .ok fb := by
  cases v with
  | ptr elem =>
    rw [sanitizeVal_ptr]
    exact sanitizeVal_clean re elem (by rw [cleanVal_ptr] at h; exact h) fb paths
  | struct fields =>
    rw [sanitizeVal_struct]
    exact sanitizeFields_clean re fields (by rw [cleanVal_struct] at h; exact h) fb paths
  | rvalue w => rw [cleanVal_rvalue] at h; exact absurd h (by decide)
  | _ => rfl

theorem sanitizeFields_clean (re : String → Option (String → Bool))
    (fields : List (StructField Value)) (h : cleanFields re fields = true) (fb : ErrorMap)
    (paths : List String) : sanitizeFields re fields fb paths = .ok fb := by
  cases fields with
  | nil => rfl
  | cons f rest =>
    obtain ⟨name, pkgPath, tag, field⟩ := f
    rw [cleanFields_cons] at h
    simp only [Bool.and_eq_true, decide_eq_true_eq] at h
    obtain ⟨⟨⟨hpkg, hl⟩, hfield⟩, hrest⟩ := h
    have ihrest := sanitizeFields_clean re rest hrest
    rw [sanitizeFields_cons]
    simp only [hpkg, ne_eq, not_true_eq_false, if_false, hl]
    cases field with
    | rvalue w =>
      have hw : cleanVal re w = true := hfield
      show (match sanitize re (.rvalue w) fb (paths ++ [jsonKeyOf tag name]) with
        | Except.error e => Except.error e
        | Except.ok fb1 => sanitizeFields re rest fb1 paths) = _
      rw [sanitize_rvalue, sanitizeVal_clean re w hw]
      exact ihrest fb paths
    | struct fs => exact absurd hfield (by simp [kindIsStruct])
    | ptr elem =>
      have k1 : kindIsStruct (.ptr elem) = false := rfl
      have k2 : kindIsPtr (.ptr elem) = true := rfl
      simp only [k1, k2, Bool.false_eq_true, if_false, if_true] at hfield ⊢
      by_cases hse : kindIsStruct elem = true
      · rw [if_pos hse] at hfield ⊢
        exact sanitizeVal_clean re elem hfield fb _
      · rw [if_neg hse] at hfield ⊢
        rw [handleField_clean re elem (instructionsOf tag) hfield]
        exact ihrest fb paths
    | nilPtr =>
      have k1 : kindIsStruct .nilPtr = false := rfl
      have k2 : kindIsPtr .nilPtr = true := rfl
      simp only [k1, k2, Bool.false_eq_true, if_false, if_true, Bool.not_eq_true'] at hfield ⊢
      rw [notNullSet_false_of_not_violated _ true hfield rfl]
      rfl
    | _ =>
      simp only [kindIsStruct, kindIsPtr, Bool.false_eq_true, if_false] at hfield ⊢
      rw [handleField_clean re _ (instructionsOf tag) hfield]
      exact ihrest fb paths

theorem handleField_clean (re : String → Option (String → Bool)) (field : Value)
    (ins : Instructions) (h : cleanLeaf re ins field = true) (fb : ErrorMap)
    (path : List String) : handleField re field ins fb path = .ok fb := by
  cases field with
  | slice ifaces elems =>
    rw [cleanLeaf_slice] at h
    simp only [Bool.and_eq_true, Bool.not_eq_true'] at h
    obtain ⟨⟨hi, hnn⟩, helems⟩ := h
    subst hi
    show handleSlice re elems ins fb path = _
    rw [handleSlice_eq]
    have e1 : (if notNullSet ins = true ∧ elems.length = 0 then
        mset fb (Join path) NotNullValidationFailedError else fb) = fb := by
      rw [if_neg]
      intro hc
      have h1 := (notNullSet_eq ins).mp hc.1
      have h2 : elems.isEmpty = true := by
        cases elems with
        | nil => rfl
        | cons a as => simp at hc
      simp [notNullViolated, h1, h2] at hnn
    rw [e1]
    exact handleSliceLoop_clean re elems helems 0 fb path
  | str d s => exact handleField_scalar_clean re _ ins fb path (by simp) h
  | bool d b => exact handleField_scalar_clean re _ ins fb path (by simp) h
  | int k d n => exact handleField_scalar_clean re _ ins fb path (by simp) h
  | _ => rfl

theorem handleSliceLoop_clean (re : String → Option (String → Bool)) (elems : List Value)
    (h : cleanElems re elems = true) (i : Nat) (fb : ErrorMap) (path : List String) :
    handleSliceLoop re elems i fb path = .ok fb := by
  cases elems with
  | nil => rfl
  | cons v rest =>
    rw [cleanElems_cons] at h
    simp only [Bool.and_eq_true] at h
    obtain ⟨hv, hrest⟩ := h
    rw [handleSliceLoop_cons]
    cases v with
    | rvalue w =>
      rw [sanitize_rvalue, sanitizeVal_clean re w hv]
      exact handleSliceLoop_clean re rest hrest (i + 1) fb path
    | _ => exact absurd hv (by simp)

end

/-! ## Early abandonment -/

theorem sanitizeFields_append_unannotated (re : String → Option (String → Bool))
    (pre : List (StructField Value)) (f : StructField Value) (post : List (StructField Value))
    (paths : List String) (hexp : f.PkgPath = "") (hvoc : Get f.Tag Label = "") :
    ∀ fb : ErrorMap,
      sanitizeFields re (pre ++ f :: post) fb paths = sanitizeFields re pre fb paths := by
  induction pre with
  | nil =>
    intro fb
    obtain ⟨name, pkgPath, tag, field⟩ := f
    simp only at hexp hvoc
    rw [List.nil_append, sanitizeFields_cons, sanitizeFields_nil]
    simp [hexp, hvoc]
  | cons g pre ih =>
    intro fb
    obtain ⟨name, pkgPath, tag, field⟩ := g
    rw [List.cons_append, sanitizeFields_cons, sanitizeFields_cons]
    simp only [ih]

theorem take_append_of_getElem? {α : Type} (l : List α) (k : Nat) (a : α)
    (h : l[k]? = some a) : l = l.take k ++ a :: l.drop (k + 1) := by
  induction l generalizing k with
  | nil => simp at h
  | cons x l ih =>
    cases k with
    | zero =>
      simp at h
      simp [h]
    | succ k =>
      simp at h
      simp only [List.take_succ_cons, List.drop_succ_cons, List.cons_append]
      rw [← ih k h]

/-! ## Instruction resolution -/

theorem mget_buildInstructions (tag : List (String × String)) (terms : List String)
    (k : String) :
    ∀ ins : Instructions,
      mget (buildInstructions tag terms ins) k =
        if k ∈ terms ∧ Get tag k ≠ "" then some (Get tag k) else mget ins k := by
  induction terms with
  | nil => intro ins; simp [buildInstructions]
  | cons term rest ih =>
    intro ins
    simp only [buildInstructions]
    by_cases hg : Get tag term ≠ ""
    · rw [if_pos hg, ih]
      by_cases hk : k = term
      · subst hk
        by_cases hr : k ∈ rest
        · simp [hr, hg]
        · simp [hr, hg, mget_mset_same]
      · have hk2 : term ≠ k := fun h => hk h.symm
        rw [mget_mset_other _ _ _ _ hk2]
        simp [hk]
    · rw [if_neg hg, ih]
      by_cases hk : k = term
      · subst hk
        have hg2 : Get tag k = "" := by simpa using hg
        simp [hg2]
      · simp [hk]

/-! ## Replacing the tail of a record's fields -/

theorem sanitizeFields_append_congr (re : String → Option (String → Bool))
    (pre l1 l2 : List (StructField Value)) (paths : List String)
    (h : ∀ fb : ErrorMap, sanitizeFields re l1 fb paths = sanitizeFields re l2 fb paths) :
    ∀ fb : ErrorMap,
      sanitizeFields re (pre ++ l1) fb paths = sanitizeFields re (pre ++ l2) fb paths := by
  induction pre with
  | nil => intro fb; exact h fb
  | cons g pre ih =>
    intro fb
    obtain ⟨name, pkgPath, tag, field⟩ := g
    rw [List.cons_append, List.cons_append, sanitizeFields_cons, sanitizeFields_cons]
    simp only [ih]

theorem sanitizeFields_ptr_scalar (re : String → Option (String → Bool)) (name pkgPath : String)
    (tag : List (String × String)) (v : Value) (rest : List (StructField Value))
    (fb : ErrorMap) (paths : List String) (hv : isScalar v = true) :
    sanitizeFields re (⟨name, pkgPath, tag, .ptr v⟩ :: rest) fb paths =
      sanitizeFields re (⟨name, pkgPath, tag, v⟩ :: rest) fb paths := by
  rw [sanitizeFields_cons, sanitizeFields_cons]
  cases v with
  | str d s => rfl
  | bool d b => rfl
  | int k d n => rfl
  | _ => exact absurd hv (by simp [isScalar])

/-! ## Every write goes to the path of a field occurrence -/

theorem writesWithin_refl (fb : ErrorMap) (S : List String) : writesWithin fb fb S :=
  fun _ hk => Or.inl hk

theorem writesWithin_mono (fb1 fb2 : ErrorMap) (S T : List String)
    (h : writesWithin fb1 fb2 S) (hST : ∀ k ∈ S, k ∈ T) : writesWithin fb1 fb2 T := by
  intro k hk
  rcases h k hk with h1 | h1
  · exact Or.inl h1
  · exact Or.inr (hST k h1)

theorem writesWithin_trans (fb1 fb2 fb3 : ErrorMap) (S : List String)
    (h12 : writesWithin fb1 fb2 S) (h23 : writesWithin fb2 fb3 S) : writesWithin fb1 fb3 S := by
  intro k hk
  rcases h23 k hk with h1 | h1
  · exact h12 k h1
  · exact Or.inr h1

theorem writesWithin_mset (fb : ErrorMap) (p : String) (e : SanityError) (S : List String)
    (hp : p ∈ S) : writesWithin fb (mset fb p e) S := by
  intro k hk
  induction fb with
  | nil =>
    simp [mset, keys] at hk
    exact Or.inr (hk ▸ hp)
  | cons q fb ih =>
    obtain ⟨k0, v0⟩ := q
    by_cases h0 : k0 = p
    · simp [mset, keys, h0] at hk ⊢
      rcases hk with hk | hk
      · exact Or.inr (hk ▸ hp)
      · exact Or.inl (Or.inr hk)
    · simp [mset, keys, h0] at hk ⊢
      rcases hk with hk | hk
      · exact Or.inl (Or.inl hk)
      · have := ih (by simpa [keys] using hk)
        rcases this with h1 | h1
        · exact Or.inl (Or.inr (by simpa [keys] using h1))
        · exact Or.inr h1

theorem writesWithin_ite (fb1 fb2 : ErrorMap) (c : Prop) [Decidable c] (p : String)
    (e : SanityError) (S : List String) (hp : p ∈ S) (h : writesWithin fb1 fb2 S) :
    writesWithin fb1 (if c then mset fb2 p e else fb2) S := by
  by_cases hc : c
  · rw [if_pos hc]
    exact writesWithin_trans _ _ _ S h (writesWithin_mset fb2 p e S hp)
  · rw [if_neg hc]
    exact h

theorem handleBool_writes (b : Bool) (ins : Instructions) (fb : ErrorMap) (path : List String)
    (S : List String) (hp : Join path ∈ S) :
    writesWithin fb (handleBool b ins fb path) S := by
  unfold handleBool
  exact writesWithin_ite fb fb _ _ _ S hp (writesWithin_refl fb S)

theorem handleIntWith_writes (gtOf ltOf : String → Int) (n : Int) (ins : Instructions)
    (fb : ErrorMap) (path : List String) (S : List String) (hp : Join path ∈ S) :
    writesWithin fb (handleIntWith gtOf ltOf n ins fb path) S := by
  unfold handleIntWith
  have h1 := writesWithin_ite fb fb (notNullSet ins = true ∧ n = 0) (Join path)
    NotNullValidationFailedError S hp (writesWithin_refl fb S)
  cases hg : mget ins GreaterThan <;> cases hl : mget ins LessThan <;> simp only
  · exact h1
  · exact writesWithin_ite _ _ _ _ _ S hp h1
  · exact writesWithin_ite _ _ _ _ _ S hp h1
  · exact writesWithin_ite _ _ _ _ _ S hp (writesWithin_ite _ _ _ _ _ S hp h1)

theorem handleString_writes (re : String → Option (String → Bool)) (str : String)
    (ins : Instructions) (fb fb2 : ErrorMap) (path : List String) (S : List String)
    (hp : Join path ∈ S) (h : handleString re str ins fb path = .ok fb2) :
    writesWithin fb fb2 S := by
  have hre : ∀ v, mget ins Regex = some v → re v ≠ none := by
    intro v hv hnone
    unfold handleString at h
    simp [hv, hnone] at h
  rw [handleString_recordLast re str ins fb path hre] at h
  have h2 : fb2 = recordLast fb (Join path) (writtenFailures re str ins) := by
    simpa using h.symm
  rw [h2]
  unfold recordLast
  cases (writtenFailures re str ins).getLast? with
  | none => exact writesWithin_refl fb S
  | some e => exact writesWithin_mset fb _ e S hp

theorem occFields_cons (name pkgPath : String) (tag : List (String × String)) (field : Value)
    (rest : List (StructField Value)) :
    occFields (⟨name, pkgPath, tag, field⟩ :: rest) =
      ([jsonKeyOf tag name] ::
        (if kindIsStruct field then
          match field with
          | .rvalue v => occVal v
          | _ => []
        else if kindIsPtr field then
          match field with
          | .ptr elem => if kindIsStruct elem then occVal elem else occLeaf elem
          | _ => []
        else occLeaf field).map (fun r => jsonKeyOf tag name :: r)) ++ occFields rest := by
  cases field <;> rfl

theorem occElems_cons (v : Value) (rest : List Value) (i : Nat) :
    occElems (v :: rest) i =
      (match v with
        | .rvalue w => occVal w
        | _ => []).map (fun r => Itoa i :: r) ++ occElems rest (i + 1) := by
  cases v <;> rfl

theorem ok_of_match_ok (x : Except Panic ErrorMap)
    (g : ErrorMap → Except Panic ErrorMap) (r : ErrorMap)
    (h : (match x with
      | Except.error e => Except.error e
      | Except.ok fb1 => g fb1) = Except.ok r) : ∃ fb1, x = .ok fb1 ∧ g fb1 = .ok r := by
  cases x with
  | error e => simp at h
  | ok fb1 => exact ⟨fb1, rfl, h⟩

theorem visFields_cons (re : String → Option (String → Bool)) (name pkgPath : String)
    (tag : List (String × String)) (field : Value) (rest : List (StructField Value))
    (fb : ErrorMap) (paths : List String) :
    visFields re (⟨name, pkgPath, tag, field⟩ :: rest) fb paths =
      [jsonKeyOf tag name] ::
        (if pkgPath ≠ "" then []
        else if Get tag Label = "" then []
        else if kindIsStruct field then
          match field with
          | .rvalue v =>
            (visVal re v fb (paths ++ [jsonKeyOf tag name])).map
                (fun r => jsonKeyOf tag name :: r) ++
              (match sanitizeVal re v fb (paths ++ [jsonKeyOf tag name]) with
                | .ok fb1 => visFields re rest fb1 paths
                | .error _ => [])
          | _ => []
        else if kindIsPtr field then
          match field with
          | .ptr elem =>
            if kindIsStruct elem then
              (visVal re elem fb (paths ++ [jsonKeyOf tag name])).map
                (fun r => jsonKeyOf tag name :: r)
            else
              (visLeaf re elem (instructionsOf tag) fb (paths ++ [jsonKeyOf tag name])).map
                  (fun r => jsonKeyOf tag name :: r) ++
                (match handleField re elem (instructionsOf tag) fb
                    (paths ++ [jsonKeyOf tag name]) with
                  | .ok fb1 => visFields re rest fb1 paths
                  | .error _ => [])
          | _ => []
        else
          (visLeaf re field (instructionsOf tag) fb (paths ++ [jsonKeyOf tag name])).map
              (fun r => jsonKeyOf tag name :: r) ++
            (match handleField re field (instructionsOf tag) fb
                (paths ++ [jsonKeyOf tag name]) with
              | .ok fb1 => visFields re rest fb1 paths
              | .error _ => [])) := by
  cases field <;> rfl

theorem visElems_cons (re : String → Option (String → Bool)) (v : Value) (rest : List Value)
    (i : Nat) (fb : ErrorMap) (path : List String) :
    visElems re (v :: rest) i fb path =
      match v with
      | .rvalue w =>
        (visVal re w fb (path ++ [Itoa i])).map (fun r => Itoa i :: r) ++
          (match sanitizeVal re w fb (path ++ [Itoa i]) with
            | .ok fb1 => visElems re rest (i + 1) fb1 path
            | .error _ => [])
      | _ => [] := by
  cases v <;> rfl

theorem visLeaf_slice (re : String → Option (String → Bool)) (elems : List Value)
    (ins : Instructions) (fb : ErrorMap) (path : List String) :
    visLeaf re (.slice true elems) ins fb path =
      visElems re elems 0
        (if notNullSet ins ∧ elems.length = 0 then
          mset fb (Join path) NotNullValidationFailedError
        else fb) path := rfl

/-- A walk below the segment `key`, followed by the walk of what comes after it:
the paths written lie at `key`, below `key`, or in what comes after. -/
theorem writesWithin_step (fb fb1 fb2 : ErrorMap) (paths : List String) (key : String)
    (sub rest : List (List String))
    (w1 : writesWithin fb fb1
      (Join (paths ++ [key]) :: sub.map (fun r => Join ((paths ++ [key]) ++ r))))
    (w2 : writesWithin fb1 fb2 (rest.map (fun r => Join (paths ++ r)))) :
    writesWithin fb fb2
      (([key] :: (sub.map (fun r => key :: r) ++ rest)).map (fun r => Join (paths ++ r))) := by
  refine writesWithin_trans fb fb1 fb2 _ (writesWithin_mono _ _ _ _ w1 ?_)
    (writesWithin_mono _ _ _ _ w2 ?_)
  · intro k hk
    rcases List.mem_cons.mp hk with hk | hk
    · rw [hk]
      exact List.mem_map.mpr ⟨[key], List.mem_cons_self _ _, rfl⟩
    · obtain ⟨r, hr1, hr2⟩ := List.mem_map.mp hk
      refine List.mem_map.mpr ⟨key :: r, List.mem_cons_of_mem _
        (List.mem_append_left _ (List.mem_map.mpr ⟨r, hr1, rfl⟩)), ?_⟩
      rw [← hr2, List.append_assoc]
      rfl
  · intro k hk
    obtain ⟨r, hr1, hr2⟩ := List.mem_map.mp hk
    exact List.mem_map.mpr ⟨r, List.mem_cons_of_mem _ (List.mem_append_right _ hr1), hr2⟩

theorem writesWithin_below (fb fb2 : ErrorMap) (paths : List String) (key : String)
    (sub : List (List String))
    (w1 : writesWithin fb fb2 (sub.map (fun r => Join ((paths ++ [key]) ++ r)))) :
    writesWithin fb fb2
      (Join (paths ++ [key]) :: sub.map (fun r => Join ((paths ++ [key]) ++ r))) :=
  writesWithin_mono _ _ _ _ w1 (fun _ hk => List.mem_cons_of_mem _ hk)

mutual

theorem sanitizeVal_writes (re : String → Option (String → Bool)) (v : Value)
    (fb fb2 : ErrorMap) (paths : List String) (h : sanitizeVal re v fb paths = .ok fb2) :
    writesWithin fb fb2 ((visVal re v fb paths).map (fun r => Join (paths ++ r))) := by
  cases v with
  | ptr elem => exact sanitizeVal_writes re elem fb fb2 paths h
  | struct fields => exact sanitizeFields_writes re fields fb fb2 paths h
  | rvalue w =>
    have h3 : (Except.error Panic.unexportedField : Except Panic ErrorMap) = .ok fb2 := h
    exact absurd h3 (by simp)
  | _ =>
    have h2 : fb2 = fb := by
      have h3 : (Except.ok fb : Except Panic ErrorMap) = .ok fb2 := h
      simpa using h3.symm
    rw [h2]
    exact writesWithin_refl fb _

theorem sanitizeFields_writes (re : String → Option (String → Bool))
    (fields : List (StructField Value)) (fb fb2 : ErrorMap) (paths : List String)
    (h : sanitizeFields re fields fb paths = .ok fb2) :
    writesWithin fb fb2 ((visFields re fields fb paths).map (fun r => Join (paths ++ r))) := by
  cases fields with
  | nil =>
    have h2 : fb2 = fb := by
      rw [sanitizeFields_nil] at h
      simpa using h.symm
    rw [h2]
    exact writesWithin_refl fb _
  | cons f rest =>
    obtain ⟨name, pkgPath, tag, field⟩ := f
    rw [sanitizeFields_cons] at h
    rw [visFields_cons]
    by_cases hpkg : pkgPath ≠ ""
    · rw [if_pos hpkg] at h
      exact absurd h (by simp)
    rw [if_neg hpkg] at h
    rw [if_neg hpkg]
    by_cases hl : Get tag Label = ""
    · rw [if_pos hl] at h
      have h2 : fb2 = fb := by simpa using h.symm
      rw [h2]
      exact writesWithin_refl fb _
    rw [if_neg hl] at h
    rw [if_neg hl]
    by_cases hs : kindIsStruct field = true
    · rw [if_pos hs] at h
      rw [if_pos hs]
      cases field with
      | rvalue w =>
        obtain ⟨fb1, hx, hr⟩ :=
          ok_of_match_ok _ (fun fb1 => sanitizeFields re rest fb1 paths) _ h
        rw [sanitize_rvalue] at hx
        simp only [hx]
        exact writesWithin_step fb fb1 fb2 paths _ _ _
          (writesWithin_below fb fb1 paths _ _
            (sanitizeVal_writes re w fb fb1 (paths ++ [jsonKeyOf tag name]) hx))
          (sanitizeFields_writes re rest fb1 fb2 paths hr)
      | struct fs =>
        have h3 : (Except.error Panic.interfaceConversion : Except Panic ErrorMap) = .ok fb2 := by
          rw [← h]; rfl
        exact absurd h3 (by simp)
      | _ => exact absurd hs (by simp [kindIsStruct])
    · rw [if_neg hs] at h
      rw [if_neg hs]
      by_cases hp : kindIsPtr field = true
      · rw [if_pos hp] at h
        rw [if_pos hp]
        cases field with
        | nilPtr =>
          simp only at h ⊢
          by_cases hn : notNullSet (instructionsOf tag) = true
          · rw [if_pos hn] at h
            have h2 : fb2 = mset fb (Join (paths ++ [jsonKeyOf tag name]))
                NotNullValidationFailedError := by simpa using h.symm
            rw [h2]
            exact writesWithin_mset fb _ _ _
              (List.mem_map.mpr ⟨[jsonKeyOf tag name], List.mem_cons_self _ _, rfl⟩)
          · rw [if_neg hn] at h
            have h2 : fb2 = fb := by simpa using h.symm
            rw [h2]
            exact writesWithin_refl fb _
        | ptr elem =>
          simp only at h ⊢
          by_cases hse : kindIsStruct elem = true
          · rw [if_pos hse] at h
            rw [if_pos hse]
            have w := writesWithin_step fb fb2 fb2 paths (jsonKeyOf tag name)
              (visVal re elem fb (paths ++ [jsonKeyOf tag name])) []
              (writesWithin_below fb fb2 paths _ _
                (sanitizeVal_writes re elem fb fb2 (paths ++ [jsonKeyOf tag name]) h))
              (writesWithin_refl fb2 _)
            rw [List.append_nil] at w
            exact w
          · rw [if_neg hse] at h
            rw [if_neg hse]
            obtain ⟨fb1, hx, hr⟩ :=
              ok_of_match_ok _ (fun fb1 => sanitizeFields re rest fb1 paths) _ h
            simp only [hx]
            exact writesWithin_step fb fb1 fb2 paths _ _ _
              (handleField_writes re elem (instructionsOf tag) fb fb1
                (paths ++ [jsonKeyOf tag name]) hx)
              (sanitizeFields_writes re rest fb1 fb2 paths hr)
        | _ => exact absurd hp (by simp [kindIsPtr])
      · rw [if_neg hp] at h
        rw [if_neg hp]
        obtain ⟨fb1, hx, hr⟩ :=
          ok_of_match_ok (handleField re field (instructionsOf tag) fb
            (paths ++ [jsonKeyOf tag name])) (fun fb1 => sanitizeFields re rest fb1 paths) _ h
        simp only [hx]
        exact writesWithin_step fb fb1 fb2 paths _ _ _
          (handleField_writes re field (instructionsOf tag) fb fb1
            (paths ++ [jsonKeyOf tag name]) hx)
          (sanitizeFields_writes re rest fb1 fb2 paths hr)

theorem handleField_writes (re : String → Option (String → Bool)) (field : Value)
    (ins : Instructions) (fb fb2 : ErrorMap) (path : List String)
    (h : handleField re field ins fb path = .ok fb2) :
    writesWithin fb fb2
      (Join path :: (visLeaf re field ins fb path).map (fun r => Join (path ++ r))) := by
  have hp : ∀ l : List String, Join path ∈ Join path :: l := fun l => List.mem_cons_self _ _
  cases field with
  | str d s =>
    cases d with
    | true =>
      have h3 : (Except.error Panic.interfaceConversion : Except Panic ErrorMap) = .ok fb2 := h
      exact absurd h3 (by simp)
    | false => exact handleString_writes re s ins fb fb2 path _ (hp _) h
  | bool d b =>
    cases d with
    | true =>
      have h3 : (Except.error Panic.interfaceConversion : Except Panic ErrorMap) = .ok fb2 := h
      exact absurd h3 (by simp)
    | false =>
      have h2 : fb2 = handleBool b ins fb path := by
        have h3 : (Except.ok (handleBool b ins fb path) : Except Panic ErrorMap) = .ok fb2 := h
        simpa using h3.symm
      rw [h2]
      exact handleBool_writes b ins fb path _ (hp _)
  | int k d n =>
    cases d with
    | true =>
      have h3 : (Except.error Panic.interfaceConversion : Except Panic ErrorMap) = .ok fb2 := h
      exact absurd h3 (by simp)
    | false =>
      cases k with
      | Int64 =>
        have h3 : (Except.ok (handleInt64 n ins fb path) : Except Panic ErrorMap) = .ok fb2 := h
        have h2 : fb2 = handleInt64 n ins fb path := by simpa using h3.symm
        rw [h2]
        exact handleIntWith_writes _ _ n ins fb path _ (hp _)
      | Int32 =>
        have h3 : (Except.ok (handleInt32 n ins fb path) : Except Panic ErrorMap) = .ok fb2 := h
        have h2 : fb2 = handleInt32 n ins fb path := by simpa using h3.symm
        rw [h2]
        exact handleIntWith_writes _ _ n ins fb path _ (hp _)
      | Int16 =>
        have h3 : (Except.ok (handleInt16 n ins fb path) : Except Panic ErrorMap) = .ok fb2 := h
        have h2 : fb2 = handleInt16 n ins fb path := by simpa using h3.symm
        rw [h2]
        exact handleIntWith_writes _ _ n ins fb path _ (hp _)
      | Int8 =>
        have h3 : (Except.ok (handleInt8 n ins fb path) : Except Panic ErrorMap) = .ok fb2 := h
        have h2 : fb2 = handleInt8 n ins fb path := by simpa using h3.symm
        rw [h2]
        exact handleIntWith_writes _ _ n ins fb path _ (hp _)
      | Int =>
        have h3 : (Except.ok (handleInt n ins fb path) : Except Panic ErrorMap) = .ok fb2 := h
        have h2 : fb2 = handleInt n ins fb path := by simpa using h3.symm
        rw [h2]
        exact handleIntWith_writes _ _ n ins fb path _ (hp _)
  | slice ifaces elems =>
    cases ifaces with
    | false =>
      have h3 : (Except.error Panic.interfaceConversion : Except Panic ErrorMap) = .ok fb2 := h
      exact absurd h3 (by simp)
    | true =>
      have h3 : handleSlice re elems ins fb path = .ok fb2 := h
      rw [handleSlice_eq] at h3
      rw [visLeaf_slice]
      have w1 : writesWithin fb
          (if notNullSet ins = true ∧ elems.length = 0 then
            mset fb (Join path) NotNullValidationFailedError else fb)
          (Join path :: (visElems re elems 0
            (if notNullSet ins = true ∧ elems.length = 0 then
              mset fb (Join path) NotNullValidationFailedError else fb) path).map
            (fun r => Join (path ++ r))) :=
        writesWithin_ite fb fb _ _ _ _ (hp _) (writesWithin_refl fb _)
      have w2 := handleSliceLoop_writes re elems 0 _ fb2 path h3
      refine writesWithin_trans _ _ _ _ w1 (writesWithin_mono _ _ _ _ w2 ?_)
      intro k hk
      exact List.mem_cons_of_mem _ hk
  | _ =>
    have h3 : (Except.ok fb : Except Panic ErrorMap) = .ok fb2 := h
    have h2 : fb2 = fb := by simpa using h3.symm
    rw [h2]
    exact writesWithin_refl fb _

theorem handleSliceLoop_writes (re : String → Option (String → Bool)) (elems : List Value)
    (i : Nat) (fb fb2 : ErrorMap) (path : List String)
    (h : handleSliceLoop re elems i fb path = .ok fb2) :
    writesWithin fb fb2 ((visElems re elems i fb path).map (fun r => Join (path ++ r))) := by
  cases elems with
  | nil =>
    have h3 : (Except.ok fb : Except Panic ErrorMap) = .ok fb2 := h
    have h2 : fb2 = fb := by simpa using h3.symm
    rw [h2]
    exact writesWithin_refl fb _
  | cons v rest =>
    rw [handleSliceLoop_cons] at h
    rw [visElems_cons]
    obtain ⟨fb1, hx, hr⟩ :=
      ok_of_match_ok _ (fun fb1 => handleSliceLoop re rest (i + 1) fb1 path) _ h
    cases v with
    | rvalue w =>
      rw [sanitize_rvalue] at hx
      simp only [hx]
      have w1 := sanitizeVal_writes re w fb fb1 (path ++ [Itoa i]) hx
      have w2 := handleSliceLoop_writes re rest (i + 1) fb1 fb2 path hr
      refine writesWithin_trans fb fb1 fb2 _ (writesWithin_mono _ _ _ _ w1 ?_)
        (writesWithin_mono _ _ _ _ w2 ?_)
      · intro k hk
        simp only [List.mem_map] at hk
        obtain ⟨r, hr1, hr2⟩ := hk
        simp only [List.map_append, List.map_map, List.mem_append, List.mem_map,
          Function.comp]
        exact Or.inl ⟨r, hr1, by rw [← hr2, List.append_assoc]; rfl⟩
      · intro k hk
        simp only [List.map_append, List.mem_append]
        exact Or.inr hk
    | _ =>
      have h3 : (Except.error Panic.interfaceConversion : Except Panic ErrorMap) = .ok fb1 := hx
      exact absurd h3 (by simp)

end

/-! ## Field occurrences have pairwise different segment lists -/

theorem namesFields_cons (name pkgPath : String) (tag : List (String × String))
    (field : Value) (rest : List (StructField Value)) :
    namesFields (⟨name, pkgPath, tag, field⟩ :: rest) =
      (dotFree (jsonKeyOf tag name) && decide (jsonKeyOf tag name ∉ fieldKeys rest) &&
        (if kindIsStruct field then
          match field with
          | .rvalue v => namesVal v
          | _ => true
        else if kindIsPtr field then
          match field with
          | .ptr elem => if kindIsStruct elem then namesVal elem else namesLeaf elem
          | _ => true
        else namesLeaf field) &&
        namesFields rest) := by
  cases field <;> rfl

theorem namesElems_cons (v : Value) (rest : List Value) :
    namesElems (v :: rest) =
      ((match v with
        | .rvalue w => namesVal w
        | _ => true) && namesElems rest) := by
  cases v <;> rfl

theorem occFields_head (fields : List (StructField Value)) :
    ∀ r ∈ occFields fields, ∃ k tail, k ∈ fieldKeys fields ∧ r = k :: tail := by
  induction fields with
  | nil => intro r hr; exact absurd hr (by simp [occFields])
  | cons f rest ih =>
    obtain ⟨name, pkgPath, tag, field⟩ := f
    intro r hr
    rw [occFields_cons] at hr
    rcases List.mem_append.mp hr with h1 | h1
    · rcases List.mem_cons.mp h1 with h2 | h2
      · exact ⟨_, [], by simp [fieldKeys], h2⟩
      · obtain ⟨t, _, ht⟩ := List.mem_map.mp h2
        exact ⟨_, t, by simp [fieldKeys], ht.symm⟩
    · obtain ⟨k, tail, hk, hr2⟩ := ih r h1
      exact ⟨k, tail, by
        simp only [fieldKeys, List.map_cons, List.mem_cons] at hk ⊢
        exact Or.inr hk, hr2⟩

theorem occElems_head (elems : List Value) :
    ∀ (i : Nat), ∀ r ∈ occElems elems i, ∃ j tail, i ≤ j ∧ r = Itoa j :: tail := by
  induction elems with
  | nil => intro i r hr; exact absurd hr (by simp [occElems])
  | cons v rest ih =>
    intro i r hr
    rw [occElems_cons] at hr
    rcases List.mem_append.mp hr with h1 | h1
    · obtain ⟨t, _, ht⟩ := List.mem_map.mp h1
      exact ⟨i, t, Nat.le_refl i, ht.symm⟩
    · obtain ⟨j, tail, hj, hr2⟩ := ih (i + 1) r h1
      exact ⟨j, tail, by omega, hr2⟩

theorem nil_not_mem_occLeaf (v : Value) : [] ∉ occLeaf v := by
  intro h
  cases v with
  | slice ifaces elems =>
    have h2 : [] ∈ occElems elems 0 := h
    obtain ⟨j, tail, _, hr⟩ := occElems_head elems 0 [] h2
    exact absurd hr (by simp)
  | _ => exact absurd h (by simp [occLeaf])

theorem nil_not_mem_occVal : ∀ v : Value, [] ∉ occVal v
  | .ptr elem => by
    have h : occVal (.ptr elem) = occVal elem := rfl
    rw [h]
    exact nil_not_mem_occVal elem
  | .struct fields => by
    have h : occVal (.struct fields) = occFields fields := rfl
    rw [h]
    intro h2
    obtain ⟨k, tail, _, hr⟩ := occFields_head fields [] h2
    exact absurd hr (by simp)
  | .nil => by simp [occVal]
  | .str _ _ => by simp [occVal]
  | .bool _ _ => by simp [occVal]
  | .int _ _ _ => by simp [occVal]
  | .uint _ _ => by simp [occVal]
  | .chan => by simp [occVal]
  | .array _ => by simp [occVal]
  | .map _ _ => by simp [occVal]
  | .other => by simp [occVal]
  | .slice _ _ => by simp [occVal]
  | .nilPtr => by simp [occVal]
  | .rvalue _ => by simp [occVal]

theorem nodup_field_block (k : String) (X R : List (List String)) (hX : X.Nodup)
    (hne : [] ∉ X) (hR : R.Nodup) (hhead : ∀ r ∈ R, ∃ k2 tail, k2 ≠ k ∧ r = k2 :: tail) :
    (([k] :: X.map (fun r => k :: r)) ++ R).Nodup := by
  rw [List.nodup_append]
  refine ⟨?_, hR, ?_⟩
  · rw [List.nodup_cons]
    constructor
    · intro h
      obtain ⟨t, ht, he⟩ := List.mem_map.mp h
      have : t = [] := by simpa using he
      exact hne (this ▸ ht)
    · exact hX.map (fun a b hab => by simpa using hab)
  · intro r h1 h2
    obtain ⟨k2, tail, hk2, hr⟩ := hhead r h2
    rcases List.mem_cons.mp h1 with h3 | h3
    · rw [hr] at h3
      have h4 : k2 = k := (List.cons.inj h3).1
      exact hk2 h4
    · obtain ⟨t, _, ht⟩ := List.mem_map.mp h3
      rw [hr] at ht
      have h4 : k = k2 := (List.cons.inj ht).1
      exact hk2 h4.symm

theorem nodup_elem_block (s : String) (X R : List (List String)) (hX : X.Nodup)
    (hR : R.Nodup) (hhead : ∀ r ∈ R, ∃ s2 tail, s2 ≠ s ∧ r = s2 :: tail) :
    (X.map (fun r => s :: r) ++ R).Nodup := by
  rw [List.nodup_append]
  refine ⟨hX.map (fun a b hab => by simpa using hab), hR, ?_⟩
  intro r h1 h2
  obtain ⟨s2, tail, hs2, hr⟩ := hhead r h2
  obtain ⟨t, _, ht⟩ := List.mem_map.mp h1
  rw [hr] at ht
  have h4 : s = s2 := (List.cons.inj ht).1
  exact hs2 h4.symm

/-! ## strings.Join and strings.Split are inverse to each other -/

theorem intercalate_go_data (sep : Char) (l : List String) :
    ∀ acc : String,
      (String.intercalate.go acc (String.singleton sep) l).data =
        acc.data ++ sepTail sep (l.map String.data) := by
  induction l with
  | nil => intro acc; simp [String.intercalate.go, sepTail]
  | cons a l ih =>
    intro acc
    simp only [String.intercalate.go, ih, List.map_cons, sepTail, String.data_append,
      List.append_assoc]
    rfl

theorem Join_data (a : String) (l : List String) :
    (Join (a :: l)).data = a.data ++ sepTail '.' (l.map String.data) :=
  intercalate_go_data '.' l a

theorem splitChars_ne_nil (sep : Char) (cs : List Char) : splitChars sep cs ≠ [] := by
  induction cs with
  | nil => simp [splitChars]
  | cons c cs ih =>
    simp only [splitChars]
    split
    · simp
    · split <;> simp

theorem splitChars_append_sep (sep : Char) (a rest : List Char) (ha : sep ∉ a) :
    splitChars sep (a ++ sep :: rest) = a :: splitChars sep rest := by
  induction a with
  | nil => simp [splitChars]
  | cons c a ih =>
    have hc : c ≠ sep := fun h => ha (h ▸ List.mem_cons_self _ _)
    have ha2 : sep ∉ a := fun h => ha (List.mem_cons_of_mem _ h)
    rw [List.cons_append]
    have e : splitChars sep (c :: (a ++ sep :: rest)) =
        match splitChars sep (a ++ sep :: rest) with
        | [] => [[c]]
        | p :: ps => (c :: p) :: ps := by
      simp only [splitChars, hc, if_false]
    rw [e, ih ha2]

theorem splitChars_of_not_mem (sep : Char) (a : List Char) (ha : sep ∉ a) :
    splitChars sep a = [a] := by
  induction a with
  | nil => rfl
  | cons c a ih =>
    have hc : c ≠ sep := fun h => ha (h ▸ List.mem_cons_self _ _)
    have ha2 : sep ∉ a := fun h => ha (List.mem_cons_of_mem _ h)
    simp only [splitChars, hc, if_false, ih ha2]

theorem splitChars_sepTail (sep : Char) (ps : List (List Char)) (hps : ∀ p ∈ ps, sep ∉ p) :
    ∀ a : List Char, sep ∉ a → splitChars sep (a ++ sepTail sep ps) = a :: ps := by
  induction ps with
  | nil =>
    intro a ha
    simp only [sepTail, List.append_nil]
    exact splitChars_of_not_mem sep a ha
  | cons p ps ih =>
    intro a ha
    have h1 : a ++ sepTail sep (p :: ps) = a ++ sep :: (p ++ sepTail sep ps) := by
      simp [sepTail]
    rw [h1, splitChars_append_sep sep a _ ha,
      ih (fun q hq => hps q (List.mem_cons_of_mem _ hq)) p (hps p (List.mem_cons_self _ _))]

theorem Join_injective (l1 l2 : List String) (h1 : l1 ≠ []) (h2 : l2 ≠ [])
    (hd1 : ∀ s ∈ l1, dotFree s = true) (hd2 : ∀ s ∈ l2, dotFree s = true)
    (h : Join l1 = Join l2) : l1 = l2 := by
  cases l1 with
  | nil => exact absurd rfl h1
  | cons a as =>
    cases l2 with
    | nil => exact absurd rfl h2
    | cons b bs =>
      have hdata : (Join (a :: as)).data = (Join (b :: bs)).data := by rw [h]
      rw [Join_data, Join_data] at hdata
      have df : ∀ s : String, dotFree s = true → '.' ∉ s.data := by
        intro s hs
        simpa [dotFree] using hs
      have e1 := splitChars_sepTail '.' (as.map String.data)
        (fun p hp => by
          obtain ⟨s, hs, hsp⟩ := List.mem_map.mp hp
          exact hsp ▸ df s (hd1 s (List.mem_cons_of_mem _ hs)))
        a.data (df a (hd1 a (List.mem_cons_self _ _)))
      have e2 := splitChars_sepTail '.' (bs.map String.data)
        (fun p hp => by
          obtain ⟨s, hs, hsp⟩ := List.mem_map.mp hp
          exact hsp ▸ df s (hd2 s (List.mem_cons_of_mem _ hs)))
        b.data (df b (hd2 b (List.mem_cons_self _ _)))
      rw [hdata, e2] at e1
      have e3 : (b :: bs).map String.data = (a :: as).map String.data := by
        simpa using e1
      have hinj : Function.Injective String.data := fun s t hst => String.ext hst
      exact (List.map_injective_iff.mpr hinj e3).symm

/-! ## strconv.Itoa gives different, dot-free segments for different indices -/

theorem Itoa_data (i : Nat) : (Itoa i).data = Nat.toDigits 10 i := rfl

theorem Itoa_injective (i j : Nat) (h : Itoa i = Itoa j) : i = j := by
  have hd : Nat.toDigits 10 i = Nat.toDigits 10 j := by
    rw [← Itoa_data, ← Itoa_data, h]
  have hi := toDigitsCore_decVal (i + 1) i [] (by omega)
  have hj := toDigitsCore_decVal (j + 1) j [] (by omega)
  simp only [decVal] at hi hj
  unfold Nat.toDigits at hd
  rw [← hi, ← hj, hd]

theorem Itoa_dotFree (i : Nat) : dotFree (Itoa i) = true := by
  simp only [dotFree, decide_eq_true_eq, Itoa_data]
  intro h
  have hd := toDigitsCore_digits (i + 1) i [] (by simp) '.' h
  exact absurd hd (by decide)

theorem dotFree_cons (k : String) (X : List (List String)) (hk : dotFree k = true)
    (hX : ∀ r ∈ X, ∀ s ∈ r, dotFree s = true) :
    ∀ r ∈ X.map (fun r => k :: r), ∀ s ∈ r, dotFree s = true := by
  intro r hr s hs
  obtain ⟨t, ht, he⟩ := List.mem_map.mp hr
  rw [← he] at hs
  rcases List.mem_cons.mp hs with h | h
  · exact h ▸ hk
  · exact hX t ht s h

theorem fields_block_ok (k : String) (X R : List (List String)) (hk : dotFree k = true)
    (hX : X.Nodup ∧ ∀ r ∈ X, ∀ s ∈ r, dotFree s = true) (hXe : [] ∉ X)
    (hR : R.Nodup ∧ ∀ r ∈ R, ∀ s ∈ r, dotFree s = true)
    (hhead : ∀ r ∈ R, ∃ k2 tail, k2 ≠ k ∧ r = k2 :: tail) :
    (([k] :: X.map (fun r => k :: r)) ++ R).Nodup ∧
      ∀ r ∈ ([k] :: X.map (fun r => k :: r)) ++ R, ∀ s ∈ r, dotFree s = true := by
  constructor
  · exact nodup_field_block k X R hX.1 hXe hR.1 hhead
  · intro r hr s hs
    rcases List.mem_append.mp hr with h1 | h1
    · rcases List.mem_cons.mp h1 with h2 | h2
      · rw [h2] at hs
        have : s = k := by simpa using hs
        exact this ▸ hk
      · exact dotFree_cons k X hk hX.2 r h2 s hs
    · exact hR.2 r h1 s hs

theorem elems_block_ok (k : String) (X R : List (List String)) (hk : dotFree k = true)
    (hX : X.Nodup ∧ ∀ r ∈ X, ∀ s ∈ r, dotFree s = true)
    (hR : R.Nodup ∧ ∀ r ∈ R, ∀ s ∈ r, dotFree s = true)
    (hhead : ∀ r ∈ R, ∃ k2 tail, k2 ≠ k ∧ r = k2 :: tail) :
    (X.map (fun r => k :: r) ++ R).Nodup ∧
      ∀ r ∈ X.map (fun r => k :: r) ++ R, ∀ s ∈ r, dotFree s = true := by
  constructor
  · exact nodup_elem_block k X R hX.1 hR.1 hhead
  · intro r hr s hs
    rcases List.mem_append.mp hr with h1 | h1
    · exact dotFree_cons k X hk hX.2 r h1 s hs
    · exact hR.2 r h1 s hs

theorem nil_block_ok :
    ([] : List (List String)).Nodup ∧
      ∀ r ∈ ([] : List (List String)), ∀ s ∈ r, dotFree s = true :=
  ⟨List.nodup_nil, fun r hr => absurd hr (List.not_mem_nil r)⟩

mutual

theorem occVal_nodup (v : Value) (h : namesVal v = true) :
    (occVal v).Nodup ∧ ∀ r ∈ occVal v, ∀ s ∈ r, dotFree s = true := by
  cases v with
  | ptr elem => exact occVal_nodup elem h
  | struct fields => exact occFields_nodup fields h
  | _ => exact nil_block_ok

theorem occFields_nodup (fields : List (StructField Value)) (h : namesFields fields = true) :
    (occFields fields).Nodup ∧ ∀ r ∈ occFields fields, ∀ s ∈ r, dotFree s = true := by
  cases fields with
  | nil => exact nil_block_ok
  | cons f rest =>
    obtain ⟨name, pkgPath, tag, field⟩ := f
    rw [namesFields_cons] at h
    simp only [Bool.and_eq_true, decide_eq_true_eq] at h
    obtain ⟨⟨⟨hdot, hnotin⟩, hbelow⟩, hrest⟩ := h
    have hR := occFields_nodup rest hrest
    have hhead : ∀ r ∈ occFields rest,
        ∃ k2 tail, k2 ≠ jsonKeyOf tag name ∧ r = k2 :: tail := by
      intro r hr
      obtain ⟨k, tail, hk, he⟩ := occFields_head rest r hr
      exact ⟨k, tail, fun hkk => hnotin (hkk ▸ hk), he⟩
    rw [occFields_cons]
    revert hbelow
    by_cases hs : kindIsStruct field = true
    · simp only [hs, if_true]
      cases field with
      | rvalue w =>
        intro hbelow
        exact fields_block_ok _ _ _ hdot (occVal_nodup w hbelow) (nil_not_mem_occVal w) hR hhead
      | _ =>
        intro _
        exact fields_block_ok _ _ _ hdot nil_block_ok (List.not_mem_nil _) hR hhead
    · simp only [hs, if_false]
      by_cases hp : kindIsPtr field = true
      · simp only [hp, if_true]
        cases field with
        | ptr elem =>
          by_cases hse : kindIsStruct elem = true
          · simp only [hse, if_true]
            intro hbelow
            exact fields_block_ok _ _ _ hdot (occVal_nodup elem hbelow)
              (nil_not_mem_occVal elem) hR hhead
          · simp only [hse, Bool.false_eq_true, if_false]
            intro hbelow
            exact fields_block_ok _ _ _ hdot (occLeaf_nodup elem hbelow)
              (nil_not_mem_occLeaf elem) hR hhead
        | _ =>
          intro _
          exact fields_block_ok _ _ _ hdot nil_block_ok (List.not_mem_nil _) hR hhead
      · simp only [hp, if_false]
        intro hbelow
        exact fields_block_ok _ _ _ hdot (occLeaf_nodup field hbelow)
          (nil_not_mem_occLeaf field) hR hhead

theorem occLeaf_nodup (v : Value) (h : namesLeaf v = true) :
    (occLeaf v).Nodup ∧ ∀ r ∈ occLeaf v, ∀ s ∈ r, dotFree s = true := by
  cases v with
  | slice ifaces elems => exact occElems_nodup elems 0 h
  | _ => exact nil_block_ok

theorem occElems_nodup (elems : List Value) (i : Nat) (h : namesElems elems = true) :
    (occElems elems i).Nodup ∧ ∀ r ∈ occElems elems i, ∀ s ∈ r, dotFree s = true := by
  cases elems with
  | nil => exact nil_block_ok
  | cons v rest =>
    rw [namesElems_cons] at h
    simp only [Bool.and_eq_true] at h
    obtain ⟨hv, hrest⟩ := h
    have hR := occElems_nodup rest (i + 1) hrest
    have hhead : ∀ r ∈ occElems rest (i + 1), ∃ k2 tail, k2 ≠ Itoa i ∧ r = k2 :: tail := by
      intro r hr
      obtain ⟨j, tail, hj, he⟩ := occElems_head rest (i + 1) r hr
      exact ⟨Itoa j, tail, fun hjj => by
        have := Itoa_injective j i hjj
        omega, he⟩
    rw [occElems_cons]
    revert hv
    cases v with
    | rvalue w =>
      intro hv
      exact elems_block_ok _ _ _ (Itoa_dotFree i) (occVal_nodup w hv) hR hhead
    | _ =>
      intro _
      exact elems_block_ok _ _ _ (Itoa_dotFree i) nil_block_ok hR hhead

end

theorem occVal_paths_nodup (o : Value) (h : namesVal o = true) :
    ((occVal o).map Join).Nodup := by
  obtain ⟨hn, hd⟩ := occVal_nodup o h
  refine List.Nodup.map_on ?_ hn
  intro r1 h1 r2 h2 hj
  exact Join_injective r1 r2 (fun e => nil_not_mem_occVal o (e ▸ h1))
    (fun e => nil_not_mem_occVal o (e ▸ h2)) (hd r1 h1) (hd r2 h2) hj

theorem Check_keys_visited (re : String → Option (String → Bool)) (o : Value)
    (info : SanityInfo) (valid : Bool) (h : Check re o = .ok (info, valid)) :
    ∀ k ∈ keys info.Errors, k ∈ (visited re o).map Join := by
  unfold Check at h
  cases hs : sanitize re (.rvalue o) [] [] with
  | error e => simp [hs] at h
  | ok fb =>
    simp [hs] at h
    obtain ⟨h1, _⟩ := h
    subst h1
    rw [sanitize_rvalue] at hs
    have w := sanitizeVal_writes re o [] fb [] hs
    intro k hk
    rcases w k hk with h2 | h2
    · exact absurd h2 (by simp [keys])
    · simpa [visited] using h2

/-! ## The occurrences visited are among the occurrences of the object -/

theorem sublist_match_ok (x : Except Panic ErrorMap) (g : ErrorMap → List (List String))
    (l : List (List String)) (h : ∀ fb1, (g fb1).Sublist l) :
    (match x with
      | Except.ok fb1 => g fb1
      | Except.error _ => []).Sublist l := by
  cases x with
  | error e => exact List.nil_sublist l
  | ok fb1 => exact h fb1

mutual

theorem visVal_sublist (re : String → Option (String → Bool)) (v : Value) (fb : ErrorMap)
    (paths : List String) : (visVal re v fb paths).Sublist (occVal v) := by
  cases v with
  | ptr elem => exact visVal_sublist re elem fb paths
  | struct fields => exact visFields_sublist re fields fb paths
  | _ => exact List.Sublist.refl _

theorem visFields_sublist (re : String → Option (String → Bool))
    (fields : List (StructField Value)) (fb : ErrorMap) (paths : List String) :
    (visFields re fields fb paths).Sublist (occFields fields) := by
  cases fields with
  | nil => exact List.Sublist.refl _
  | cons f rest =>
    obtain ⟨name, pkgPath, tag, field⟩ := f
    rw [visFields_cons, occFields_cons, List.cons_append]
    refine List.Sublist.cons₂ _ ?_
    have hrest : ∀ fb1, (visFields re rest fb1 paths).Sublist (occFields rest) :=
      fun fb1 => visFields_sublist re rest fb1 paths
    by_cases hpkg : pkgPath ≠ ""
    · rw [if_pos hpkg]
      exact List.nil_sublist _
    rw [if_neg hpkg]
    by_cases hl : Get tag Label = ""
    · rw [if_pos hl]
      exact List.nil_sublist _
    rw [if_neg hl]
    by_cases hs : kindIsStruct field = true
    · simp only [hs, if_true]
      cases field with
      | rvalue w =>
        exact List.Sublist.append
          ((visVal_sublist re w fb (paths ++ [jsonKeyOf tag name])).map _)
          (sublist_match_ok _ _ _ hrest)
      | _ => exact List.nil_sublist _
    · simp only [hs, Bool.false_eq_true, if_false]
      by_cases hp : kindIsPtr field = true
      · simp only [hp, if_true]
        cases field with
        | ptr elem =>
          by_cases hse : kindIsStruct elem = true
          · simp only [hse, if_true]
            exact (List.Sublist.map _
              (visVal_sublist re elem fb (paths ++ [jsonKeyOf tag name]))).trans
              (List.sublist_append_left _ _)
          · simp only [hse, Bool.false_eq_true, if_false]
            exact List.Sublist.append
              ((visLeaf_sublist re elem (instructionsOf tag) fb
                (paths ++ [jsonKeyOf tag name])).map _)
              (sublist_match_ok _ _ _ hrest)
        | _ => exact List.nil_sublist _
      · simp only [hp, Bool.false_eq_true, if_false]
        exact List.Sublist.append
          ((visLeaf_sublist re field (instructionsOf tag) fb
            (paths ++ [jsonKeyOf tag name])).map _)
          (sublist_match_ok _ _ _ hrest)

theorem visLeaf_sublist (re : String → Option (String → Bool)) (v : Value)
    (ins : Instructions) (fb : ErrorMap) (path : List String) :
    (visLeaf re v ins fb path).Sublist (occLeaf v) := by
  cases v with
  | slice ifaces elems =>
    cases ifaces with
    | false => exact List.nil_sublist _
    | true =>
      rw [visLeaf_slice]
      exact visElems_sublist re elems 0 _ path
  | _ => exact List.Sublist.refl _

theorem visElems_sublist (re : String → Option (String → Bool)) (elems : List Value)
    (i : Nat) (fb : ErrorMap) (path : List String) :
    (visElems re elems i fb path).Sublist (occElems elems i) := by
  cases elems with
  | nil => exact List.Sublist.refl _
  | cons v rest =>
    rw [visElems_cons, occElems_cons]
    cases v with
    | rvalue w =>
      exact List.Sublist.append ((visVal_sublist re w fb (path ++ [Itoa i])).map _)
        (sublist_match_ok _ _ _ (fun fb1 => visElems_sublist re rest (i + 1) fb1 path))
    | _ => exact List.nil_sublist _

end

theorem visited_sublist (re : String → Option (String → Bool)) (o : Value) :
    (visited re o).Sublist (occVal o) :=
  visVal_sublist re o [] []

theorem splitChars_spec (sep : Char) (cs : List Char) :
    ∃ a ps, splitChars sep cs = a :: ps ∧ a ++ sepTail sep ps = cs ∧
      sep ∉ a ∧ ∀ p ∈ ps, sep ∉ p := by
  induction cs with
  | nil => exact ⟨[], [], rfl, rfl, List.not_mem_nil _, fun p hp => absurd hp (List.not_mem_nil p)⟩
  | cons c cs ih =>
    obtain ⟨a, ps, h1, h2, h3, h4⟩ := ih
    by_cases hc : c = sep
    · refine ⟨[], a :: ps, ?_, ?_, List.not_mem_nil _, ?_⟩
      · simp only [splitChars, hc, if_true, h1]
      · simp only [sepTail, List.nil_append, List.cons_append, h2, hc]
      · intro p hp
        rcases List.mem_cons.mp hp with h | h
        · exact h ▸ h3
        · exact h4 p h
    · refine ⟨c :: a, ps, ?_, ?_, ?_, h4⟩
      · simp only [splitChars, hc, if_false, h1]
      · simp only [List.cons_append, h2]
      · intro h
        rcases List.mem_cons.mp h with h5 | h5
        · exact hc h5.symm
        · exact h3 h5

theorem Split_spec (s : String) :
    String.intercalate "," (Split s) = s ∧ ∀ e ∈ Split s, ',' ∉ e.data := by
  obtain ⟨a, ps, h1, h2, h3, h4⟩ := splitChars_spec ',' s.data
  have hS : Split s = String.mk a :: ps.map String.mk := by
    simp only [Split, h1, List.map_cons]
  constructor
  · apply String.ext
    rw [hS]
    have hsep : "," = String.singleton ',' := rfl
    have hgo := intercalate_go_data ',' (ps.map String.mk) (String.mk a)
    have hmap : (ps.map String.mk).map String.data = ps := by
      rw [List.map_map]
      exact List.map_id ps
    rw [hmap] at hgo
    show (String.intercalate.go (String.mk a) "," (ps.map String.mk)).data = s.data
    rw [hsep, hgo, ← h2]
  · intro e he
    rw [hS] at he
    rcases List.mem_cons.mp he with h | h
    · rw [h]
      exact h3
    · obtain ⟨p, hp, hpe⟩ := List.mem_map.mp h
      rw [← hpe]
      exact h4 p hp

/-! ## The signed evaluators on thresholds in the field type's range -/

theorem handleIntWith_congr_thresholds (gtOf gtOf2 ltOf ltOf2 : String → Int) (n : Int)
    (ins : Instructions) (fb : ErrorMap) (path : List String)
    (h1 : ∀ v, mget ins GreaterThan = some v → gtOf v = gtOf2 v)
    (h2 : ∀ v, mget ins LessThan = some v → ltOf v = ltOf2 v) :
    handleIntWith gtOf ltOf n ins fb path = handleIntWith gtOf2 ltOf2 n ins fb path := by
  unfold handleIntWith
  cases a2 : mget ins GreaterThan with
  | none =>
    cases a3 : mget ins LessThan with
    | none => rfl
    | some w => simp only [h2 w a3]
  | some v =>
    cases a3 : mget ins LessThan with
    | none => simp only [h1 v a2]
    | some w => simp only [h1 v a2, h2 w a3]

theorem narrow_threshold_eq (bits b1 : Nat) (v : String) (param : Option String)
    (hb : 1 ≤ bits) (hb1 : bits ≤ b1) (hb2 : b1 ≤ 64) (hp : param = some v)
    (h : thresholdOk bits param (fun _ => false) = true) :
    wrapInt bits (ParseInt v b1) = ParseInt v 64 := by
  rw [hp] at h
  obtain ⟨t, hd, hr, _⟩ := thresholdOk_some bits v _ h
  rw [ParseInt_decimalValue v t b1 (by omega) hb2 hd (inRange_mono bits b1 t hb1 hr),
    ParseInt_decimalValue v t 64 (by decide) (by decide) hd
      (inRange_mono bits 64 t (by omega) hr),
    wrapInt_of_inRange bits t hb hr]

theorem handleField_int_in_range (re : String → Option (String → Bool)) (k : IntKind)
    (d : Bool) (n : Int) (ins : Instructions) (fb : ErrorMap) (path : List String)
    (hgt : thresholdOk k.bits (mget ins GreaterThan) (fun _ => false) = true)
    (hlt : thresholdOk k.bits (mget ins LessThan) (fun _ => false) = true) :
    handleField re (.int k d n) ins fb path = handleField re (.int .Int64 d n) ins fb path := by
  cases d with
  | true => rfl
  | false =>
    cases k with
    | Int64 => rfl
    | Int => rfl
    | Int32 =>
      show Except.ok (handleInt32 n ins fb path) = Except.ok (handleInt64 n ins fb path)
      unfold handleInt32 handleInt64
      rw [handleIntWith_congr_thresholds _ (fun v => ParseInt v 64) _ (fun v => ParseInt v 64)]
      · intro v hv
        exact narrow_threshold_eq 32 32 v _ (by decide) (by decide) (by decide) hv hgt
      · intro v hv
        exact narrow_threshold_eq 32 32 v _ (by decide) (by decide) (by decide) hv hlt
    | Int16 =>
      show Except.ok (handleInt16 n ins fb path) = Except.ok (handleInt64 n ins fb path)
      unfold handleInt16 handleInt64
      rw [handleIntWith_congr_thresholds _ (fun v => ParseInt v 64) _ (fun v => ParseInt v 64)]
      · intro v hv
        exact narrow_threshold_eq 16 16 v _ (by decide) (by decide) (by decide) hv hgt
      · intro v hv
        exact narrow_threshold_eq 16 32 v _ (by decide) (by decide) (by decide) hv hlt
    | Int8 =>
      show Except.ok (handleInt8 n ins fb path) = Except.ok (handleInt64 n ins fb path)
      unfold handleInt8 handleInt64
      rw [handleIntWith_congr_thresholds _ (fun v => ParseInt v 64) _ (fun v => ParseInt v 64)]
      · intro v hv
        exact narrow_threshold_eq 8 16 v _ (by decide) (by decide) (by decide) hv hgt
      · intro v hv
        exact narrow_threshold_eq 8 32 v _ (by decide) (by decide) (by decide) hv hlt

/-! ## The rule table and the tests of `handleString` -/

theorem utf8Size_eq_utf8Width (c : Char) : c.utf8Size = utf8Width c := by
  unfold Char.utf8Size utf8Width Char.toNat
  have h1 : ∀ k : Nat, ∀ hk : k < UInt32.size,
      (c.val ≤ UInt32.ofNatCore k hk) ↔ c.val.toNat ≤ k := by
    intro k hk
    rfl
  simp only [h1]
  split_ifs <;> omega

theorem utf8ByteSize_go_eq (cs : List Char) :
    String.utf8ByteSize.go cs = (cs.map utf8Width).sum := by
  induction cs with
  | nil => rfl
  | cons c cs ih =>
    simp only [String.utf8ByteSize.go, List.map_cons, List.sum_cons, ih, utf8Size_eq_utf8Width]
    omega

theorem strLen_eq_valueLength (s : String) : strLen s = valueLength s := by
  cases s with
  | mk cs => exact utf8ByteSize_go_eq cs

theorem ruleFires_of_decimal (v : String) (t : Int) (violated : Int → Bool)
    (hd : decimalValue v = some t) : ruleFires (some v) violated = violated t := by
  simp [ruleFires, hd]

theorem writtenFailures_eq_violatedRules (re : String → Option (String → Bool)) (str : String)
    (ins : Instructions)
    (hmax : ∀ v, mget ins MaxLen = some v →
      ∃ t, decimalValue v = some t ∧ inRange 64 t = true)
    (hmin : ∀ v, mget ins MinLen = some v →
      ∃ t, decimalValue v = some t ∧ inRange 64 t = true) :
    writtenFailures re str ins = violatedRules re str ins := by
  have e3 : (match mget ins MaxLen with
      | some v =>
        if (strLen str : Int) > Atoi v then [MaxLenConditionValidationFailedError] else []
      | none => []) =
      (if ruleFires (mget ins MaxLen) (fun t => decide ((valueLength str : Int) > t))
        then [MaxLenConditionValidationFailedError] else []) := by
    cases h : mget ins MaxLen with
    | none => rfl
    | some v =>
      obtain ⟨t, hd, hr⟩ := hmax v h
      have ha : Atoi v = t := ParseInt_decimalValue v t 64 (by decide) (by decide) hd hr
      simp only [ruleFires_of_decimal v t _ hd, ha, strLen_eq_valueLength, decide_eq_true_eq]
  have e4 : (match mget ins MinLen with
      | some v =>
        if (strLen str : Int) < Atoi v then [MinLenConditionValidationFailedError] else []
      | none => []) =
      (if ruleFires (mget ins MinLen) (fun t => decide ((valueLength str : Int) < t))
        then [MinLenConditionValidationFailedError] else []) := by
    cases h : mget ins MinLen with
    | none => rfl
    | some v =>
      obtain ⟨t, hd, hr⟩ := hmin v h
      have ha : Atoi v = t := ParseInt_decimalValue v t 64 (by decide) (by decide) hd hr
      simp only [ruleFires_of_decimal v t _ hd, ha, strLen_eq_valueLength, decide_eq_true_eq]
  unfold writtenFailures violatedRules
  rw [e3, e4]

/-! ## The claims -/

/-- C1: whenever `Check` returns, the boolean it returns is true exactly when the
failure map it returns is empty. -/
theorem Check_valid_iff_empty (re : String → Option (String → Bool)) (o : Value)
    (info : SanityInfo) (valid : Bool) (h : Check re o = .ok (info, valid)) :
    valid = true ↔ info.Errors = [] := by
  unfold Check at h
  cases hs : sanitize re (.rvalue o) [] [] with
  | error e => simp [hs] at h
  | ok fb =>
    simp [hs] at h
    obtain ⟨h1, h2⟩ := h
    subst h1 h2
    simp

theorem Check_valid_iff_empty_witness :
    Check reAll flatStructOfTest
        = .ok (⟨[("id", NotNullValidationFailedError)]⟩, false) ∧
      (false = true ↔
        (⟨[("id", NotNullValidationFailedError)]⟩ : SanityInfo).Errors = []) :=
  ⟨rfl, Check_valid_iff_empty reAll flatStructOfTest _ _ rfl⟩

/-- C2, the claim as stated fails.  In both objects every field carries a rule
vocabulary and none violates a rule of the rule table.  In the first the
greater-than parameter `"ten"` is not a number, the code compares with 0 and
records a greater-than failure for the value -5.  In the second a record is held
by value and `Check` panics at the type assertion of line 58. -/
theorem valid_object_passes_counterexample :
    ¬ isDecimalInteger "ten" ∧
    Check reAll (gtTen (-5))
      = .ok (⟨[("count", GTConditionValidationFailedError)]⟩, false) ∧
    Check reAll (orderRecord "a" (customerRecord "x"))
      = .error Panic.interfaceConversion := by
  decide

/-- C2, amended: when every field of every record reached is exported, carries a
rule vocabulary, is of a shape the walk supports (no record held by value,
scalars of the predeclared types, sequences of type `[]interface{}` holding
`reflect.Value`s) and violates none of its rules, every regex parameter
compiling and every numeric parameter being a decimal integer of the field's
type (of 64 bits for lengths), `Check` returns the empty failure map and
validity true. -/
theorem valid_object_passes (re : String → Option (String → Bool)) (o : Value)
    (h : cleanVal re o = true) : Check re o = .ok (⟨[]⟩, true) := by
  have hs : sanitize re (.rvalue o) [] [] = .ok [] := by
    rw [sanitize_rvalue]
    exact sanitizeVal_clean re o h [] []
  unfold Check
  simp only [hs]
  rfl

theorem valid_object_passes_witness :
    cleanVal reAll (orderRecord "a" (.ptr (customerRecord "x"))) = true ∧
    Check reAll (orderRecord "a" (.ptr (customerRecord "x"))) = .ok (⟨[]⟩, true) :=
  ⟨by decide,
   valid_object_passes reAll (orderRecord "a" (.ptr (customerRecord "x"))) (by decide)⟩

/-- C3, the claim as stated fails: with `minlen:"1"` next to `notnull:"true"` the
empty string gets the min-length failure at its path, not the not-null one. -/
theorem empty_string_not_null_counterexample :
    Check reAll (notNullMinLen "")
      = .ok (⟨[("id", MinLenConditionValidationFailedError)]⟩, false) := by
  decide

/-- C3, amended: a string field that carries `notnull` with parameter `"true"`,
holds the empty string, and whose other instructions are not violated by the
empty string (a regex, if any, compiles and matches it; a max-length, if any, is
at least 0; a min-length, if any, is at most 0) gets the not-null failure at its
path when the walk evaluates it; `Check` on the record made of that field alone
returns exactly that one entry. -/
theorem empty_string_not_null (re : String → Option (String → Bool)) (name : String)
    (tag : List (String × String)) (rest : List (StructField Value)) (fb : ErrorMap)
    (paths : List String)
    (hnn : mget (instructionsOf tag) NotNull = some "true")
    (hre : ∀ v, mget (instructionsOf tag) Regex = some v →
      ∃ pattern, re v = some pattern ∧ pattern "" = true)
    (hmax : ∀ v, mget (instructionsOf tag) MaxLen = some v → 0 ≤ Atoi v)
    (hmin : ∀ v, mget (instructionsOf tag) MinLen = some v → Atoi v ≤ 0) :
    sanitizeFields re (⟨name, "", tag, .str false ""⟩ :: rest) fb paths =
      sanitizeFields re rest
        (mset fb (Join (paths ++ [jsonKeyOf tag name])) NotNullValidationFailedError) paths ∧
    Check re (.struct [⟨name, "", tag, .str false ""⟩]) =
      .ok (⟨[(jsonKeyOf tag name, NotNullValidationFailedError)]⟩, false) := by
  have hl : Get tag Label ≠ "" := label_ne_of_mget tag NotNull "true" hnn (by decide)
  have hv : writtenFailures re "" (instructionsOf tag) = [NotNullValidationFailedError] := by
    unfold writtenFailures
    have h1 : (match mget (instructionsOf tag) Regex with
        | some v =>
          match re v with
          | some pattern => if pattern "" then [] else [RegexValidationFailedError]
          | none => []
        | none => []) = [] := by
      cases h2 : mget (instructionsOf tag) Regex with
      | none => rfl
      | some v =>
        obtain ⟨pattern, hp1, hp2⟩ := hre v h2
        simp [hp1, hp2]
    have h3 : (match mget (instructionsOf tag) MaxLen with
        | some v =>
          if (strLen "" : Int) > Atoi v then [MaxLenConditionValidationFailedError] else []
        | none => []) = [] := by
      cases h2 : mget (instructionsOf tag) MaxLen with
      | none => rfl
      | some v =>
        have := hmax v h2
        have h0 : (strLen "" : Int) = 0 := rfl
        simp only [h0]
        rw [if_neg (by omega)]
    have h4 : (match mget (instructionsOf tag) MinLen with
        | some v =>
          if (strLen "" : Int) < Atoi v then [MinLenConditionValidationFailedError] else []
        | none => []) = [] := by
      cases h2 : mget (instructionsOf tag) MinLen with
      | none => rfl
      | some v =>
        have := hmin v h2
        have h0 : (strLen "" : Int) = 0 := rfl
        simp only [h0]
        rw [if_neg (by omega)]
    rw [h1, h3, h4]
    simp [hnn]
  have hstep : ∀ (rest : List (StructField Value)) (fb : ErrorMap) (paths : List String),
      sanitizeFields re (⟨name, "", tag, .str false ""⟩ :: rest) fb paths =
      sanitizeFields re rest
        (mset fb (Join (paths ++ [jsonKeyOf tag name])) NotNullValidationFailedError) paths := by
    intro rest fb paths
    rw [leaf_step re name tag (.str false "") rest fb paths rfl rfl hl]
    have hf : handleField re (.str false "") (instructionsOf tag) fb
        (paths ++ [jsonKeyOf tag name]) =
        .ok (mset fb (Join (paths ++ [jsonKeyOf tag name])) NotNullValidationFailedError) := by
      show handleString re "" _ fb _ = _
      rw [handleString_recordLast re "" _ fb _
        (fun v h => by obtain ⟨p, hp, _⟩ := hre v h; simp [hp]), hv]
      rfl
    rw [hf]
  refine ⟨hstep rest fb paths, ?_⟩
  rw [Check_struct, hstep, sanitizeFields_nil]
  rfl

theorem empty_string_not_null_witness :
    (mget (instructionsOf [("json", "id"), ("sanity", "notnull,maxlen"), ("notnull", "true"),
        ("maxlen", "5")]) NotNull = some "true" ∧
      (∀ v, mget (instructionsOf [("json", "id"), ("sanity", "notnull,maxlen"),
        ("notnull", "true"), ("maxlen", "5")]) Regex = some v →
        ∃ pattern, reAll v = some pattern ∧ pattern "" = true) ∧
      (∀ v, mget (instructionsOf [("json", "id"), ("sanity", "notnull,maxlen"),
        ("notnull", "true"), ("maxlen", "5")]) MaxLen = some v → 0 ≤ Atoi v) ∧
      (∀ v, mget (instructionsOf [("json", "id"), ("sanity", "notnull,maxlen"),
        ("notnull", "true"), ("maxlen", "5")]) MinLen = some v → Atoi v ≤ 0)) ∧
    Check reAll
      (.struct [⟨"Id", "", [("json", "id"), ("sanity", "notnull,maxlen"), ("notnull", "true"),
        ("maxlen", "5")], .str false ""⟩]) =
      .ok (⟨[("id", NotNullValidationFailedError)]⟩, false) :=
  ⟨⟨by decide, by decide, by decide, by decide⟩,
   (empty_string_not_null reAll "Id"
    [("json", "id"), ("sanity", "notnull,maxlen"), ("notnull", "true"), ("maxlen", "5")]
    [] [] [] (by decide) (by decide) (by decide) (by decide)).2⟩

/-- C4, the claim as stated fails: the value 23 of the int64 field tagged
`gt:"23"` gets no failure at `used_count`, and `Check` returns validity true. -/
theorem gt23_boundary_counterexample :
    Check reAll (FlatStruct "abc" (.ptr (.str false "d")) 23) = .ok (⟨[]⟩, true) := by
  decide

/-- C4, amended: on `FlatStruct`, for every value `n` of the int64 field tagged
`gt:"23"`, the other two fields being valid, the greater-than failure is
recorded at `used_count` exactly when `n < 23`; the values 23, 24 and above get
no failure and validity is true. -/
theorem gt23_boundary (re : String → Option (String → Bool)) (n : Int) :
    Check re (FlatStruct "abc" (.ptr (.str false "d")) n) =
      .ok (if n < 23 then (⟨[("used_count", GTConditionValidationFailedError)]⟩, false)
        else (⟨[]⟩, true)) ∧
    Check re (FlatStruct "abc" (.ptr (.str false "d")) 23) = .ok (⟨[]⟩, true) := by
  refine ⟨?_, rfl⟩
  have h : Check re (FlatStruct "abc" (.ptr (.str false "d")) n) =
      .ok (⟨handleInt64 n [("notnull", "true"), ("gt", "23")] [] ["used_count"]⟩,
        decide ((handleInt64 n [("notnull", "true"), ("gt", "23")] []
          ["used_count"]).length = 0)) := rfl
  have h1 : mget [("notnull", "true"), ("gt", "23")] NotNull = some "true" := by decide
  have h2 : mget [("notnull", "true"), ("gt", "23")] GreaterThan = some "23" := by decide
  have h3 : mget [("notnull", "true"), ("gt", "23")] LessThan = none := by decide
  have h4 : ParseInt "23" 64 = 23 := by decide
  have h5 : Join ["used_count"] = "used_count" := rfl
  have hv : handleInt64 n [("notnull", "true"), ("gt", "23")] [] ["used_count"] =
      if n < 23 then [("used_count", GTConditionValidationFailedError)] else [] := by
    simp only [handleInt64, handleIntWith, notNullSet, h1, h2, h3, h4, h5]
    by_cases h0 : n = 0
    · subst h0
      simp [mset]
    · by_cases hlt : n < 23
      · simp [h0, hlt, mset]
      · simp [h0, hlt]
  rw [h, hv]
  by_cases hlt : n < 23 <;> simp [hlt]

/-- C5: an int64 field whose only instruction is greater-than with the decimal
form of an int64 `t` gets a greater-than failure at its path exactly when its
value is below `t`, and with less-than instead a less-than failure exactly when
its value is above `t`.  Stated for the step of the walk that evaluates the
field (any failure map so far, any enclosing path, any remaining fields) and for
`Check` on the record made of that field alone. -/
theorem int64_threshold (re : String → Option (String → Bool)) (name : String)
    (tag : List (String × String)) (rest : List (StructField Value)) (fb : ErrorMap)
    (paths : List String) (n t : Int)
    (hlo : -(2 ^ 63 : Int) ≤ t) (hhi : t < (2 ^ 63 : Int)) :
    (instructionsOf tag = [(GreaterThan, FormatInt t)] →
      sanitizeFields re (⟨name, "", tag, .int .Int64 false n⟩ :: rest) fb paths =
        sanitizeFields re rest
          (if n < t then
            mset fb (Join (paths ++ [jsonKeyOf tag name])) GTConditionValidationFailedError
          else fb) paths ∧
      Check re (.struct [⟨name, "", tag, .int .Int64 false n⟩]) =
        .ok (if n < t then
            (⟨[(jsonKeyOf tag name, GTConditionValidationFailedError)]⟩, false)
          else (⟨[]⟩, true))) ∧
    (instructionsOf tag = [(LessThan, FormatInt t)] →
      sanitizeFields re (⟨name, "", tag, .int .Int64 false n⟩ :: rest) fb paths =
        sanitizeFields re rest
          (if n > t then
            mset fb (Join (paths ++ [jsonKeyOf tag name])) LTConditionValidationFailedError
          else fb) paths ∧
      Check re (.struct [⟨name, "", tag, .int .Int64 false n⟩]) =
        .ok (if n > t then
            (⟨[(jsonKeyOf tag name, LTConditionValidationFailedError)]⟩, false)
          else (⟨[]⟩, true))) := by
  constructor
  · intro hins
    have hl : Get tag Label ≠ "" :=
      label_ne_of_mget tag GreaterThan (FormatInt t) (by rw [hins]; simp [mget]) (by decide)
    have hstep : ∀ (rest : List (StructField Value)) (fb : ErrorMap) (paths : List String),
        sanitizeFields re (⟨name, "", tag, .int .Int64 false n⟩ :: rest) fb paths =
        sanitizeFields re rest
          (if n < t then
            mset fb (Join (paths ++ [jsonKeyOf tag name])) GTConditionValidationFailedError
          else fb) paths := by
      intro rest fb paths
      rw [leaf_step re name tag (.int .Int64 false n) rest fb paths rfl rfl hl, hins]
      have hf : handleField re (.int .Int64 false n) [(GreaterThan, FormatInt t)] fb
          (paths ++ [jsonKeyOf tag name]) = .ok (handleInt64 n _ fb _) := rfl
      rw [hf, handleInt64_only_gt n t fb _ hlo hhi]
    refine ⟨hstep rest fb paths, ?_⟩
    rw [Check_struct, hstep, sanitizeFields_nil]
    by_cases hc : n < t
    · simp [hc, mset, Join_singleton]
    · simp [hc]
  · intro hins
    have hl : Get tag Label ≠ "" :=
      label_ne_of_mget tag LessThan (FormatInt t) (by rw [hins]; simp [mget]) (by decide)
    have hstep : ∀ (rest : List (StructField Value)) (fb : ErrorMap) (paths : List String),
        sanitizeFields re (⟨name, "", tag, .int .Int64 false n⟩ :: rest) fb paths =
        sanitizeFields re rest
          (if n > t then
            mset fb (Join (paths ++ [jsonKeyOf tag name])) LTConditionValidationFailedError
          else fb) paths := by
      intro rest fb paths
      rw [leaf_step re name tag (.int .Int64 false n) rest fb paths rfl rfl hl, hins]
      have hf : handleField re (.int .Int64 false n) [(LessThan, FormatInt t)] fb
          (paths ++ [jsonKeyOf tag name]) = .ok (handleInt64 n _ fb _) := rfl
      rw [hf, handleInt64_only_lt n t fb _ hlo hhi]
    refine ⟨hstep rest fb paths, ?_⟩
    rw [Check_struct, hstep, sanitizeFields_nil]
    by_cases hc : n > t
    · simp [hc, mset, Join_singleton]
    · simp [hc]

theorem int64_threshold_witness :
    (-(2 ^ 63 : Int) ≤ 23 ∧ (23 : Int) < 2 ^ 63) ∧
    instructionsOf [("json", "used_count"), ("sanity", "gt"), ("gt", "23")]
      = [(GreaterThan, FormatInt 23)] ∧
    Check reAll (.struct [⟨"UsedCount", "",
        [("json", "used_count"), ("sanity", "gt"), ("gt", "23")], .int .Int64 false 7⟩]) =
      .ok (⟨[("used_count", GTConditionValidationFailedError)]⟩, false) :=
  ⟨by decide, by decide,
   ((int64_threshold reAll "UsedCount" [("json", "used_count"), ("sanity", "gt"), ("gt", "23")]
      [] [] [] 7 23 (by decide) (by decide)).1 (by decide)).2⟩

/-- C6: evaluation of the code at the object of `TestFlatStruct`.  The empty `Id`
gets the not-null failure at `id`, so validity is false. -/
theorem flat_struct_test_fails (re : String → Option (String → Bool)) :
    Check re flatStructOfTest
      = .ok (⟨[("id", NotNullValidationFailedError)]⟩, false) := rfl

/-- C7, the claim as stated fails: with the parameter `maxlen:"abc"`, which is not
a number, no rule of the table is violated by the string `"x"`, and yet
`handleString` writes the max-length failure at the field's path. -/
theorem handleString_last_write_wins_counterexample :
    violatedRules reAll "x" [("maxlen", "abc")] = [] ∧
    handleString reAll "x" [("maxlen", "abc")] [] ["id"]
      = .ok [("id", MaxLenConditionValidationFailedError)] := by
  decide

/-- C7, amended: last-write-wins on a string field.  Whenever the regex parameter,
if there is one, compiles, and the max-length and min-length parameters, if
present, are decimal integers of 64 bits, `handleString` returns the failure map
in which the entry at the field's path is the failure kind of the last violated
rule of the rule table in the order not-null, regex, max-length, min-length, and
returns the map unchanged when no rule is violated. -/
theorem handleString_last_write_wins (re : String → Option (String → Bool)) (str : String)
    (instructions : Instructions) (fb : ErrorMap) (path : List String)
    (hre : ∀ v, mget instructions Regex = some v → re v ≠ none)
    (hmax : ∀ v, mget instructions MaxLen = some v →
      ∃ t, decimalValue v = some t ∧ inRange 64 t = true)
    (hmin : ∀ v, mget instructions MinLen = some v →
      ∃ t, decimalValue v = some t ∧ inRange 64 t = true) :
    handleString re str instructions fb path =
      .ok (recordLast fb (Join path) (violatedRules re str instructions)) ∧
    (violatedRules re str instructions = [] →
      handleString re str instructions fb path = .ok fb) ∧
    (∀ e, (violatedRules re str instructions).getLast? = some e →
      ∃ fb1, handleString re str instructions fb path = .ok fb1 ∧
        mget fb1 (Join path) = some e) := by
  have h := handleString_recordLast re str instructions fb path hre
  rw [writtenFailures_eq_violatedRules re str instructions hmax hmin] at h
  refine ⟨h, ?_, ?_⟩
  · intro h0
    rw [h, h0, recordLast_nil]
  · intro e he
    refine ⟨_, h, ?_⟩
    simp only [recordLast, he]
    exact mget_mset_same _ _ _

theorem handleString_last_write_wins_witness :
    handleString reAll "" [("notnull", "true"), ("minlen", "1")]
        [("id", NotNullValidationFailedError)] ["id"] =
      .ok (recordLast [("id", NotNullValidationFailedError)] (Join ["id"])
        (violatedRules reAll "" [("notnull", "true"), ("minlen", "1")])) ∧
    violatedRules reAll "" [("notnull", "true"), ("minlen", "1")] =
      [NotNullValidationFailedError, MinLenConditionValidationFailedError] ∧
    recordLast [("id", NotNullValidationFailedError)] (Join ["id"])
        (violatedRules reAll "" [("notnull", "true"), ("minlen", "1")]) =
      [("id", MinLenConditionValidationFailedError)] ∧
    violatedRules reAll "é" [("maxlen", "1")] = [MaxLenConditionValidationFailedError] ∧
    handleString reAll "é" [("maxlen", "1")] [] ["id"]
      = .ok [("id", MaxLenConditionValidationFailedError)] :=
  ⟨(handleString_last_write_wins reAll "" [("notnull", "true"), ("minlen", "1")]
      [("id", NotNullValidationFailedError)] ["id"] (by intro v hv; simp [reAll])
      (by decide) (by decide)).1,
   by decide, by decide, by decide, by decide⟩

/-- C8: evaluation of the code at a record that holds a nested record by value.
Line 88 hands the struct itself, not a `reflect.Value`, to `sanitize`, whose
type assertion panics. -/
theorem nested_by_value_panics (re : String → Option (String → Bool)) :
    Check re nestedByValue = .error Panic.interfaceConversion := rfl

/-- C9, the claim as stated fails: with the unparseable parameter `maxlen:"abc"`
the non-empty string `"x"` gets the max-length failure at its path. -/
theorem unparseable_parameter_counterexample :
    ¬ isDecimalInteger "abc" ∧
    Check reAll (maxLenAbc "x")
      = .ok (⟨[("id", MaxLenConditionValidationFailedError)]⟩, false) := by
  decide

/-- C9, amended: a numeric rule (max-length, min-length, greater-than, less-than)
whose parameter is not a decimal integer is evaluated as if its parameter were
`"0"`, provided the parameter has at most four digits before its first offending
character: the evaluator of every field returns the same failure map as with the
parameter replaced by `"0"`.  In particular such a max-length fires on exactly the
non-empty strings and such a min-length on no string, and such a greater-than
fires on exactly the negative int64 values and such a less-than on exactly the
positive ones. -/
theorem unparseable_parameter_as_zero (re : String → Option (String → Bool)) (field : Value)
    (ins : Instructions) (fb : ErrorMap) (path : List String) (rule p : String)
    (hrule : numericRule rule) (hget : mget ins rule = some p)
    (hp : ¬ isDecimalInteger p)
    (hlen : (leadingDigits (unsignedPart p.data)).length ≤ 4) :
    handleField re field ins fb path = handleField re field (mset ins rule "0") fb path ∧
    (∀ str, handleString re str [(MaxLen, "0")] fb path =
      .ok (if strLen str > 0 then
        mset fb (Join path) MaxLenConditionValidationFailedError else fb)) ∧
    (∀ str, handleString re str [(MinLen, "0")] fb path = .ok fb) ∧
    (∀ n, handleInt64 n [(GreaterThan, "0")] fb path =
      if n < 0 then mset fb (Join path) GTConditionValidationFailedError else fb) ∧
    (∀ n, handleInt64 n [(LessThan, "0")] fb path =
      if n > 0 then mset fb (Join path) LTConditionValidationFailedError else fb) := by
  have hA : Atoi "0" = 0 := by decide
  refine ⟨handleField_zero_parameter re field ins fb path rule p hrule hget hp hlen,
    ?_, ?_, ?_, ?_⟩
  · intro str
    have h1 : mget [(MaxLen, "0")] NotNull = none := by decide
    have h2 : mget [(MaxLen, "0")] Regex = none := by decide
    have h3 : mget [(MaxLen, "0")] MaxLen = some "0" := by decide
    have h4 : mget [(MaxLen, "0")] MinLen = none := by decide
    simp only [handleString, notNullSet, h1, h2, h3, h4, hA]
    simp
  · intro str
    have h1 : mget [(MinLen, "0")] NotNull = none := by decide
    have h2 : mget [(MinLen, "0")] Regex = none := by decide
    have h3 : mget [(MinLen, "0")] MaxLen = none := by decide
    have h4 : mget [(MinLen, "0")] MinLen = some "0" := by decide
    simp only [handleString, notNullSet, h1, h2, h3, h4, hA]
    simp
  · intro n
    exact handleInt64_only_gt n 0 fb path (by decide) (by decide)
  · intro n
    exact handleInt64_only_lt n 0 fb path (by decide) (by decide)

theorem unparseable_parameter_as_zero_witness :
    (numericRule MaxLen ∧ mget [(MaxLen, "abc")] MaxLen = some "abc" ∧
      ¬ isDecimalInteger "abc" ∧ (leadingDigits (unsignedPart "abc".data)).length ≤ 4) ∧
    handleField reAll (.str false "x") [(MaxLen, "abc")] [] ["id"] =
      handleField reAll (.str false "x") (mset [(MaxLen, "abc")] MaxLen "0") [] ["id"] ∧
    handleField reAll (.str false "x") (mset [(MaxLen, "abc")] MaxLen "0") [] ["id"] =
      .ok [("id", MaxLenConditionValidationFailedError)] :=
  ⟨by decide,
   (unparseable_parameter_as_zero reAll (.str false "x") [(MaxLen, "abc")] [] ["id"] MaxLen
      "abc" (Or.inl rfl) (by decide) (by decide) (by decide)).1,
   by decide⟩

/-- C10: a nil reference field.  When the walk evaluates an exported field that
holds a nil pointer, it stops there, having written the not-null failure at the
field's path if the field carries `notnull` with parameter `"true"`, and
nothing otherwise; so `Check` on a record that starts with such a field returns
exactly that entry, or the empty map. -/
theorem nil_reference_field (re : String → Option (String → Bool)) (name : String)
    (tag : List (String × String)) (rest : List (StructField Value)) (fb : ErrorMap)
    (paths : List String) :
    sanitizeFields re (⟨name, "", tag, .nilPtr⟩ :: rest) fb paths =
      .ok (if mget (instructionsOf tag) NotNull = some "true" then
          mset fb (Join (paths ++ [jsonKeyOf tag name])) NotNullValidationFailedError
        else fb) ∧
    Check re (.struct (⟨name, "", tag, .nilPtr⟩ :: rest)) =
      .ok (if mget (instructionsOf tag) NotNull = some "true" then
          (⟨[(jsonKeyOf tag name, NotNullValidationFailedError)]⟩, false)
        else (⟨[]⟩, true)) := by
  have hstep : ∀ (fb : ErrorMap) (paths : List String),
      sanitizeFields re (⟨name, "", tag, .nilPtr⟩ :: rest) fb paths =
      .ok (if mget (instructionsOf tag) NotNull = some "true" then
          mset fb (Join (paths ++ [jsonKeyOf tag name])) NotNullValidationFailedError
        else fb) := by
    intro fb paths
    rw [sanitizeFields_cons]
    by_cases hl : Get tag Label = ""
    · have hnone : ¬ mget (instructionsOf tag) NotNull = some "true" := by
        intro h
        exact label_ne_of_mget tag NotNull "true" h (by decide) hl
      simp [hl, hnone]
    · by_cases hn : mget (instructionsOf tag) NotNull = some "true"
      · simp [hl, kindIsStruct, kindIsPtr, (notNullSet_eq _).mpr hn, hn]
      · have hn2 : notNullSet (instructionsOf tag) = false := by
          cases hb : notNullSet (instructionsOf tag) with
          | false => rfl
          | true => exact absurd ((notNullSet_eq _).mp hb) hn
        simp [hl, kindIsStruct, kindIsPtr, hn2, hn]
  refine ⟨hstep fb paths, ?_⟩
  rw [Check_struct, hstep]
  by_cases hn : mget (instructionsOf tag) NotNull = some "true"
  · simp [hn, mset, Join_singleton]
  · simp [hn]

/-- C11: evaluation of the code on records in which every field carries a rule
vocabulary and the first field `Ref` is a reference.  Whatever fields follow, the
walk ends at `Ref` when it is nil (lines 93 and 96) or points at a record
(line 101): the empty `Name` after it, which violates not-null, gets no failure.
After a reference to a scalar the walk goes on and `Name` gets its failure. -/
theorem walk_stops_at_reference (re : String → Option (String → Bool))
    (rest : List (StructField Value)) :
    Check re (.struct (⟨"Ref", "",
        [("json", "ref"), ("sanity", "notnull"), ("notnull", "true")], .nilPtr⟩ :: rest))
      = .ok (⟨[("ref", NotNullValidationFailedError)]⟩, false) ∧
    Check re (.struct (⟨"Ref", "", [("json", "ref"), ("sanity", "optional")], .nilPtr⟩ :: rest))
      = .ok (⟨[]⟩, true) ∧
    Check re (.struct (⟨"Ref", "", [("json", "ref"), ("sanity", "notnull"), ("notnull", "true")],
        .ptr (customerRecord "x")⟩ :: rest))
      = .ok (⟨[]⟩, true) ∧
    Check re (refThenName [("json", "ref"), ("sanity", "optional")] .nilPtr "")
      = .ok (⟨[]⟩, true) ∧
    Check re (refThenName [("json", "ref"), ("sanity", "optional")] (.ptr (.str false "d")) "")
      = .ok (⟨[("name", NotNullValidationFailedError)]⟩, false) :=
  ⟨rfl, rfl, rfl, rfl, rfl⟩

/-- C12, the claim as stated fails: when the field without a rule vocabulary is
unexported, as the untagged `note` after `Id`, `field.Interface()` of line 67
panics before the tag is read, while the record truncated to its first field
gives a failure map. -/
theorem early_abandonment_counterexample :
    idUnexportedNote[1]? = some ⟨"note", "main", [], .str false ""⟩ ∧
    Get [] Label = "" ∧
    Check reAll (.struct idUnexportedNote) = .error Panic.unexportedField ∧
    Check reAll (.struct (idUnexportedNote.take 1))
      = .ok (⟨[("id", NotNullValidationFailedError)]⟩, false) :=
  ⟨rfl, rfl, rfl, rfl⟩

/-- C12, amended: early abandonment.  When the field at position `k` of a record is exported
and has no rule vocabulary, the walk over the record gives the same result as the
walk over its first `k` fields, from any failure map and under any enclosing
path, and so does `Check`: no field at position `k` or later contributes. -/
theorem early_abandonment (re : String → Option (String → Bool))
    (fields : List (StructField Value)) (k : Nat) (f : StructField Value)
    (fb : ErrorMap) (paths : List String)
    (hk : fields[k]? = some f) (hexp : f.PkgPath = "") (hvoc : Get f.Tag Label = "") :
    sanitizeFields re fields fb paths = sanitizeFields re (fields.take k) fb paths ∧
    Check re (.struct fields) = Check re (.struct (fields.take k)) := by
  have hsplit := take_append_of_getElem? fields k f hk
  have h : ∀ (fb : ErrorMap) (paths : List String),
      sanitizeFields re fields fb paths = sanitizeFields re (fields.take k) fb paths := by
    intro fb paths
    conv => lhs; rw [hsplit]
    exact sanitizeFields_append_unannotated re _ f _ paths hexp hvoc fb
  refine ⟨h fb paths, ?_⟩
  rw [Check_struct, Check_struct, h]

theorem early_abandonment_witness :
    idNoteName[1]? = some ⟨"Note", "", [("json", "note")], .str false ""⟩ ∧
    Get [("json", "note")] Label = "" ∧
    Check reAll (.struct idNoteName) = Check reAll (.struct (idNoteName.take 1)) ∧
    Check reAll (.struct idNoteName) =
      .ok (⟨[("id", NotNullValidationFailedError)]⟩, false) :=
  ⟨rfl, rfl,
   (early_abandonment reAll idNoteName 1 ⟨"Note", "", [("json", "note")], .str false ""⟩
      [] [] rfl rfl rfl).2,
   rfl⟩

/-- C13: evaluation of the code on nested records.  A record field that carries a
rule vocabulary and holds a record by value makes the walk panic (line 88 and the
type assertion of line 58), whatever the nested record is; held by reference the
nested record is walked under the path extended by the field's resolved name, so
that the empty `b` below `a` is recorded under `"a.b"`, or under `"A.b"` when the
outer field has no json name. -/
theorem nested_record_paths (re : String → Option (String → Bool)) (name : String)
    (tag : List (String × String)) (fs rest : List (StructField Value)) (fb : ErrorMap)
    (paths : List String) :
    sanitizeFields re (⟨name, "", tag, .struct fs⟩ :: rest) fb paths =
      (if Get tag Label = "" then .ok fb else .error Panic.interfaceConversion) ∧
    sanitizeFields re (⟨name, "", tag, .ptr (.struct fs)⟩ :: rest) fb paths =
      (if Get tag Label = "" then .ok fb
        else sanitizeFields re fs fb (paths ++ [jsonKeyOf tag name])) ∧
    Check re (outerA [("json", "a"), ("sanity", "notnull"), ("notnull", "true")] (innerB ""))
      = .error Panic.interfaceConversion ∧
    Check re (outerA [("json", "a"), ("sanity", "notnull"), ("notnull", "true")]
        (.ptr (innerB "")))
      = .ok (⟨[("a.b", NotNullValidationFailedError)]⟩, false) ∧
    Check re (outerA [("sanity", "notnull"), ("notnull", "true")] (.ptr (innerB "")))
      = .ok (⟨[("A.b", NotNullValidationFailedError)]⟩, false) := by
  refine ⟨?_, ?_, rfl, rfl, rfl⟩
  · rw [sanitizeFields_cons]
    by_cases hl : Get tag Label = ""
    · simp [hl]
    · simp only [hl, ne_eq, not_true_eq_false, if_false, kindIsStruct, if_true]
      rfl
  · rw [sanitizeFields_cons]
    by_cases hl : Get tag Label = ""
    · simp [hl]
    · simp only [hl, ne_eq, not_true_eq_false, if_false, kindIsStruct, kindIsPtr, if_true,
        Bool.false_eq_true]
      rfl

/-- C14, the claim as stated fails: two fields of one record with the same json
name are two field occurrences, both visited, with the same path, and the
failure of the second replaces the failure of the first in the failure map. -/
theorem paths_unique_counterexample :
    visited reAll (sameJsonName "" "ab") = [["x"], ["x"]] ∧
    ¬ ((visited reAll (sameJsonName "" "ab")).map Join).Nodup ∧
    Check reAll (sameJsonName "" "ab")
      = .ok (⟨[("x", MinLenConditionValidationFailedError)]⟩, false) ∧
    Check reAll (sameJsonName "" "abc")
      = .ok (⟨[("x", NotNullValidationFailedError)]⟩, false) := by
  decide

/-- C14, amended: every entry of the failure map that `Check` returns lies at the
dotted path of a field occurrence that the traversal visits, and the
occurrences visited are among the field occurrences of the object.  When, in
every record of the object, the resolved field names are pairwise different and
free of dots, different field occurrences of the object, visited or not, have
different dotted paths, so that an entry identifies exactly one occurrence
visited.  In any case the dotted paths of the occurrences visited are pairwise
different as soon as their segment lists are and no segment holds a dot. -/
theorem paths_identify_occurrences (re : String → Option (String → Bool)) (o : Value) :
    (∀ info valid, Check re o = .ok (info, valid) →
      ∀ k ∈ keys info.Errors, k ∈ (visited re o).map Join) ∧
    (visited re o).Sublist (occVal o) ∧
    (namesVal o = true → (occVal o).Nodup ∧ ((occVal o).map Join).Nodup) ∧
    (namesVal o = true → (visited re o).Nodup ∧ ((visited re o).map Join).Nodup) ∧
    (namesVal o = true → ∀ info valid, Check re o = .ok (info, valid) →
      ∀ k ∈ keys info.Errors, ∃! r, r ∈ visited re o ∧ Join r = k) ∧
    ((visited re o).Nodup → (∀ r ∈ visited re o, ∀ s ∈ r, dotFree s = true) →
      ((visited re o).map Join).Nodup) := by
  have hsub := visited_sublist re o
  have hnil : ∀ r ∈ visited re o, r ≠ [] :=
    fun r hr e => nil_not_mem_occVal o (e ▸ hsub.subset hr)
  refine ⟨fun info valid h => Check_keys_visited re o info valid h, hsub,
    fun hn => ⟨(occVal_nodup o hn).1, occVal_paths_nodup o hn⟩,
    fun hn => ⟨(occVal_nodup o hn).1.sublist hsub,
      (occVal_paths_nodup o hn).sublist (hsub.map Join)⟩, ?_, ?_⟩
  · intro hn info valid h k hk
    obtain ⟨r, hr, hj⟩ := List.mem_map.mp (Check_keys_visited re o info valid h k hk)
    refine ⟨r, ⟨hr, hj⟩, ?_⟩
    rintro r2 ⟨hr2, hj2⟩
    obtain ⟨_, hd⟩ := occVal_nodup o hn
    exact Join_injective r2 r (hnil r2 hr2) (hnil r hr) (hd r2 (hsub.subset hr2))
      (hd r (hsub.subset hr)) (hj2.trans hj.symm)
  · intro hnd hdot
    refine List.Nodup.map_on ?_ hnd
    intro r1 h1 r2 h2 hj
    exact Join_injective r1 r2 (hnil r1 h1) (hnil r2 h2) (hdot r1 h1) (hdot r2 h2) hj

theorem paths_identify_occurrences_witness :
    namesVal (orderItems (.slice true [.rvalue (itemRecord "x"), .rvalue (itemRecord "")]))
      = true ∧
    Check reAll (orderItems (.slice true [.rvalue (itemRecord "x"), .rvalue (itemRecord "")]))
      = .ok (⟨[("order.items.1.name", NotNullValidationFailedError)]⟩, false) ∧
    (visited reAll
      (orderItems (.slice true [.rvalue (itemRecord "x"), .rvalue (itemRecord "")]))).map
        Join = ["order", "order.items", "order.items.0.name", "order.items.1.name"] ∧
    ((visited reAll (orderItems
      (.slice true [.rvalue (itemRecord "x"), .rvalue (itemRecord "")]))).map Join).Nodup ∧
    namesVal (.struct idNoteName) = true ∧
    visited reAll (.struct idNoteName) = [["id"], ["note"]] ∧
    occVal (.struct idNoteName) = [["id"], ["note"], ["name"]] ∧
    ((visited reAll (.struct idNoteName)).map Join).Nodup :=
  ⟨by decide, rfl, by decide,
   ((paths_identify_occurrences reAll
      (orderItems (.slice true [.rvalue (itemRecord "x"), .rvalue (itemRecord "")]))).2.2.2.1
      (by decide)).2,
   by decide, by decide, by decide,
   ((paths_identify_occurrences reAll (.struct idNoteName)).2.2.2.1 (by decide)).2⟩

/-- C15: evaluation of the code on a sequence field `items` below `order`.  With
the elements held as records, in a slice of record type or in a `[]interface{}`,
`Check` panics (type assertions of lines 144 and 58).  Only when every element is
itself a `reflect.Value` are the elements walked, and then the empty `name` of the
element at index 1 is recorded under `"order.items.1.name"`. -/
theorem sequence_element_paths (re : String → Option (String → Bool)) :
    Check re (orderItems (.slice false [itemRecord "x", itemRecord ""]))
      = .error Panic.interfaceConversion ∧
    Check re (orderItems (.slice true [itemRecord "x", itemRecord ""]))
      = .error Panic.interfaceConversion ∧
    Check re (orderItems (.slice true [.rvalue (itemRecord "x"), .rvalue (itemRecord "")]))
      = .ok (⟨[("order.items.1.name", NotNullValidationFailedError)]⟩, false) :=
  ⟨rfl, rfl, rfl⟩

/-- C16: evaluation of the code on an empty sequence field that carries
`notnull:"true"`.  For a slice of any type other than `[]interface{}`, such as an
empty `[]string`, the type assertion of line 144 panics, whatever the elements;
for an empty `[]interface{}` the not-null failure is written at the field's path
and the walk goes on with the next field. -/
theorem empty_sequence_not_null (re : String → Option (String → Bool)) (elems : List Value)
    (name : String) :
    Check re (tagsThenName (.slice false elems) name) = .error Panic.interfaceConversion ∧
    Check re (tagsThenName (.slice false []) "x") = .error Panic.interfaceConversion ∧
    Check re (tagsThenName (.slice true []) "x")
      = .ok (⟨[("tags", NotNullValidationFailedError)]⟩, false) :=
  ⟨rfl, rfl, rfl⟩

/-- C17: unsupported kinds.  When the walk evaluates an exported field whose kind
is an unsigned integer, a map, a channel or an array, it writes nothing, whatever
the value and the tag, and goes on with the fields after it, unless the field has
no rule vocabulary, in which case the walk ends there as for any other field.
So a zero `uint` with `notnull:"true"` gets no failure while the empty `Name`
after it gets its own. -/
theorem unsupported_kinds_skipped (re : String → Option (String → Bool)) (name : String)
    (tag : List (String × String)) (rest : List (StructField Value)) (fb : ErrorMap)
    (paths : List String) :
    (∀ (k : UintKind) (n : Nat),
      sanitizeFields re (⟨name, "", tag, .uint k n⟩ :: rest) fb paths =
        if Get tag Label = "" then .ok fb else sanitizeFields re rest fb paths) ∧
    (∀ keys elems : List Value,
      sanitizeFields re (⟨name, "", tag, .map keys elems⟩ :: rest) fb paths =
        if Get tag Label = "" then .ok fb else sanitizeFields re rest fb paths) ∧
    (sanitizeFields re (⟨name, "", tag, .chan⟩ :: rest) fb paths =
        if Get tag Label = "" then .ok fb else sanitizeFields re rest fb paths) ∧
    (∀ elems : List Value,
      sanitizeFields re (⟨name, "", tag, .array elems⟩ :: rest) fb paths =
        if Get tag Label = "" then .ok fb else sanitizeFields re rest fb paths) ∧
    Check re (tagsThenName (.uint .Uint64 0) "")
      = .ok (⟨[("name", NotNullValidationFailedError)]⟩, false) := by
  have h : ∀ field : Value, kindIsStruct field = false → kindIsPtr field = false →
      (∀ ins fb path, handleField re field ins fb path = .ok fb) →
      sanitizeFields re (⟨name, "", tag, field⟩ :: rest) fb paths =
        if Get tag Label = "" then .ok fb else sanitizeFields re rest fb paths := by
    intro field hs hp hf
    rw [sanitizeFields_cons]
    by_cases hl : Get tag Label = ""
    · simp [hl]
    · simp only [hl, ne_eq, not_true_eq_false, if_false, hs, hp, Bool.false_eq_true, hf]
  exact ⟨fun k n => h _ rfl rfl (fun _ _ _ => rfl),
    fun keys elems => h _ rfl rfl (fun _ _ _ => rfl),
    h _ rfl rfl (fun _ _ _ => rfl),
    fun elems => h _ rfl rfl (fun _ _ _ => rfl), rfl⟩

/-- C18: evaluation of the narrow-width evaluators on thresholds outside the field
type's range.  `handleInt8` parses with bit size 16 and converts with `int8`, so
`gt:"200"` becomes the threshold -56: the value 100, which is below 200, gets no
failure, while the same value and parameter on an int64 field get the
greater-than failure.  `handleInt16` parses `lt` with bit size 32, so
`lt:"40000"` becomes -25536 and the value 0 gets a less-than failure that an
int64 field does not get.  Where the bit size is that of the field, as for `gt`
on an int16 field, `strconv.ParseInt` returns the bound of the type for a
threshold beyond it, and the value 32767 gets no failure for `gt:"40000"`.
When the thresholds present are decimal integers in the range of the field's
type, every signed evaluator decides as `handleInt64` does. -/
theorem narrow_width_thresholds (re : String → Option (String → Bool)) :
    Check re (oneInt .Int8 100 "gt" "200") = .ok (⟨[]⟩, true) ∧
    Check re (oneInt .Int64 100 "gt" "200")
      = .ok (⟨[("n", GTConditionValidationFailedError)]⟩, false) ∧
    Check re (oneInt .Int16 0 "lt" "40000")
      = .ok (⟨[("n", LTConditionValidationFailedError)]⟩, false) ∧
    Check re (oneInt .Int64 0 "lt" "40000") = .ok (⟨[]⟩, true) ∧
    wrapInt 8 (ParseInt "200" 16) = -56 ∧ wrapInt 16 (ParseInt "40000" 32) = -25536 ∧
    Check re (oneInt .Int16 32767 "gt" "40000") = .ok (⟨[]⟩, true) ∧
    Check re (oneInt .Int64 32767 "gt" "40000")
      = .ok (⟨[("n", GTConditionValidationFailedError)]⟩, false) ∧
    (∀ (k : IntKind) (d : Bool) (n : Int) (ins : Instructions) (fb : ErrorMap)
        (path : List String),
      thresholdOk k.bits (mget ins GreaterThan) (fun _ => false) = true →
      thresholdOk k.bits (mget ins LessThan) (fun _ => false) = true →
      handleField re (.int k d n) ins fb path = handleField re (.int .Int64 d n) ins fb path) :=
  ⟨rfl, rfl, rfl, rfl, by decide, by decide, rfl, rfl,
   fun k d n ins fb path hgt hlt => handleField_int_in_range re k d n ins fb path hgt hlt⟩

theorem narrow_width_thresholds_witness :
    thresholdOk 8 (mget [(GreaterThan, "120")] GreaterThan) (fun _ => false) = true ∧
    handleField reAll (.int .Int8 false 100) [(GreaterThan, "120")] [] ["n"] =
      handleField reAll (.int .Int64 false 100) [(GreaterThan, "120")] [] ["n"] ∧
    handleField reAll (.int .Int8 false 100) [(GreaterThan, "120")] [] ["n"] =
      .ok [("n", GTConditionValidationFailedError)] :=
  ⟨by decide,
   (narrow_width_thresholds reAll).2.2.2.2.2.2.2.2 .Int8 false 100 [(GreaterThan, "120")] []
     ["n"] (by decide) (by decide),
   by decide⟩

/-- C19: instruction resolution.  The instruction map of a field holds the
parameter `v` under the rule name `k` exactly when `k` is one of the
comma-separated entries of the `sanity` tag and the field's tag under `k` is the
non-empty string `v`; a rule name that is not listed, or whose parameter tag is
missing or empty, has no entry and is therefore never evaluated.  The entries
are the pieces of the `sanity` tag between its commas: joined with commas they
give the tag back, and none contains a comma. -/
theorem instruction_resolution (tag : List (String × String)) (k v : String) :
    (mget (instructionsOf tag) k = some v ↔
      k ∈ Split (Get tag Label) ∧ Get tag k = v ∧ v ≠ "") ∧
    (k ∉ Split (Get tag Label) → mget (instructionsOf tag) k = none) ∧
    (Get tag k = "" → mget (instructionsOf tag) k = none) ∧
    (String.intercalate "," (Split (Get tag Label)) = Get tag Label ∧
      ∀ e ∈ Split (Get tag Label), ',' ∉ e.data) := by
  have h := mget_buildInstructions tag (Split (Get tag Label)) k []
  have h0 : mget ([] : Instructions) k = none := rfl
  rw [h0] at h
  unfold instructionsOf
  refine ⟨?_, ?_, ?_, Split_spec (Get tag Label)⟩
  · rw [h]
    constructor
    · intro hv
      by_cases hc : k ∈ Split (Get tag Label) ∧ Get tag k ≠ ""
      · rw [if_pos hc] at hv
        have hv2 : Get tag k = v := by simpa using hv
        exact ⟨hc.1, hv2, hv2 ▸ hc.2⟩
      · rw [if_neg hc] at hv
        exact absurd hv (by simp)
    · rintro ⟨h1, h2, h3⟩
      rw [if_pos ⟨h1, h2 ▸ h3⟩, h2]
  · intro hk
    rw [h, if_neg (fun hc => hk hc.1)]
  · intro hg
    rw [h, if_neg (fun hc => hc.2 hg)]

theorem instruction_resolution_witness :
    ("maxlen" ∉ Split (Get [("sanity", "notnull"), ("notnull", "true"), ("maxlen", "5")] Label) ∧
      mget (instructionsOf [("sanity", "notnull"), ("notnull", "true"), ("maxlen", "5")])
        "maxlen" = none) ∧
    (Get [("sanity", "notnull,maxlen"), ("notnull", "true")] "maxlen" = "" ∧
      mget (instructionsOf [("sanity", "notnull,maxlen"), ("notnull", "true")])
        "maxlen" = none) :=
  ⟨⟨by decide,
    (instruction_resolution [("sanity", "notnull"), ("notnull", "true"), ("maxlen", "5")]
      "maxlen" "5").2.1 (by decide)⟩,
   ⟨by decide,
    (instruction_resolution [("sanity", "notnull,maxlen"), ("notnull", "true")]
      "maxlen" "5").2.2.1 (by decide)⟩⟩

/-- C20: a non-nil reference to a scalar is validated as the scalar itself.  In any
record, at any depth of the walk, replacing a field that holds the string, bool or
signed integer `v` by a field with the same name and tag that points at `v`
changes neither the result of the walk nor the result of `Check`; and after such
a reference field the walk goes on with the remaining fields exactly as after
the scalar field. -/
theorem reference_to_scalar (re : String → Option (String → Bool))
    (pre post : List (StructField Value)) (name pkgPath : String)
    (tag : List (String × String)) (v : Value) (fb : ErrorMap) (paths : List String)
    (hv : isScalar v = true) :
    sanitizeFields re (pre ++ ⟨name, pkgPath, tag, .ptr v⟩ :: post) fb paths =
      sanitizeFields re (pre ++ ⟨name, pkgPath, tag, v⟩ :: post) fb paths ∧
    Check re (.struct (pre ++ ⟨name, pkgPath, tag, .ptr v⟩ :: post)) =
      Check re (.struct (pre ++ ⟨name, pkgPath, tag, v⟩ :: post)) ∧
    sanitizeFields re (⟨name, "", tag, .ptr v⟩ :: post) fb paths =
      (if Get tag Label = "" then .ok fb
        else
          match handleField re v (instructionsOf tag) fb (paths ++ [jsonKeyOf tag name]) with
          | .error e => .error e
          | .ok fb1 => sanitizeFields re post fb1 paths) := by
  have h : ∀ (fb : ErrorMap) (paths : List String),
      sanitizeFields re (pre ++ ⟨name, pkgPath, tag, .ptr v⟩ :: post) fb paths =
      sanitizeFields re (pre ++ ⟨name, pkgPath, tag, v⟩ :: post) fb paths := by
    intro fb paths
    exact sanitizeFields_append_congr re pre _ _ paths
      (fun fb => sanitizeFields_ptr_scalar re name pkgPath tag v post fb paths hv) fb
  refine ⟨h fb paths, ?_, ?_⟩
  · rw [Check_struct, Check_struct, h]
  · rw [sanitizeFields_ptr_scalar re name "" tag v post fb paths hv, sanitizeFields_cons]
    by_cases hl : Get tag Label = ""
    · simp [hl]
    · cases v with
      | str d s => simp [hl, kindIsStruct, kindIsPtr]
      | bool d b => simp [hl, kindIsStruct, kindIsPtr]
      | int k d n => simp [hl, kindIsStruct, kindIsPtr]
      | _ => exact absurd hv (by simp [isScalar])

theorem reference_to_scalar_witness :
    isScalar (.str false "this is just a sample description") = true ∧
    Check reAll (FlatStruct "" (.ptr (.str false "this is just a sample description")) 7) =
      Check reAll (FlatStruct "" (.str false "this is just a sample description") 7) ∧
    Check reAll (FlatStruct "" (.str false "this is just a sample description") 7) =
      .ok (⟨[("id", NotNullValidationFailedError),
        ("used_count", GTConditionValidationFailedError)]⟩, false) :=
  ⟨rfl,
   (reference_to_scalar reAll
      [⟨"Id", "",
        [("json", "id"), ("sanity", "notnull,maxlen"), ("notnull", "true"), ("maxlen", "5")],
        .str false ""⟩]
      [⟨"UsedCount", "",
        [("json", "used_count"), ("sanity", "notnull,gt"), ("gt", "23"), ("notnull", "true")],
        .int .Int64 false 7⟩]
      "Description" "" [("json", "description"), ("sanity", "notnull"), ("notnull", "true")]
      (.str false "this is just a sample description") [] [] rfl).2.1,
   rfl⟩

end Sanity
